import Mathlib

/-! Contiguous frame pool (`cont_frame_pool.C`).

A shallow embedding of `ContFramePool`: the two-bit-per-frame bitmap, the
constructor, `get_frames`, `mark_inaccessible`, `pool_release_frames`, the
static pool list with the static `release_frames`, and `needed_info_frames`.

Modelling conventions.

* `bitmap` is a raw `unsigned char *`; the model keeps the bytes that can be
  addressed through it as two lists: `bitmap` holds `bitmap[0]`, `bitmap[1]`,
  ... and `front` holds `bitmap[-1]`, `bitmap[-2]`, ... (the memory in front of
  the pointer, which the code reaches with a negative index).  `bitmap` may be
  longer than the `ceil(nframes / 4)` bytes that hold the pool's own frame
  states: the bytes behind them are the memory that follows the bitmap.  Only
  an access outside both lists is a memory fault, reported as `none`.
* `unsigned long` is 32 bits wide (`ULONG_MOD`), `int` is a 32-bit
  two's-complement integer (`to_int`).
* Arithmetic on the `int` locals is exact (`Int`); the conversions that are
  modelled are the initialisations of `int` locals from unsigned arguments.
* Local variables of a member function live in `Regs`.
* Console output is not modelled.
-/

/-! ## Machine integers -/

/-- Number of values of an `unsigned long` / `unsigned int` (32-bit target). -/
def ULONG_MOD : Nat := 2 ^ 32

/-- Conversion of an unsigned value to `int`, as in `int N_frames = _n_frames;`:
values from `2^31` on become negative. -/
def to_int (x : Nat) : Int :=
  if x % 2 ^ 32 < 2 ^ 31 then ((x % 2 ^ 32 : Nat) : Int)
  else ((x % 2 ^ 32 : Nat) : Int) - 2 ^ 32

/-- The statement `nFreeFrames--` on an `unsigned long`: zero wraps around to
the largest value. -/
def ulong_dec (x : Nat) : Nat := if x = 0 then ULONG_MOD - 1 else x - 1

/-- The statement `nFreeFrames++` on an `unsigned long`. -/
def ulong_inc (x : Nat) : Nat := (x + 1) % ULONG_MOD

/-- Value of the C expression `a == b`. -/
def c_eq (a b : Nat) : Nat := if a = b then 1 else 0

/-- Value of the C expression `a != b`. -/
def c_ne (a b : Nat) : Nat := if a = b then 0 else 1

/-! ## Frame states

Source comment: `00 - unreserved, 11 - reserved, 01 - info frame,
10 - head of sequence`. -/

/-- State `00`. -/
def FREE : Nat := 0
/-- State `01`, the frame holding the bitmap. -/
def BOOKKEEPING : Nat := 1
/-- State `10`. -/
def HEAD_OF_SEQUENCE : Nat := 2
/-- State `11`. -/
def ALLOCATED : Nat := 3

/-- The two state bits of frame `k`: byte `k / 4`, shifted right by
`6 - 2 * (k % 4)`.  This is the layout fixed by the masks `0xc0`, `0x30`,
`0x0c`, `0x03` of the source. -/
def frame_state (bm : List Nat) (k : Nat) : Option Nat :=
  (bm[k / 4]?).map fun b => (b >>> (6 - 2 * (k % 4))) &&& 3

/-! ## Pool object and memory access -/

/-- Data members of `ContFramePool`, with the memory its `bitmap` pointer
addresses: `bitmap` lists `bitmap[0]`, `bitmap[1]`, ... and `front` lists the
bytes in front of the pointer, nearest first: `bitmap[-1]`, `bitmap[-2]`, ... -/
structure ContFramePool where
  base_frame_no : Nat
  nframes : Nat
  nFreeFrames : Nat
  info_frame_no : Nat
  bitmap : List Nat
  front : List Nat := []
deriving DecidableEq

/-- The whole addressable memory around the bitmap pointer, lowest address
first.  The source's `bitmap[i]` is the byte at offset `i + front.length` of
this region, for negative `i` as well. -/
def ContFramePool.region (p : ContFramePool) : List Nat := p.front.reverse ++ p.bitmap

/-- The pool with the memory around its bitmap pointer replaced by the region
`R` (split at the pointer) and the free counter by `nF`. -/
def ContFramePool.with_region (p : ContFramePool) (R : List Nat) (nF : Nat) : ContFramePool :=
  { p with front := (R.take p.front.length).reverse, bitmap := R.drop p.front.length,
           nFreeFrames := nF }

/-- Locals and members touched by the marking and releasing code.  `bitmap` is
the memory region handed to the code and `i` the offset of the current byte in
that region.  `get_frames` starts at the bitmap pointer and only moves upwards:
it is given the bytes from the pointer on, and `i` is the source's `i`.
`mark_inaccessible` and `pool_release_frames` start at an index computed from an
`int` that can be negative: they are given the whole region
(`ContFramePool.region`), and `i` is the source's `i` plus the number of bytes
in front of the pointer. -/
structure Regs where
  bitmap : List Nat
  nFreeFrames : Nat
  N_frames : Int
  i : Int
deriving DecidableEq

/-- Read of the byte at offset `i` of the region `bm`.  With the whole region
handed over, a negative index of the source is a non-negative offset as long as
it stays inside the memory in front of the pointer; an offset outside the
region is a memory fault. -/
def read_byte (bm : List Nat) (i : Int) : Option Nat :=
  if 0 ≤ i then bm[i.toNat]? else none

/-- Store of `v` in the byte at offset `i` of the region `bm`; an offset outside
the region is a memory fault. -/
def write_byte (bm : List Nat) (i : Int) (v : Nat) : Option (List Nat) :=
  if 0 ≤ i ∧ i.toNat < bm.length then some (bm.set i.toNat v) else none

/-- The statement group `bitmap[i] |= m; nFreeFrames--; N_frames--;`. -/
def mark (m : Nat) (s : Regs) : Option Regs :=
  (read_byte s.bitmap s.i).bind fun b =>
  (write_byte s.bitmap s.i (b ||| m)).bind fun bm =>
  some { bitmap := bm, nFreeFrames := ulong_dec s.nFreeFrames,
         N_frames := s.N_frames - 1, i := s.i }

/-- The statement `i++`. -/
def incr_i (s : Regs) : Regs := { s with i := s.i + 1 }

/-- The loop `while(N_frames > 0){ ... }` that marks whole bytes (lines 212-224,
repeated verbatim in every branch).  The first argument bounds the number of
iterations; `N_frames.toNat` is always enough because every iteration
decrements `N_frames`. -/
def mark_loop : Nat → Regs → Option Regs
  | 0, s => if s.N_frames > 0 then none else some s
  | fuel + 1, s =>
    if s.N_frames > 0 then
      (mark 0xc0 s).bind fun s1 =>
      if s1.N_frames = 0 then some s1 else
      (mark 0x30 s1).bind fun s2 =>
      if s2.N_frames = 0 then some s2 else
      (mark 0x0c s2).bind fun s3 =>
      if s3.N_frames = 0 then some s3 else
      (mark 0x03 s3).bind fun s4 =>
      if (incr_i s4).N_frames = 0 then some (incr_i s4) else mark_loop fuel (incr_i s4)
    else some s

/-- Guarded statement `if(N_frames > 0){ bitmap[i] |= m; ... }`. -/
def mark_if (m : Nat) (s : Regs) : Option Regs :=
  if s.N_frames > 0 then mark m s else some s

/-- Guarded statement `if(N_frames > 0){ bitmap[i] |= m; ...; i++;}`. -/
def mark_if_incr (m : Nat) (s : Regs) : Option Regs :=
  if s.N_frames > 0 then (mark m s).map incr_i else some s

/-- The four marking branches keyed by `j` (lines 202-291 and 308-393). -/
def mark_branch (j : Int) (s : Regs) : Option Regs :=
  if j = 0 then
    (mark 0x80 s).bind fun s =>
    (mark_if 0x30 s).bind fun s =>
    (mark_if 0x0c s).bind fun s =>
    (mark_if_incr 0x03 s).bind fun s =>
    mark_loop s.N_frames.toNat s
  else if j = 1 then
    (mark 0x20 s).bind fun s =>
    (mark_if 0x0c s).bind fun s =>
    (mark_if_incr 0x03 s).bind fun s =>
    mark_loop s.N_frames.toNat s
  else if j = 2 then
    (mark 0x08 s).bind fun s =>
    (mark_if_incr 0x03 s).bind fun s =>
    mark_loop s.N_frames.toNat s
  else if j = 3 then
    (mark 0x02 s).bind fun s =>
    mark_loop (incr_i s).N_frames.toNat (incr_i s)
  else some s

/-! ## Constructor -/

/-- The loop `for(int i=0; i*4 < _n_frames; i++) bitmap[i] = 0x00;`. -/
def init_loop (_n_frames : Nat) : Nat → Int → List Nat → Option (List Nat)
  | 0, _, _ => none
  | fuel + 1, i, bm =>
    if i * 4 < (_n_frames : Int) then
      (write_byte bm i 0x00).bind fun bm1 => init_loop _n_frames fuel (i + 1) bm1
    else some bm

/-- The constructor (lines 136-171), on the memory found at the address the
bitmap pointer is set to: `mem` from the pointer on, `front` in front of it
(the constructor only uses indices from 0 upwards).  The two statements on the static pool list
(lines 143-144) do not touch the object; they are `Registry.register`, and
`ContFramePool.construct_in` runs them before this function.  The
assignment to the parameter `_n_info_frames` (line 165) has no effect on the
object either. -/
def ContFramePool.construct (_base_frame_no _n_frames _info_frame_no _n_info_frames : Nat)
    (mem front : List Nat) : Option ContFramePool :=
  (init_loop _n_frames (_n_frames + 1) 0 mem).bind fun bm =>
  if _info_frame_no = 0 then
    (read_byte bm 0).bind fun b =>
    (write_byte bm 0 (b ||| 0x40)).bind fun bm1 =>
    some { base_frame_no := _base_frame_no, nframes := _n_frames,
           nFreeFrames := ulong_dec _n_frames, info_frame_no := _info_frame_no,
           bitmap := bm1, front := front }
  else
    some { base_frame_no := _base_frame_no, nframes := _n_frames,
           nFreeFrames := _n_frames, info_frame_no := _info_frame_no,
           bitmap := bm, front := front }

/-! ## get_frames -/

/-- The search `while(bitmap[i] != 0x0) i++;` started at index `i`. -/
def search_zero : List Nat → Nat → Option Nat
  | [], _ => none
  | b :: rest, i => if b ≠ 0 then search_zero rest (i + 1) else some i

/-- Ways `get_frames` can end. -/
inductive GetResult where
  /-- An access left the addressable memory. -/
  | fault
  /-- The early `return 0;` of line 194, nothing marked. -/
  | no_region (p : ContFramePool)
  /-- The final `return frame_no;` after marking. -/
  | allocated (frame_no : Nat) (p : ContFramePool)
deriving DecidableEq

/-- The value the C function returns. -/
def GetResult.value : GetResult → Option Nat
  | .fault => none
  | .no_region _ => some 0
  | .allocated f _ => some f

/-- The pool after the call. -/
def GetResult.pool : GetResult → Option ContFramePool
  | .fault => none
  | .no_region p => some p
  | .allocated _ p => some p

/-- The member function `get_frames` (lines 182-297).  `j` is initialised to `0`
and never assigned, so only the branch `j == 0` can run and the `int`
`frame_no` holds `i * 4`; the function hands it back as a 32-bit
`unsigned long`, that is modulo `2^32`.  The search and the marking only use
indices from 0 upwards, so the memory in front of the pointer is untouched. -/
def ContFramePool.get_frames (p : ContFramePool) (_n_frames : Nat) : GetResult :=
  let N_frames := to_int _n_frames
  let j : Int := 0
  match search_zero p.bitmap 0 with
  | none => .fault
  | some i =>
    if i % ULONG_MOD ≥ p.nframes * 4 % ULONG_MOD then .no_region p
    else
      match mark_branch j { bitmap := p.bitmap, nFreeFrames := p.nFreeFrames,
                            N_frames := N_frames, i := (i : Int) } with
      | none => .fault
      | some s =>
        .allocated (i * 4 % ULONG_MOD) { p with bitmap := s.bitmap, nFreeFrames := s.nFreeFrames }

/-! ## mark_inaccessible -/

/-- The member function `mark_inaccessible` (lines 299-397).  The start index
`i = Base_frame_no / 4` is negative for frame numbers from `2^31` on; the code
runs on the whole region, where `bitmap[i]` is at offset `i + front.length`. -/
def ContFramePool.mark_inaccessible (p : ContFramePool) (_base_frame_no _n_frames : Nat) :
    Option ContFramePool :=
  let Base_frame_no := to_int _base_frame_no
  let N_frames := to_int _n_frames
  let i := Base_frame_no.tdiv 4
  let j := Base_frame_no.tmod 4
  (mark_branch j { bitmap := p.region, nFreeFrames := p.nFreeFrames,
                   N_frames := N_frames, i := i + p.front.length }).map fun s =>
    p.with_region s.bitmap s.nFreeFrames

/-! ## pool_release_frames -/

/-- The statement group `bitmap[i] &= m; nFreeFrames++;`. -/
def clear (m : Nat) (s : Regs) : Option Regs :=
  (read_byte s.bitmap s.i).bind fun b =>
  (write_byte s.bitmap s.i (b &&& m)).bind fun bm =>
  some { s with bitmap := bm, nFreeFrames := ulong_inc s.nFreeFrames }

/-- Truth value of the C condition `bitmap[i] & m`. -/
def test (m : Nat) (s : Regs) : Option Bool :=
  (read_byte s.bitmap s.i).map fun b => decide (b &&& m ≠ 0)

/-- Guarded statement `if(bitmap[i] & c){ bitmap[i] &= m; nFreeFrames++; }`. -/
def clear_if (c m : Nat) (s : Regs) : Option Regs :=
  (test c s).bind fun t => if t then clear m s else some s

/-- Guarded statement `if(bitmap[i] & c){ bitmap[i] &= m; nFreeFrames++; i++; }`. -/
def clear_if_incr (c m : Nat) (s : Regs) : Option Regs :=
  (test c s).bind fun t => if t then (clear m s).map incr_i else some s

/-- The loop `while(bitmap[i] & 0xc0 == 0xc0){ ... }` (lines 432-444, repeated in
every branch).  `==` and `!=` bind tighter than `&`, so the loop condition is
`bitmap[i] & (0xc0 == 0xc0)` and the break conditions are
`bitmap[i] & (0x03 != 0x03)` and so on.  The first argument bounds the number
of iterations. -/
def release_loop : Nat → Regs → Option Regs
  | 0, _ => none
  | fuel + 1, s =>
    (test (c_eq 0xc0 0xc0) s).bind fun t =>
    if t then
      (clear 0x3f s).bind fun s1 =>
      (test (c_ne 0x03 0x03) s1).bind fun b1 =>
      if b1 then some s1 else
      (clear 0xcf s1).bind fun s2 =>
      (test (c_ne 0x0c 0x0c) s2).bind fun b2 =>
      if b2 then some s2 else
      (clear 0xf3 s2).bind fun s3 =>
      (test (c_ne 0x03 0x03) s3).bind fun b3 =>
      if b3 then some s3 else
      (clear 0xfc s3).bind fun s4 =>
      release_loop fuel (incr_i s4)
    else some s

/-- The four releasing branches keyed by `j` (lines 424-504). -/
def release_branch (j : Int) (s : Regs) : Option Regs :=
  if j = 0 then
    (clear 0x3f s).bind fun s =>
    (clear_if (c_eq 0x30 0x30) 0xcf s).bind fun s =>
    (clear_if (c_eq 0x0c 0x0c) 0xf3 s).bind fun s =>
    (clear_if_incr (c_eq 0x03 0x03) 0xfc s).bind fun s =>
    release_loop (s.bitmap.length + 1) s
  else if j = 1 then
    (clear 0xcf s).bind fun s =>
    (clear_if (c_eq 0x0c 0x0c) 0xf3 s).bind fun s =>
    (clear_if_incr (c_eq 0x03 0x03) 0xfc s).bind fun s =>
    release_loop (s.bitmap.length + 1) s
  else if j = 2 then
    (clear 0xf3 s).bind fun s =>
    (clear_if_incr (c_eq 0x03 0x03) 0xfc s).bind fun s =>
    release_loop (s.bitmap.length + 1) s
  else if j = 3 then
    (clear 0xfc s).bind fun s =>
    release_loop ((incr_i s).bitmap.length + 1) (incr_i s)
  else some s

/-- The member function `pool_release_frames` (lines 415-508).  It has no
failure path: the result is `none` only for a memory fault.  The release code
has no counter `N_frames`; that field of `Regs` is set to `0` and never read.
As in `mark_inaccessible` the start index can be negative and the code runs on
the whole region. -/
def ContFramePool.pool_release_frames (p : ContFramePool) (_first_frame_no : Nat) :
    Option ContFramePool :=
  let First_frame_no := to_int _first_frame_no
  let i := First_frame_no.tdiv 4
  let j := First_frame_no.tmod 4
  (release_branch j { bitmap := p.region, nFreeFrames := p.nFreeFrames,
                      N_frames := 0, i := i + p.front.length }).map fun s =>
    p.with_region s.bitmap s.nFreeFrames

/-! ## Frame-wise description of marking

The marking code is compared with these frame-by-frame functions. -/

/-- What the callers keep of the local state: bitmap and free counter. -/
def Regs.out (s : Regs) : List Nat × Nat := (s.bitmap, s.nFreeFrames)

/-- OR the two-bit value `v` into the state of frame `k`. -/
def or_frame (bm : List Nat) (k v : Nat) : Option (List Nat) :=
  (bm[k / 4]?).map fun b => bm.set (k / 4) (b ||| v <<< (6 - 2 * (k % 4)))

/-- OR `11` into the states of the `c` frames from `k` on, in ascending order. -/
def mark_run : Nat → List Nat → Nat → Option (List Nat)
  | 0, bm, _ => some bm
  | c + 1, bm, k => (or_frame bm k 3).bind fun bm1 => mark_run c bm1 (k + 1)

/-- The free counter after `n` executions of `nFreeFrames--`. -/
def ulong_dec_n : Nat → Nat → Nat
  | 0, x => x
  | n + 1, x => ulong_dec_n n (ulong_dec x)

/-- OR `10` into the state of frame `F` and `11` into the states of the `c`
frames behind it. -/
def mark_seq (bm : List Nat) (F c : Nat) : Option (List Nat) :=
  (or_frame bm F 2).bind fun b1 => mark_run c b1 (F + 1)

/-- A call of one of the three mutating member functions. -/
inductive PoolCall where
  | get_frames (_n_frames : Nat)
  | mark_inaccessible (_base_frame_no _n_frames : Nat)
  | pool_release_frames (_first_frame_no : Nat)
deriving DecidableEq

/-- The pool after one call (`none` for a memory fault). -/
def ContFramePool.call (p : ContFramePool) : PoolCall → Option ContFramePool
  | .get_frames n => (p.get_frames n).pool
  | .mark_inaccessible b n => p.mark_inaccessible b n
  | .pool_release_frames f => p.pool_release_frames f

/-- The pool after a sequence of calls. -/
def ContFramePool.calls : ContFramePool → List PoolCall → Option ContFramePool
  | p, [] => some p
  | p, c :: cs => (p.call c).bind fun p1 => p1.calls cs

/-- Number of frames of the pool whose state is `FREE`. -/
def count_free (p : ContFramePool) : Nat :=
  ((List.range p.nframes).filter fun k => decide (frame_state p.bitmap k = some FREE)).length

/-- The pool has `n` consecutive `FREE` frames starting at some frame `f`. -/
def has_free_run (p : ContFramePool) (n : Nat) : Prop :=
  ∃ f, f < p.nframes ∧ (f + n ≤ p.nframes ∧ ∀ k, k < n → frame_state p.bitmap (f + k) = some FREE)

instance (p : ContFramePool) (n : Nat) : Decidable (has_free_run p n) := by
  unfold has_free_run
  infer_instance

/-! ## Concrete pools -/

/-- The pool of the worked example right after construction: 1024 frames,
frame 0 holding the bitmap. -/
def pool1024 : ContFramePool :=
  { base_frame_no := 0, nframes := 1024, nFreeFrames := 1023, info_frame_no := 0,
    bitmap := 0x40 :: List.replicate 255 0 }

/-- A pool of 16 frames right after construction, frame 0 holding the bitmap. -/
def pool16 : ContFramePool :=
  { base_frame_no := 0, nframes := 16, nFreeFrames := 15, info_frame_no := 0,
    bitmap := [0x40, 0, 0, 0] }

/-- The example pool after `get_frames(10)`: the code marks frames 4 to 13. -/
def pool1024_get10 : ContFramePool :=
  { pool1024 with nFreeFrames := 1013,
                  bitmap := [0x40, 0xBF, 0xFF, 0xF0] ++ List.replicate 252 0 }

/-- The 16-frame pool after `get_frames(5)`: frames 4 to 8 are marked. -/
def pool16_get5 : ContFramePool :=
  { pool16 with nFreeFrames := 10, bitmap := [0x40, 0xBF, 0xC0, 0] }

/-- The 16-frame pool after `mark_inaccessible(8, 4)`. -/
def pool16_reserved : ContFramePool :=
  { pool16 with nFreeFrames := 11, bitmap := [0x40, 0, 0xBF, 0] }

/-- A pool of 4 frames with its bitmap in an external info frame. -/
def pool4 : ContFramePool :=
  { base_frame_no := 0, nframes := 4, nFreeFrames := 4, info_frame_no := 1, bitmap := [0] }

/-- The 4-frame pool with all frames `FREE` and a free counter of zero. -/
def pool4_drained : ContFramePool := { pool4 with nFreeFrames := 0 }

/-- Twelve calls that lead from `pool4` to `pool4_drained`: four rounds of
marking frame 0 twice and releasing it once. -/
def drain_calls : List PoolCall :=
  (List.replicate 4 [PoolCall.mark_inaccessible 0 1, PoolCall.mark_inaccessible 0 1,
    PoolCall.pool_release_frames 0]).flatten

/-- A pool of `2^31 + 2` frames, all `FREE`, with an external bitmap of
`2^29 + 1` bytes. -/
def pool_huge : ContFramePool :=
  { base_frame_no := 0, nframes := 2 ^ 31 + 2, nFreeFrames := 2 ^ 31 + 2,
    info_frame_no := 2 ^ 31 + 2, bitmap := List.replicate (2 ^ 29 + 1) 0 }

/-! ## Calls that mark free frames only -/

/-- Frames `b .. b+n-1` are `FREE` frames of the pool. -/
def ContFramePool.frames_free (p : ContFramePool) (b n : Nat) : Prop :=
  b + n ≤ p.nframes ∧ ∀ k, k < n → frame_state p.bitmap (b + k) = some FREE

instance (p : ContFramePool) (b n : Nat) : Decidable (p.frames_free b n) := by
  unfold ContFramePool.frames_free
  infer_instance

/-- One call, admitted only when the frames it marks are `FREE` frames of the
pool: a reservation of such frames, a `get_frames` that marks such frames (the
`n` frames from frame `4 * i` on, byte `i` being the first all-zero byte), or a
`get_frames` that returns early.  Releases are not admitted. -/
def ContFramePool.call_on_free (p : ContFramePool) : PoolCall → Option ContFramePool
  | .mark_inaccessible b n =>
    if 1 ≤ n ∧ p.frames_free b n then p.mark_inaccessible b n else none
  | .get_frames n =>
    match p.get_frames n, search_zero p.bitmap 0 with
    | .allocated _ p', some i =>
      if 1 ≤ n ∧ n < 2 ^ 31 ∧ p.frames_free (4 * i) n then some p' else none
    | .no_region p', _ => some p'
    | _, _ => none
  | .pool_release_frames _ => none

/-- A sequence of calls, each admitted by `call_on_free`. -/
def ContFramePool.calls_on_free : ContFramePool → List PoolCall → Option ContFramePool
  | p, [] => some p
  | p, c :: cs => (p.call_on_free c).bind fun p1 => p1.calls_on_free cs

/-! ## The static pool list -/

/-- The static members `framepool_list[100]` and `framepool_index`.  A slot
holds a pool object or is a null pointer (`none`). -/
structure Registry where
  framepool_list : List (Option ContFramePool)
  framepool_index : Nat
deriving DecidableEq

/-- The static members as initialised: a hundred null pointers and index `0`. -/
def Registry.empty : Registry :=
  { framepool_list := List.replicate 100 none, framepool_index := 0 }

/-- The first two statements of the constructor (lines 143-144):
`if(framepool_index != 0) framepool_index++;` on the `unsigned int` index, and
`framepool_list[framepool_index] == this;`.  The second is a comparison whose
value is dropped: nothing is stored and the value read, from the array or from
behind it, is not used, so the statement has no effect for any index. -/
def Registry.register (r : Registry) : Registry :=
  { r with framepool_index :=
      if r.framepool_index ≠ 0 then (r.framepool_index + 1) % ULONG_MOD
      else r.framepool_index }

/-- The whole constructor: the statements on the static pool list, then the
object itself. -/
def ContFramePool.construct_in (r : Registry)
    (_base_frame_no _n_frames _info_frame_no _n_info_frames : Nat) (mem front : List Nat) :
    Option (Registry × ContFramePool) :=
  (ContFramePool.construct _base_frame_no _n_frames _info_frame_no _n_info_frames mem
    front).map fun p => (r.register, p)

/-- Arguments of one constructor call, with the memory found at the bitmap
address (`mem` from the address on, `front` in front of it). -/
structure CtorArgs where
  base_frame_no : Nat
  n_frames : Nat
  info_frame_no : Nat
  n_info_frames : Nat
  mem : List Nat
  front : List Nat := []
deriving DecidableEq

/-- The static pool list after a series of constructor calls. -/
def Registry.construct_all : Registry → List CtorArgs → Option Registry
  | r, [] => some r
  | r, a :: rest =>
    (ContFramePool.construct_in r a.base_frame_no a.n_frames a.info_frame_no
        a.n_info_frames a.mem a.front).bind fun rp => rp.1.construct_all rest

/-- What the static `release_frames` did: the pool list afterwards, the slots
whose `pool_release_frames` was called (in order), and whether the call ended in
a fault (a null slot dereferenced, or a fault inside `pool_release_frames`). -/
structure DispatchResult where
  framepool_list : List (Option ContFramePool)
  forwarded : List Nat
  fault : Bool
deriving DecidableEq

/-- The condition of lines 406-407,
`_first_frame_no >= base_frame_no && _first_frame_no <= base_frame_no + nframes`,
with the sum computed in `unsigned long`. -/
def ContFramePool.dispatch_test (p : ContFramePool) (_first_frame_no : Nat) : Bool :=
  decide (_first_frame_no ≥ p.base_frame_no) &&
    decide (_first_frame_no ≤ (p.base_frame_no + p.nframes) % ULONG_MOD)

/-- The frame whose address the constructor stores in the `bitmap` pointer
(lines 154-158): `base_frame_no` when `info_frame_no` is zero, `info_frame_no`
otherwise.  Pools with the same frame here have the same pointer and share
the memory it addresses. -/
def ContFramePool.bitmap_frame (p : ContFramePool) : Nat :=
  if p.info_frame_no = 0 then p.base_frame_no else p.info_frame_no

/-- After pool `p1` has written to the memory at its bitmap pointer, every pool
of the list with the same bitmap pointer sees that memory. -/
def share_memory (p1 : ContFramePool) (l : List (Option ContFramePool)) :
    List (Option ContFramePool) :=
  l.map fun o => o.map fun q =>
    if q.bitmap_frame = p1.bitmap_frame then { q with bitmap := p1.bitmap, front := p1.front }
    else q

/-- The loop `for(int i = 0; i < 100; i++)` of the static `release_frames`; the
first argument counts the iterations still to run. -/
def release_frames_loop (_first_frame_no : Nat) : Nat → Nat → DispatchResult → DispatchResult
  | 0, _, d => d
  | todo + 1, i, d =>
    match d.framepool_list[i]? with
    | some (some p) =>
      if p.dispatch_test _first_frame_no then
        match p.pool_release_frames _first_frame_no with
        | some p1 =>
          release_frames_loop _first_frame_no todo (i + 1)
            { framepool_list := share_memory p1 (d.framepool_list.set i (some p1)),
              forwarded := d.forwarded ++ [i], fault := false }
        | none => { d with forwarded := d.forwarded ++ [i], fault := true }
      else release_frames_loop _first_frame_no todo (i + 1) d
    | _ => { d with fault := true }

/-- The static member function `release_frames` (lines 400-412). -/
def Registry.release_frames (r : Registry) (_first_frame_no : Nat) : DispatchResult :=
  release_frames_loop _first_frame_no 100 0
    { framepool_list := r.framepool_list, forwarded := [], fault := false }

/-! ## needed_info_frames -/

/-- The member function `needed_info_frames` (lines 510-514).  Its body holds no
statement: control reaches the end of a function returning `unsigned long`
without a `return`, so the caller receives no defined value. -/
def ContFramePool.needed_info_frames (_n_frames : Nat) : Option Nat := none

/-- The value the constructor assigns to its parameter `_n_info_frames`
(line 165): `_n_frames/(2*4096) + 1`, in `unsigned long`. -/
def ctor_n_info_frames (_n_frames : Nat) : Nat := (_n_frames / (2 * 4096) + 1) % ULONG_MOD

/-- Follows the specification, not the source: the least number of frames of
4096 bytes whose bits hold two bits for each of `n` frames. -/
def min_info_frames (n : Nat) : Nat := (2 * n + (4096 * 8 - 1)) / (4096 * 8)

/-! ## Shape of the allocations -/

/-- Every `ALLOCATED` frame among the first `N` has a predecessor that is
`HEAD_OF_SEQUENCE` or `ALLOCATED`: every run of `ALLOCATED` frames starts right
behind a head. -/
def runs_have_heads (bm : List Nat) (N : Nat) : Prop :=
  ∀ k, k < N → frame_state bm k = some ALLOCATED →
    1 ≤ k ∧ (frame_state bm (k - 1) = some HEAD_OF_SEQUENCE ∨
      frame_state bm (k - 1) = some ALLOCATED)

instance (bm : List Nat) (N : Nat) : Decidable (runs_have_heads bm N) := by
  unfold runs_have_heads
  infer_instance

/-- The call does not name frame number `0` and its frame number fits an `int`:
any `get_frames`, and a `mark_inaccessible` or `pool_release_frames` whose frame
number lies between 1 and `2^31 - 1`. -/
def PoolCall.spares_frame_zero : PoolCall → Prop
  | .get_frames _ => True
  | .mark_inaccessible b _ => 0 < b ∧ b < 2 ^ 31
  | .pool_release_frames f => 0 < f ∧ f < 2 ^ 31

instance (c : PoolCall) : Decidable c.spares_frame_zero := by
  cases c <;> unfold PoolCall.spares_frame_zero <;> infer_instance

/-! ## More concrete pools -/

/-- A pool of 8 frames right after construction (bitmap bytes 0 and 1), with two
more bytes of memory behind the bitmap. -/
def pool8 : ContFramePool :=
  { base_frame_no := 0, nframes := 8, nFreeFrames := 7, info_frame_no := 0,
    bitmap := [0x40, 0, 0, 0] }

/-- A hundred pools of 4 frames each, pool `i` owning frames `4 * i` to
`4 * i + 3`, each with two addressable bytes at its bitmap. -/
def registry_full : Registry :=
  { framepool_list := (List.range 100).map fun i =>
      some { base_frame_no := 4 * i, nframes := 4, nFreeFrames := 4, info_frame_no := 1000,
             bitmap := [0, 0] },
    framepool_index := 99 }

/-- The pools `[0, 100)` and `[100, 200)` in the first two slots, null pointers
in the other slots.  Each pool has 51 addressable bytes at its bitmap. -/
def registry_two : Registry :=
  { framepool_list :=
      [some { base_frame_no := 0, nframes := 100, nFreeFrames := 100, info_frame_no := 1000,
              bitmap := List.replicate 51 0 },
       some { base_frame_no := 100, nframes := 100, nFreeFrames := 100, info_frame_no := 1001,
              bitmap := List.replicate 51 0 }] ++ List.replicate 98 none,
    framepool_index := 1 }

/-- A one-frame pool whose first zero byte lies behind its bitmap, at index 4. -/
def pool1_far : ContFramePool :=
  { base_frame_no := 0, nframes := 1, nFreeFrames := 0, info_frame_no := 0,
    bitmap := [0x40, 1, 1, 1, 0, 0] }

/-- A pool of `2^30` frames with frame 0 holding the bitmap and every other
frame `FREE`; its bitmap has `2^28` bytes. -/
def pool_wrap : ContFramePool :=
  { base_frame_no := 0, nframes := 2 ^ 30, nFreeFrames := 2 ^ 30 - 1, info_frame_no := 0,
    bitmap := 0x40 :: 0 :: List.replicate (2 ^ 28 - 2) 0 }

/-- A pool of `2^31 + 2^29` frames with an external bitmap of `2^29 + 2^27`
bytes, in the state after `2^29` allocations of one frame each: the first
`2^29` bytes are `0x80`, the other bytes are zero. -/
def pool_int_edge : ContFramePool :=
  { base_frame_no := 0, nframes := 2 ^ 31 + 2 ^ 29, nFreeFrames := 2 ^ 31,
    info_frame_no := 2 ^ 31 + 2 ^ 29,
    bitmap := List.replicate (2 ^ 29) 0x80 ++ 0 :: 0 :: List.replicate (2 ^ 27 - 2) 0 }

/-! ## Bit-level facts and the marking statement -/

theorem and3_testBit (x i : Nat) : (x &&& 3).testBit i = (decide (i < 2) && x.testBit i) := by
  rw [Nat.testBit_and]
  have h3 : (3 : Nat) = 2 ^ 2 - 1 := by norm_num
  rw [h3, Nat.testBit_two_pow_sub_one, Bool.and_comm]

theorem bits_or_shift (b v r r' : Nat) (hv : v < 4) (hr : r < 4) (hr' : r' < 4) :
    ((b ||| v <<< (6 - 2 * r)) >>> (6 - 2 * r')) &&& 3
      = if r' = r then ((b >>> (6 - 2 * r)) &&& 3) ||| v else (b >>> (6 - 2 * r')) &&& 3 := by
  have hv2 : ∀ j, 2 ≤ j → v.testBit j = false := by
    intro j hj
    apply Nat.testBit_lt_two_pow
    calc v < 4 := hv
      _ = 2 ^ 2 := by norm_num
      _ ≤ 2 ^ j := Nat.pow_le_pow_right (by norm_num) hj
  apply Nat.eq_of_testBit_eq
  intro i
  split
  · rename_i h
    subst h
    simp only [and3_testBit, Nat.testBit_or, Nat.testBit_shiftRight, Nat.testBit_shiftLeft]
    by_cases hi : i < 2
    · simp [hi]
    · simp [hi, hv2 i (by omega)]
  · rename_i h
    simp only [and3_testBit, Nat.testBit_or, Nat.testBit_shiftRight, Nat.testBit_shiftLeft]
    by_cases hi : i < 2
    · simp only [hi, decide_True, Bool.true_and]
      by_cases hge : 6 - 2 * r' + i ≥ 6 - 2 * r
      · simp only [hge, decide_True, Bool.true_and]
        rw [hv2 _ (by omega)]; simp
      · simp [hge]
    · simp [hi]

theorem or_frame_eq_some {bm : List Nat} {k v : Nat} {bm' : List Nat}
    (h : or_frame bm k v = some bm') :
    ∃ b, bm[k / 4]? = some b ∧ bm' = bm.set (k / 4) (b ||| v <<< (6 - 2 * (k % 4))) := by
  unfold or_frame at h
  cases hb : bm[k / 4]? with
  | none => simp [hb] at h
  | some b => simp [hb] at h; exact ⟨b, rfl, h.symm⟩

theorem or_frame_isSome (bm : List Nat) (k v : Nat) (h : k / 4 < bm.length) :
    ∃ bm', or_frame bm k v = some bm' := by
  unfold or_frame
  rw [List.getElem?_eq_getElem h]
  exact ⟨_, rfl⟩

theorem or_frame_length {bm : List Nat} {k v : Nat} {bm' : List Nat}
    (h : or_frame bm k v = some bm') : bm'.length = bm.length := by
  obtain ⟨b, _, rfl⟩ := or_frame_eq_some h
  simp

theorem or_frame_lt {bm : List Nat} {k v : Nat} {bm' : List Nat}
    (h : or_frame bm k v = some bm') : k / 4 < bm.length := by
  obtain ⟨b, hb, _⟩ := or_frame_eq_some h
  exact (List.getElem?_eq_some.mp hb).1

theorem or_frame_state {bm : List Nat} {k v : Nat} {bm' : List Nat}
    (h : or_frame bm k v = some bm') (hv : v < 4) (k' : Nat) :
    frame_state bm' k' =
      if k' = k then (frame_state bm k).map (fun x => x ||| v) else frame_state bm k' := by
  obtain ⟨b, hb, rfl⟩ := or_frame_eq_some h
  have hlt : k / 4 < bm.length := (List.getElem?_eq_some.mp hb).1
  unfold frame_state
  by_cases hq : k' / 4 = k / 4
  · rw [hq, List.getElem?_set_self hlt, hb]
    simp only [Option.map_some']
    rw [bits_or_shift b v (k % 4) (k' % 4) hv (Nat.mod_lt _ (by norm_num)) (Nat.mod_lt _ (by norm_num))]
    by_cases hk : k' = k
    · subst hk; simp
    · have : k' % 4 ≠ k % 4 := by omega
      simp [this, hk]
  · have hk : k' ≠ k := by rintro rfl; exact hq rfl
    rw [List.getElem?_set_ne (Ne.symm hq)]
    simp [hk]

theorem mark_mk (m v r q : Nat) (bm : List Nat) (nF : Nat) (N : Int) (hr : r < 4)
    (hm : m = v <<< (6 - 2 * r)) :
    mark m ⟨bm, nF, N, (q : Int)⟩ = (or_frame bm (4 * q + r) v).map fun bm' =>
      (⟨bm', ulong_dec nF, N - 1, (q : Int)⟩ : Regs) := by
  have h1 : (4 * q + r) / 4 = q := by omega
  have h2 : (4 * q + r) % 4 = r := by omega
  unfold mark read_byte write_byte or_frame
  simp only [h1, h2, Int.toNat_ofNat, Int.ofNat_nonneg, if_true, true_and, hm]
  cases hb : bm[q]? with
  | none => simp
  | some b =>
    have hlt : q < bm.length := (List.getElem?_eq_some.mp hb).1
    simp [hlt]

theorem mark_loop_nonpos (fuel : Nat) (s : Regs) (h : s.N_frames ≤ 0) :
    mark_loop fuel s = some s := by
  have h' : ¬ s.N_frames > 0 := by omega
  cases fuel <;> simp [mark_loop, h']

theorem mark_c0 (bm : List Nat) (nF : Nat) (N : Int) (q : Nat) :
    mark 0xc0 ⟨bm, nF, N, (q : Int)⟩ = (or_frame bm (4 * q) 3).map fun bm' =>
      (⟨bm', ulong_dec nF, N - 1, (q : Int)⟩ : Regs) :=
  mark_mk 0xc0 3 0 q bm nF N (by norm_num) (by decide)

theorem mark_30 (bm : List Nat) (nF : Nat) (N : Int) (q : Nat) :
    mark 0x30 ⟨bm, nF, N, (q : Int)⟩ = (or_frame bm (4 * q + 1) 3).map fun bm' =>
      (⟨bm', ulong_dec nF, N - 1, (q : Int)⟩ : Regs) :=
  mark_mk 0x30 3 1 q bm nF N (by norm_num) (by decide)

theorem mark_0c (bm : List Nat) (nF : Nat) (N : Int) (q : Nat) :
    mark 0x0c ⟨bm, nF, N, (q : Int)⟩ = (or_frame bm (4 * q + 2) 3).map fun bm' =>
      (⟨bm', ulong_dec nF, N - 1, (q : Int)⟩ : Regs) :=
  mark_mk 0x0c 3 2 q bm nF N (by norm_num) (by decide)

theorem mark_03 (bm : List Nat) (nF : Nat) (N : Int) (q : Nat) :
    mark 0x03 ⟨bm, nF, N, (q : Int)⟩ = (or_frame bm (4 * q + 3) 3).map fun bm' =>
      (⟨bm', ulong_dec nF, N - 1, (q : Int)⟩ : Regs) :=
  mark_mk 0x03 3 3 q bm nF N (by norm_num) (by decide)

/-- One pass through the body of the marking loop, started with `N` frames to go. -/
theorem mark_loop_step (f : Nat) (bm : List Nat) (nF q : Nat) (N : Int) (hN : N > 0) :
    mark_loop (f + 1) ⟨bm, nF, N, (q : Int)⟩ =
      (or_frame bm (4 * q) 3).bind fun b1 =>
        if N - 1 = 0 then some ⟨b1, ulong_dec nF, N - 1, (q : Int)⟩ else
        (or_frame b1 (4 * q + 1) 3).bind fun b2 =>
        if N - 1 - 1 = 0 then some ⟨b2, ulong_dec (ulong_dec nF), N - 1 - 1, (q : Int)⟩ else
        (or_frame b2 (4 * q + 2) 3).bind fun b3 =>
        if N - 1 - 1 - 1 = 0 then
          some ⟨b3, ulong_dec (ulong_dec (ulong_dec nF)), N - 1 - 1 - 1, (q : Int)⟩ else
        (or_frame b3 (4 * q + 3) 3).bind fun b4 =>
        if N - 1 - 1 - 1 - 1 = 0 then
          some ⟨b4, ulong_dec (ulong_dec (ulong_dec (ulong_dec nF))), N - 1 - 1 - 1 - 1,
                ((q + 1 : Nat) : Int)⟩
        else
          mark_loop f ⟨b4, ulong_dec (ulong_dec (ulong_dec (ulong_dec nF))), N - 1 - 1 - 1 - 1,
                ((q + 1 : Nat) : Int)⟩ := by
  rw [mark_loop]
  simp only [hN, if_true, mark_c0, mark_30, mark_0c, mark_03, Option.bind_map, incr_i,
    Nat.cast_add, Nat.cast_one, Function.comp_def]

/-! ## The marking loop -/

theorem mark_run_four (m : Nat) (bm : List Nat) (q : Nat) :
    mark_run (m + 4) bm (4 * q) =
      (or_frame bm (4 * q) 3).bind fun b1 =>
      (or_frame b1 (4 * q + 1) 3).bind fun b2 =>
      (or_frame b2 (4 * q + 2) 3).bind fun b3 =>
      (or_frame b3 (4 * q + 3) 3).bind fun b4 => mark_run m b4 (4 * (q + 1)) := by
  have h4 : 4 * (q + 1) = 4 * q + 1 + 1 + 1 + 1 := by ring
  rw [h4]
  rfl

/-- The marking loop, run with enough fuel, ORs `11` into the next `n` frames and
decrements the free counter `n` times. -/
theorem mark_loop_eq (n : Nat) : ∀ (fuel : Nat) (bm : List Nat) (nF q : Nat), n ≤ fuel →
    (mark_loop fuel ⟨bm, nF, (n : Int), (q : Int)⟩).map Regs.out
      = (mark_run n bm (4 * q)).map fun bm' => (bm', ulong_dec_n n nF) := by
  induction n using Nat.strong_induction_on with
  | _ n ih =>
    intro fuel bm nF q hfuel
    rcases Nat.eq_zero_or_pos n with h0 | hpos
    · subst h0
      rw [mark_loop_nonpos _ _ (by simp)]
      simp [mark_run, Regs.out, ulong_dec_n]
    · obtain ⟨f, rfl⟩ : ∃ f, fuel = f + 1 := ⟨fuel - 1, by omega⟩
      rw [mark_loop_step f bm nF q n (by omega)]
      have hcase : n = 1 ∨ n = 2 ∨ n = 3 ∨ n = 4 ∨ ∃ m, n = m + 5 := by
        rcases Nat.lt_or_ge n 5 with h | h
        · omega
        · exact Or.inr (Or.inr (Or.inr (Or.inr ⟨n - 5, by omega⟩)))
      rcases hcase with rfl | rfl | rfl | rfl | ⟨m, rfl⟩
      · simp only [mark_run]
        cases or_frame bm (4 * q) 3 <;> simp [Regs.out, ulong_dec_n]
      · simp only [mark_run, Nat.add_assoc, Nat.reduceAdd]
        cases or_frame bm (4 * q) 3 with
        | none => simp
        | some b1 =>
          simp only [Option.some_bind]
          cases or_frame b1 (4 * q + 1) 3 <;> simp [Regs.out, ulong_dec_n]
      · simp only [mark_run, Nat.add_assoc, Nat.reduceAdd]
        cases or_frame bm (4 * q) 3 with
        | none => simp
        | some b1 =>
          simp only [Option.some_bind]
          cases or_frame b1 (4 * q + 1) 3 with
          | none => simp
          | some b2 =>
            simp only [Option.some_bind]
            cases or_frame b2 (4 * q + 2) 3 <;> simp [Regs.out, ulong_dec_n]
      · simp only [mark_run, Nat.add_assoc, Nat.reduceAdd]
        cases or_frame bm (4 * q) 3 with
        | none => simp
        | some b1 =>
          simp only [Option.some_bind]
          cases or_frame b1 (4 * q + 1) 3 with
          | none => simp
          | some b2 =>
            simp only [Option.some_bind]
            cases or_frame b2 (4 * q + 2) 3 with
            | none => simp
            | some b3 =>
              simp only [Option.some_bind]
              cases or_frame b3 (4 * q + 3) 3 <;> simp [Regs.out, ulong_dec_n]
      · have e1 : ((m + 5 : Nat) : Int) - 1 ≠ 0 := by omega
        have e2 : ((m + 5 : Nat) : Int) - 1 - 1 ≠ 0 := by omega
        have e3 : ((m + 5 : Nat) : Int) - 1 - 1 - 1 ≠ 0 := by omega
        have e4 : ((m + 5 : Nat) : Int) - 1 - 1 - 1 - 1 ≠ 0 := by omega
        have e5 : ((m + 5 : Nat) : Int) - 1 - 1 - 1 - 1 = ((m + 1 : Nat) : Int) := by omega
        simp only [e1, e2, e3, e4, if_false]
        rw [e5, mark_run_four (m + 1) bm q]
        cases or_frame bm (4 * q) 3 with
        | none => simp
        | some b1 =>
          simp only [Option.some_bind]
          cases or_frame b1 (4 * q + 1) 3 with
          | none => simp
          | some b2 =>
            simp only [Option.some_bind]
            cases or_frame b2 (4 * q + 2) 3 with
            | none => simp
            | some b3 =>
              simp only [Option.some_bind]
              cases or_frame b3 (4 * q + 3) 3 with
              | none => simp
              | some b4 =>
                simp only [Option.some_bind]
                rw [ih (m + 1) (by omega) f b4 _ (q + 1) (by omega)]
                simp only [ulong_dec_n]

/-! ## The four marking branches -/

theorem mark_80 (bm : List Nat) (nF : Nat) (N : Int) (q : Nat) :
    mark 0x80 ⟨bm, nF, N, (q : Int)⟩ = (or_frame bm (4 * q) 2).map fun bm' =>
      (⟨bm', ulong_dec nF, N - 1, (q : Int)⟩ : Regs) :=
  mark_mk 0x80 2 0 q bm nF N (by norm_num) (by decide)

theorem mark_20 (bm : List Nat) (nF : Nat) (N : Int) (q : Nat) :
    mark 0x20 ⟨bm, nF, N, (q : Int)⟩ = (or_frame bm (4 * q + 1) 2).map fun bm' =>
      (⟨bm', ulong_dec nF, N - 1, (q : Int)⟩ : Regs) :=
  mark_mk 0x20 2 1 q bm nF N (by norm_num) (by decide)

theorem mark_08 (bm : List Nat) (nF : Nat) (N : Int) (q : Nat) :
    mark 0x08 ⟨bm, nF, N, (q : Int)⟩ = (or_frame bm (4 * q + 2) 2).map fun bm' =>
      (⟨bm', ulong_dec nF, N - 1, (q : Int)⟩ : Regs) :=
  mark_mk 0x08 2 2 q bm nF N (by norm_num) (by decide)

theorem mark_02 (bm : List Nat) (nF : Nat) (N : Int) (q : Nat) :
    mark 0x02 ⟨bm, nF, N, (q : Int)⟩ = (or_frame bm (4 * q + 3) 2).map fun bm' =>
      (⟨bm', ulong_dec nF, N - 1, (q : Int)⟩ : Regs) :=
  mark_mk 0x02 2 3 q bm nF N (by norm_num) (by decide)

/-- The marking loop entered with `N_frames = c`. -/
theorem mark_loop_toNat (c : Nat) (bm : List Nat) (nF q : Nat) (N : Int) (hN : N = (c : Int)) :
    (mark_loop N.toNat ⟨bm, nF, N, (q : Int)⟩).map Regs.out
      = (mark_run c bm (4 * q)).map fun bm' => (bm', ulong_dec_n c nF) := by
  subst hN
  rw [Int.toNat_ofNat]
  exact mark_loop_eq c c bm nF q (le_refl c)

theorem cast_succ_sub_one (c : Nat) : ((c + 1 : Nat) : Int) - 1 = (c : Int) := by omega

theorem mark_if_pos (m : Nat) (s : Regs) (h : 0 < s.N_frames) : mark_if m s = mark m s :=
  if_pos h

theorem mark_if_nonpos (m : Nat) (s : Regs) (h : s.N_frames ≤ 0) : mark_if m s = some s :=
  if_neg (by omega)

theorem mark_if_incr_pos (m : Nat) (s : Regs) (h : 0 < s.N_frames) :
    mark_if_incr m s = (mark m s).map incr_i :=
  if_pos h

theorem mark_if_incr_nonpos (m : Nat) (s : Regs) (h : s.N_frames ≤ 0) :
    mark_if_incr m s = some s :=
  if_neg (by omega)

theorem cast_succ_pos (c : Nat) : 0 < ((c + 1 : Nat) : Int) := by omega

theorem cast_zero_nonpos : ((0 : Nat) : Int) ≤ 0 := by omega

/-- The marking loop after `i++`, entered with `N_frames = c`. -/
theorem mark_loop_next (c : Nat) (bm : List Nat) (nF q : Nat) :
    (mark_loop ((c : Nat) : Int).toNat ⟨bm, nF, (c : Int), (q : Int) + 1⟩).map Regs.out
      = (mark_run c bm (4 * (q + 1))).map fun bm' => (bm', ulong_dec_n c nF) := by
  have h := mark_loop_toNat c bm nF (q + 1) (c : Int) rfl
  rw [Nat.cast_add, Nat.cast_one] at h
  exact h

/-- Branch `j == 3`: the head is the last frame of its byte. -/
theorem mark_branch_three (c : Nat) (bm : List Nat) (nF q : Nat) :
    (mark_branch 3 ⟨bm, nF, ((c + 1 : Nat) : Int), (q : Int)⟩).map Regs.out
      = ((or_frame bm (4 * q + 3) 2).bind fun b1 => mark_run c b1 (4 * q + 3 + 1)).map
          fun bm' => (bm', ulong_dec_n (c + 1) nF) := by
  have h4 : 4 * q + 3 + 1 = 4 * (q + 1) := by ring
  have hj : mark_branch 3 ⟨bm, nF, ((c + 1 : Nat) : Int), (q : Int)⟩ =
      (mark 0x02 ⟨bm, nF, ((c + 1 : Nat) : Int), (q : Int)⟩).bind fun s =>
        mark_loop (incr_i s).N_frames.toNat (incr_i s) := by
    unfold mark_branch
    rw [if_neg (by decide), if_neg (by decide), if_neg (by decide), if_pos rfl]
  rw [hj, mark_02, h4, cast_succ_sub_one]
  cases or_frame bm (4 * q + 3) 2 with
  | none => rfl
  | some b1 =>
    simp only [Option.map_some', Option.some_bind, incr_i, ulong_dec_n]
    exact mark_loop_next c b1 (ulong_dec nF) q

/-- Branch `j == 2`. -/
theorem mark_branch_two (c : Nat) (bm : List Nat) (nF q : Nat) :
    (mark_branch 2 ⟨bm, nF, ((c + 1 : Nat) : Int), (q : Int)⟩).map Regs.out
      = ((or_frame bm (4 * q + 2) 2).bind fun b1 => mark_run c b1 (4 * q + 2 + 1)).map
          fun bm' => (bm', ulong_dec_n (c + 1) nF) := by
  have h4 : 4 * q + 3 + 1 = 4 * (q + 1) := by ring
  have hj : mark_branch 2 ⟨bm, nF, ((c + 1 : Nat) : Int), (q : Int)⟩ =
      (mark 0x08 ⟨bm, nF, ((c + 1 : Nat) : Int), (q : Int)⟩).bind fun s =>
        (mark_if_incr 0x03 s).bind fun s => mark_loop s.N_frames.toNat s := by
    unfold mark_branch
    rw [if_neg (by decide), if_neg (by decide), if_pos rfl]
  rw [hj, mark_08, cast_succ_sub_one]
  cases or_frame bm (4 * q + 2) 2 with
  | none => rfl
  | some b1 =>
    simp only [Option.map_some', Option.some_bind, ulong_dec_n]
    cases c with
    | zero =>
      rw [mark_if_incr_nonpos _ _ cast_zero_nonpos]
      simp only [Option.some_bind]
      rw [mark_loop_nonpos _ _ cast_zero_nonpos]
      rfl
    | succ m =>
      rw [mark_if_incr_pos _ _ (cast_succ_pos m), mark_03, cast_succ_sub_one]
      simp only [mark_run, Nat.add_assoc, Nat.reduceAdd, ulong_dec_n]
      cases or_frame b1 (4 * q + 3) 3 with
      | none => rfl
      | some b2 =>
        simp only [Option.map_some', Option.some_bind, incr_i]
        rw [mark_loop_next m b2 _ q]
        have h4 : 4 * q + 4 = 4 * (q + 1) := by ring
        rw [h4]

/-- Branch `j == 1`. -/
theorem mark_branch_one (c : Nat) (bm : List Nat) (nF q : Nat) :
    (mark_branch 1 ⟨bm, nF, ((c + 1 : Nat) : Int), (q : Int)⟩).map Regs.out
      = ((or_frame bm (4 * q + 1) 2).bind fun b1 => mark_run c b1 (4 * q + 1 + 1)).map
          fun bm' => (bm', ulong_dec_n (c + 1) nF) := by
  have hj : mark_branch 1 ⟨bm, nF, ((c + 1 : Nat) : Int), (q : Int)⟩ =
      (mark 0x20 ⟨bm, nF, ((c + 1 : Nat) : Int), (q : Int)⟩).bind fun s =>
        (mark_if 0x0c s).bind fun s =>
        (mark_if_incr 0x03 s).bind fun s => mark_loop s.N_frames.toNat s := by
    unfold mark_branch
    rw [if_neg (by decide), if_pos rfl]
  rw [hj, mark_20, cast_succ_sub_one]
  cases or_frame bm (4 * q + 1) 2 with
  | none => rfl
  | some b1 =>
    simp only [Option.map_some', Option.some_bind, ulong_dec_n]
    cases c with
    | zero =>
      rw [mark_if_nonpos _ _ cast_zero_nonpos]
      simp only [Option.some_bind]
      rw [mark_if_incr_nonpos _ _ cast_zero_nonpos]
      simp only [Option.some_bind]
      rw [mark_loop_nonpos _ _ cast_zero_nonpos]
      rfl
    | succ c1 =>
      rw [mark_if_pos _ _ (cast_succ_pos c1), mark_0c, cast_succ_sub_one]
      simp only [mark_run, Nat.add_assoc, Nat.reduceAdd, ulong_dec_n]
      cases or_frame b1 (4 * q + 2) 3 with
      | none => rfl
      | some b2 =>
        simp only [Option.map_some', Option.some_bind]
        cases c1 with
        | zero =>
          rw [mark_if_incr_nonpos _ _ cast_zero_nonpos]
          simp only [Option.some_bind]
          rw [mark_loop_nonpos _ _ cast_zero_nonpos]
          rfl
        | succ m =>
          rw [mark_if_incr_pos _ _ (cast_succ_pos m), mark_03, cast_succ_sub_one]
          simp only [mark_run, Nat.add_assoc, Nat.reduceAdd, ulong_dec_n]
          cases or_frame b2 (4 * q + 3) 3 with
          | none => rfl
          | some b3 =>
            simp only [Option.map_some', Option.some_bind, incr_i]
            rw [mark_loop_next m b3 _ q]
            have h4 : 4 * q + 4 = 4 * (q + 1) := by ring
            rw [h4]

/-- Branch `j == 0`. -/
theorem mark_branch_zero (c : Nat) (bm : List Nat) (nF q : Nat) :
    (mark_branch 0 ⟨bm, nF, ((c + 1 : Nat) : Int), (q : Int)⟩).map Regs.out
      = ((or_frame bm (4 * q) 2).bind fun b1 => mark_run c b1 (4 * q + 1)).map
          fun bm' => (bm', ulong_dec_n (c + 1) nF) := by
  have hj : mark_branch 0 ⟨bm, nF, ((c + 1 : Nat) : Int), (q : Int)⟩ =
      (mark 0x80 ⟨bm, nF, ((c + 1 : Nat) : Int), (q : Int)⟩).bind fun s =>
        (mark_if 0x30 s).bind fun s =>
        (mark_if 0x0c s).bind fun s =>
        (mark_if_incr 0x03 s).bind fun s => mark_loop s.N_frames.toNat s := by
    unfold mark_branch
    rw [if_pos rfl]
  rw [hj, mark_80, cast_succ_sub_one]
  cases or_frame bm (4 * q) 2 with
  | none => rfl
  | some b0 =>
    simp only [Option.map_some', Option.some_bind, ulong_dec_n]
    cases c with
    | zero =>
      rw [mark_if_nonpos _ _ cast_zero_nonpos]
      simp only [Option.some_bind]
      rw [mark_if_nonpos _ _ cast_zero_nonpos]
      simp only [Option.some_bind]
      rw [mark_if_incr_nonpos _ _ cast_zero_nonpos]
      simp only [Option.some_bind]
      rw [mark_loop_nonpos _ _ cast_zero_nonpos]
      rfl
    | succ c0 =>
      rw [mark_if_pos _ _ (cast_succ_pos c0), mark_30, cast_succ_sub_one]
      simp only [mark_run, Nat.add_assoc, Nat.reduceAdd, ulong_dec_n]
      cases or_frame b0 (4 * q + 1) 3 with
      | none => rfl
      | some b1 =>
        simp only [Option.map_some', Option.some_bind]
        cases c0 with
        | zero =>
          rw [mark_if_nonpos _ _ cast_zero_nonpos]
          simp only [Option.some_bind]
          rw [mark_if_incr_nonpos _ _ cast_zero_nonpos]
          simp only [Option.some_bind]
          rw [mark_loop_nonpos _ _ cast_zero_nonpos]
          rfl
        | succ c1 =>
          rw [mark_if_pos _ _ (cast_succ_pos c1), mark_0c, cast_succ_sub_one]
          simp only [mark_run, Nat.add_assoc, Nat.reduceAdd, ulong_dec_n]
          cases or_frame b1 (4 * q + 2) 3 with
          | none => rfl
          | some b2 =>
            simp only [Option.map_some', Option.some_bind]
            cases c1 with
            | zero =>
              rw [mark_if_incr_nonpos _ _ cast_zero_nonpos]
              simp only [Option.some_bind]
              rw [mark_loop_nonpos _ _ cast_zero_nonpos]
              rfl
            | succ m =>
              rw [mark_if_incr_pos _ _ (cast_succ_pos m), mark_03, cast_succ_sub_one]
              simp only [mark_run, Nat.add_assoc, Nat.reduceAdd, ulong_dec_n]
              cases or_frame b2 (4 * q + 3) 3 with
              | none => rfl
              | some b3 =>
                simp only [Option.map_some', Option.some_bind, incr_i]
                rw [mark_loop_next m b3 _ q]
                have h4 : 4 * q + 4 = 4 * (q + 1) := by ring
                rw [h4]

/-- With `N_frames <= 1` every branch marks the head frame only. -/
theorem mark_branch_head_only (r : Nat) (hr : r < 4) (bm : List Nat) (nF q : Nat) (N : Int)
    (hN : N ≤ 1) :
    (mark_branch (r : Int) ⟨bm, nF, N, (q : Int)⟩).map Regs.out
      = (or_frame bm (4 * q + r) 2).map fun bm' => (bm', ulong_dec nF) := by
  have hle : N - 1 ≤ 0 := by omega
  interval_cases r
  · simp only [Nat.cast_ofNat, Nat.cast_zero, Nat.cast_one, Nat.add_zero]
    have hj : mark_branch 0 ⟨bm, nF, N, (q : Int)⟩ =
        (mark 0x80 ⟨bm, nF, N, (q : Int)⟩).bind fun s =>
          (mark_if 0x30 s).bind fun s =>
          (mark_if 0x0c s).bind fun s =>
          (mark_if_incr 0x03 s).bind fun s => mark_loop s.N_frames.toNat s := by
      unfold mark_branch
      rw [if_pos rfl]
    rw [hj, mark_80]
    cases or_frame bm (4 * q) 2 with
    | none => rfl
    | some b0 =>
      simp only [Option.map_some', Option.some_bind]
      rw [mark_if_nonpos _ _ hle]
      simp only [Option.some_bind]
      rw [mark_if_nonpos _ _ hle]
      simp only [Option.some_bind]
      rw [mark_if_incr_nonpos _ _ hle]
      simp only [Option.some_bind]
      rw [mark_loop_nonpos _ _ hle]
      rfl
  · simp only [Nat.cast_ofNat, Nat.cast_zero, Nat.cast_one, Nat.add_zero]
    have hj : mark_branch 1 ⟨bm, nF, N, (q : Int)⟩ =
        (mark 0x20 ⟨bm, nF, N, (q : Int)⟩).bind fun s =>
          (mark_if 0x0c s).bind fun s =>
          (mark_if_incr 0x03 s).bind fun s => mark_loop s.N_frames.toNat s := by
      unfold mark_branch
      rw [if_neg (by decide), if_pos rfl]
    rw [hj, mark_20]
    cases or_frame bm (4 * q + 1) 2 with
    | none => rfl
    | some b0 =>
      simp only [Option.map_some', Option.some_bind]
      rw [mark_if_nonpos _ _ hle]
      simp only [Option.some_bind]
      rw [mark_if_incr_nonpos _ _ hle]
      simp only [Option.some_bind]
      rw [mark_loop_nonpos _ _ hle]
      rfl
  · simp only [Nat.cast_ofNat, Nat.cast_zero, Nat.cast_one, Nat.add_zero]
    have hj : mark_branch 2 ⟨bm, nF, N, (q : Int)⟩ =
        (mark 0x08 ⟨bm, nF, N, (q : Int)⟩).bind fun s =>
          (mark_if_incr 0x03 s).bind fun s => mark_loop s.N_frames.toNat s := by
      unfold mark_branch
      rw [if_neg (by decide), if_neg (by decide), if_pos rfl]
    rw [hj, mark_08]
    cases or_frame bm (4 * q + 2) 2 with
    | none => rfl
    | some b0 =>
      simp only [Option.map_some', Option.some_bind]
      rw [mark_if_incr_nonpos _ _ hle]
      simp only [Option.some_bind]
      rw [mark_loop_nonpos _ _ hle]
      rfl
  · simp only [Nat.cast_ofNat, Nat.cast_zero, Nat.cast_one, Nat.add_zero]
    have hj : mark_branch 3 ⟨bm, nF, N, (q : Int)⟩ =
        (mark 0x02 ⟨bm, nF, N, (q : Int)⟩).bind fun s =>
          mark_loop (incr_i s).N_frames.toNat (incr_i s) := by
      unfold mark_branch
      rw [if_neg (by decide), if_neg (by decide), if_neg (by decide), if_pos rfl]
    rw [hj, mark_02]
    cases or_frame bm (4 * q + 3) 2 with
    | none => rfl
    | some b0 =>
      simp only [Option.map_some', Option.some_bind]
      rw [mark_loop_nonpos _ _ (by simpa [incr_i] using hle)]
      rfl

/-! ## Frame states after marking -/

/-- Every marking branch ORs `10` into the head frame `4 * q + r`, ORs `11` into
the `N_frames - 1` frames behind it and decrements the free counter once per
marked frame; a negative or zero `N_frames` still marks the head. -/
theorem mark_branch_eq (r : Nat) (hr : r < 4) (bm : List Nat) (nF q : Nat) (N : Int) :
    (mark_branch (r : Int) ⟨bm, nF, N, (q : Int)⟩).map Regs.out
      = ((or_frame bm (4 * q + r) 2).bind fun b1 =>
          mark_run (N - 1).toNat b1 (4 * q + r + 1)).map
          fun bm' => (bm', ulong_dec_n ((N - 1).toNat + 1) nF) := by
  rcases le_or_lt N 1 with hN | hN
  · rw [mark_branch_head_only r hr bm nF q N hN]
    have h0 : (N - 1).toNat = 0 := by omega
    rw [h0]
    cases or_frame bm (4 * q + r) 2 <;> rfl
  · obtain ⟨c, hc⟩ : ∃ c : Nat, N = ((c + 1 : Nat) : Int) := ⟨(N - 1).toNat, by omega⟩
    subst hc
    have h0 : (((c + 1 : Nat) : Int) - 1).toNat = c := by omega
    rw [h0]
    interval_cases r
    · exact mark_branch_zero c bm nF q
    · exact mark_branch_one c bm nF q
    · exact mark_branch_two c bm nF q
    · exact mark_branch_three c bm nF q

theorem frame_state_lt {bm : List Nat} {k x : Nat} (h : frame_state bm k = some x) : x < 4 := by
  unfold frame_state at h
  cases hb : bm[k / 4]? with
  | none => simp [hb] at h
  | some b =>
    simp [hb] at h
    subst h
    exact Nat.lt_succ_of_le Nat.and_le_right

theorem frame_state_isSome {bm : List Nat} {k : Nat} (h : k / 4 < bm.length) :
    ∃ x, frame_state bm k = some x := by
  unfold frame_state
  rw [List.getElem?_eq_getElem h]
  exact ⟨_, rfl⟩

theorem frame_state_some_lt {bm : List Nat} {k x : Nat} (h : frame_state bm k = some x) :
    k / 4 < bm.length := by
  unfold frame_state at h
  cases hb : bm[k / 4]? with
  | none => simp [hb] at h
  | some b => exact (List.getElem?_eq_some.mp hb).1

theorem or_three {x : Nat} (h : x < 4) : x ||| 3 = 3 := by
  interval_cases x <;> rfl

/-- Effect of `mark_run` on the frame states. -/
theorem mark_run_spec : ∀ (c : Nat) (bm : List Nat) (k : Nat) (bm' : List Nat),
    mark_run c bm k = some bm' →
      bm'.length = bm.length ∧
      (∀ k', k ≤ k' → k' < k + c → k' / 4 < bm.length ∧ frame_state bm' k' = some ALLOCATED) ∧
      (∀ k', (k' < k ∨ k + c ≤ k') → frame_state bm' k' = frame_state bm k') := by
  intro c
  induction c with
  | zero =>
    intro bm k bm' h
    simp only [mark_run, Option.some.injEq] at h
    subst h
    refine ⟨rfl, ?_, ?_⟩
    · intro k' h1 h2; omega
    · intro k' _; rfl
  | succ c ih =>
    intro bm k bm' h
    rw [mark_run] at h
    cases h1 : or_frame bm k 3 with
    | none => rw [h1] at h; simp at h
    | some b1 =>
      rw [h1] at h
      simp only [Option.some_bind] at h
      obtain ⟨hlen, hin, hout⟩ := ih b1 (k + 1) bm' h
      have hl1 := or_frame_length h1
      have hk := or_frame_lt h1
      refine ⟨by omega, ?_, ?_⟩
      · intro k' hk1 hk2
        rcases Nat.eq_or_lt_of_le hk1 with heq | hlt
        · subst heq
          refine ⟨hk, ?_⟩
          rw [hout k (Or.inl (by omega)), or_frame_state h1 (by norm_num) k]
          obtain ⟨x, hx⟩ := @frame_state_isSome bm k hk
          simp [hx, or_three (frame_state_lt hx), ALLOCATED]
        · obtain ⟨h3, h4⟩ := hin k' (by omega) (by omega)
          exact ⟨by omega, h4⟩
      · intro k' hk'
        rw [hout k' (by omega), or_frame_state h1 (by norm_num) k']
        have : k' ≠ k := by omega
        simp [this]

/-- The run can be marked whenever its last frame lies in the addressable bytes. -/
theorem mark_run_isSome : ∀ (c : Nat) (bm : List Nat) (k : Nat),
    (c = 0 ∨ (k + c - 1) / 4 < bm.length) → ∃ bm', mark_run c bm k = some bm' := by
  intro c
  induction c with
  | zero => intro bm k _; exact ⟨bm, rfl⟩
  | succ c ih =>
    intro bm k h
    have hk : k / 4 < bm.length := by
      rcases h with h | h
      · omega
      · have : k / 4 ≤ (k + (c + 1) - 1) / 4 := Nat.div_le_div_right (by omega)
        omega
    obtain ⟨b1, h1⟩ := or_frame_isSome bm k 3 hk
    have hl1 := or_frame_length h1
    have : c = 0 ∨ (k + 1 + c - 1) / 4 < b1.length := by
      rcases Nat.eq_zero_or_pos c with h0 | hpos
      · exact Or.inl h0
      · right
        rcases h with h | h
        · omega
        · have e : k + 1 + c - 1 = k + (c + 1) - 1 := by omega
          rw [e, hl1]; exact h
    obtain ⟨bm', h2⟩ := ih b1 (k + 1) this
    exact ⟨bm', by rw [mark_run, h1]; simpa using h2⟩

/-! ## Marking a whole sequence; the free counter -/

/-- Effect of `mark_seq` on the frame states. -/
theorem mark_seq_spec {bm : List Nat} {F c : Nat} {bm' : List Nat}
    (h : mark_seq bm F c = some bm') :
    bm'.length = bm.length ∧ (F + c) / 4 < bm.length ∧
      frame_state bm' F = (frame_state bm F).map (fun x => x ||| 2) ∧
      (∀ k, F < k → k ≤ F + c → frame_state bm' k = some ALLOCATED) ∧
      (∀ k, (k < F ∨ F + c < k) → frame_state bm' k = frame_state bm k) := by
  unfold mark_seq at h
  cases h1 : or_frame bm F 2 with
  | none => rw [h1] at h; simp at h
  | some b1 =>
    rw [h1] at h
    simp only [Option.some_bind] at h
    obtain ⟨hlen, hin, hout⟩ := mark_run_spec c b1 (F + 1) bm' h
    have hl1 := or_frame_length h1
    have hF := or_frame_lt h1
    refine ⟨by omega, ?_, ?_, ?_, ?_⟩
    · rcases Nat.eq_zero_or_pos c with h0 | hpos
      · subst h0; simpa using hF
      · have := (hin (F + c) (by omega) (by omega)).1
        omega
    · rw [hout F (Or.inl (by omega)), or_frame_state h1 (by norm_num) F]
      simp
    · intro k hk1 hk2
      exact (hin k (by omega) (by omega)).2
    · intro k hk
      rw [hout k (by omega), or_frame_state h1 (by norm_num) k]
      have : k ≠ F := by omega
      simp [this]

/-- The marking succeeds when the last frame lies in the addressable bytes. -/
theorem mark_seq_isSome (bm : List Nat) (F c : Nat) (h : (F + c) / 4 < bm.length) :
    ∃ bm', mark_seq bm F c = some bm' := by
  have hF : F / 4 < bm.length := by
    have : F / 4 ≤ (F + c) / 4 := Nat.div_le_div_right (by omega)
    omega
  obtain ⟨b1, h1⟩ := or_frame_isSome bm F 2 hF
  have hl1 := or_frame_length h1
  obtain ⟨bm', h2⟩ := mark_run_isSome c b1 (F + 1) (by
    rcases Nat.eq_zero_or_pos c with h0 | hpos
    · exact Or.inl h0
    · right
      have e : F + 1 + c - 1 = F + c := by omega
      rw [e, hl1]; exact h)
  exact ⟨bm', by unfold mark_seq; rw [h1]; simpa using h2⟩

/-- Closed form of `n` decrements of the free counter. -/
theorem ulong_dec_n_eq : ∀ (n x : Nat), n ≤ ULONG_MOD →
    ulong_dec_n n x = if n ≤ x then x - n else x + ULONG_MOD - n := by
  intro n
  induction n with
  | zero => intro x _; simp [ulong_dec_n]
  | succ n ih =>
    intro x hn
    rw [ulong_dec_n, ih (ulong_dec x) (by omega)]
    unfold ulong_dec
    by_cases hx : x = 0
    · subst hx
      simp only [if_true]
      have h1 : n ≤ ULONG_MOD - 1 := by omega
      simp only [h1, if_true]
      have h2 : ¬ (n + 1 ≤ 0) := by omega
      simp only [h2, if_false]
      omega
    · simp only [hx, if_false]
      by_cases h1 : n ≤ x - 1
      · have h2 : n + 1 ≤ x := by omega
        simp only [h1, h2, if_true]; omega
      · have h2 : ¬ (n + 1 ≤ x) := by omega
        simp only [h1, h2, if_false]; omega

/-- A result of a marking branch in terms of `mark_seq`. -/
theorem mark_branch_some {r : Nat} (hr : r < 4) {bm : List Nat} {nF q : Nat} {N : Int}
    {s : Regs} (h : mark_branch (r : Int) ⟨bm, nF, N, (q : Int)⟩ = some s) :
    mark_seq bm (4 * q + r) (N - 1).toNat = some s.bitmap ∧
      s.nFreeFrames = ulong_dec_n ((N - 1).toNat + 1) nF := by
  have heq := mark_branch_eq r hr bm nF q N
  rw [h] at heq
  unfold mark_seq
  cases hm : ((or_frame bm (4 * q + r) 2).bind fun b1 =>
      mark_run (N - 1).toNat b1 (4 * q + r + 1)) with
  | none => rw [hm] at heq; simp at heq
  | some bm' =>
    rw [hm] at heq
    simp only [Option.map_some', Option.some.injEq, Regs.out, Prod.mk.injEq] at heq
    exact ⟨by rw [heq.1], heq.2⟩

/-- A marking branch returns whenever `mark_seq` does. -/
theorem mark_branch_of_seq {r : Nat} (hr : r < 4) {bm : List Nat} {nF q : Nat} {N : Int}
    {bm' : List Nat} (h : mark_seq bm (4 * q + r) (N - 1).toNat = some bm') :
    ∃ s, mark_branch (r : Int) ⟨bm, nF, N, (q : Int)⟩ = some s ∧ s.bitmap = bm' ∧
      s.nFreeFrames = ulong_dec_n ((N - 1).toNat + 1) nF := by
  have heq := mark_branch_eq r hr bm nF q N
  unfold mark_seq at h
  rw [h] at heq
  cases hs : mark_branch (r : Int) ⟨bm, nF, N, (q : Int)⟩ with
  | none => rw [hs] at heq; simp at heq
  | some s =>
    rw [hs] at heq
    simp only [Option.map_some', Option.some.injEq, Regs.out, Prod.mk.injEq] at heq
    exact ⟨s, rfl, heq.1, heq.2⟩

theorem to_int_of_lt {x : Nat} (h : x < 2 ^ 31) : to_int x = (x : Int) := by
  unfold to_int
  have h1 : x % 2 ^ 32 = x := Nat.mod_eq_of_lt (by omega)
  rw [h1, if_pos h]

theorem to_int_count {n : Nat} (h1 : 1 ≤ n) (h : n < 2 ^ 31) : (to_int n - 1).toNat = n - 1 := by
  rw [to_int_of_lt h]; omega

/-! ## The region around the bitmap pointer -/

theorem region_length (p : ContFramePool) :
    p.region.length = p.front.length + p.bitmap.length := by
  unfold ContFramePool.region
  rw [List.length_append, List.length_reverse]

/-- Byte `j` of the bitmap is byte `front.length + j` of the region. -/
theorem region_getElem? (p : ContFramePool) (j : Nat) :
    p.region[p.front.length + j]? = p.bitmap[j]? := by
  unfold ContFramePool.region
  rw [List.getElem?_append_right (by rw [List.length_reverse]; omega), List.length_reverse,
    Nat.add_sub_cancel_left]

/-- Splitting a region that left the memory in front of the pointer alone gives
the pool with the new bitmap. -/
theorem with_region_append (p : ContFramePool) (bm' : List Nat) (nF : Nat) :
    p.with_region (p.front.reverse ++ bm') nF = { p with bitmap := bm', nFreeFrames := nF } := by
  unfold ContFramePool.with_region
  have hl : p.front.reverse.length = p.front.length := List.length_reverse _
  rw [← hl, List.take_left, List.drop_left, List.reverse_reverse]

theorem with_region_bitmap (p : ContFramePool) (R : List Nat) (nF : Nat) :
    (p.with_region R nF).bitmap = R.drop p.front.length := rfl

theorem with_region_nFreeFrames (p : ContFramePool) (R : List Nat) (nF : Nat) :
    (p.with_region R nF).nFreeFrames = nF := rfl

/-- Frame `k` of the bitmap is frame `4 * front.length + k` of the region. -/
theorem or_frame_append (pre bm : List Nat) (k v : Nat) :
    or_frame (pre ++ bm) (4 * pre.length + k) v = (or_frame bm k v).map fun b => pre ++ b := by
  unfold or_frame
  have e1 : (4 * pre.length + k) / 4 = pre.length + k / 4 := by omega
  have e2 : (4 * pre.length + k) % 4 = k % 4 := by omega
  rw [e1, e2, List.getElem?_append_right (by omega), Nat.add_sub_cancel_left]
  cases bm[k / 4]? with
  | none => rfl
  | some b =>
    simp only [Option.map_some', Option.some.injEq]
    rw [List.set_append_right _ _ (by omega), Nat.add_sub_cancel_left]

theorem mark_run_append (pre : List Nat) : ∀ (c : Nat) (bm : List Nat) (k : Nat),
    mark_run c (pre ++ bm) (4 * pre.length + k) =
      (mark_run c bm k).map fun b => pre ++ b := by
  intro c
  induction c with
  | zero => intro bm k; rfl
  | succ c ih =>
    intro bm k
    rw [mark_run, mark_run, or_frame_append]
    cases or_frame bm k 3 with
    | none => rfl
    | some b1 =>
      simp only [Option.map_some', Option.some_bind]
      exact ih b1 (k + 1)

theorem mark_seq_append (pre bm : List Nat) (F c : Nat) :
    mark_seq (pre ++ bm) (4 * pre.length + F) c = (mark_seq bm F c).map fun b => pre ++ b := by
  unfold mark_seq
  rw [or_frame_append]
  cases or_frame bm F 2 with
  | none => rfl
  | some b1 =>
    simp only [Option.map_some', Option.some_bind]
    exact mark_run_append pre c b1 (F + 1)

/-! ## The search and `get_frames` -/

/-- The search returns the index of the first zero byte. -/
theorem search_zero_spec : ∀ (l : List Nat) (o i : Nat), search_zero l o = some i →
    o ≤ i ∧ l[i - o]? = some 0 ∧ ∀ j, j < i - o → ∃ b, l[j]? = some b ∧ b ≠ 0 := by
  intro l
  induction l with
  | nil => intro o i h; simp [search_zero] at h
  | cons b rest ih =>
    intro o i h
    rw [search_zero] at h
    by_cases hb : b ≠ 0
    · rw [if_pos hb] at h
      obtain ⟨h1, h2, h3⟩ := ih (o + 1) i h
      refine ⟨by omega, ?_, ?_⟩
      · have e : i - o = (i - (o + 1)) + 1 := by omega
        rw [e, List.getElem?_cons_succ]; exact h2
      · intro j hj
        cases j with
        | zero => exact ⟨b, by simp, hb⟩
        | succ j =>
          rw [List.getElem?_cons_succ]
          exact h3 j (by omega)
    · rw [if_neg hb] at h
      have hb0 : b = 0 := by
        by_contra hne; exact hb hne
      simp only [Option.some.injEq] at h
      subst h
      subst hb0
      refine ⟨le_refl _, by simp, ?_⟩
      intro j hj; omega

/-- The search finds a zero byte whenever there is one. -/
theorem search_zero_isSome : ∀ (l : List Nat) (o j : Nat), l[j]? = some 0 →
    ∃ i, search_zero l o = some i := by
  intro l
  induction l with
  | nil => intro o j h; simp at h
  | cons b rest ih =>
    intro o j h
    rw [search_zero]
    by_cases hb : b ≠ 0
    · rw [if_pos hb]
      cases j with
      | zero => simp at h; exact absurd h hb
      | succ j =>
        rw [List.getElem?_cons_succ] at h
        exact ih (o + 1) j h
    · rw [if_neg hb]; exact ⟨o, rfl⟩

/-- The search stops at or before every all-zero byte. -/
theorem search_zero_le {bm : List Nat} {i j : Nat} (hs : search_zero bm 0 = some i)
    (hz : bm[j]? = some 0) : i ≤ j := by
  obtain ⟨_, _, hbefore⟩ := search_zero_spec bm 0 i hs
  simp only [Nat.sub_zero] at hbefore
  by_contra hlt
  obtain ⟨b, hb, hb0⟩ := hbefore j (by omega)
  rw [hz] at hb
  exact hb0 (Option.some.inj hb).symm

/-- With an all-zero byte below index `2^30` the frame number `4 * i` of the
search result fits the 32-bit return value. -/
theorem search_zero_low {bm : List Nat} {i : Nat} (hs : search_zero bm 0 = some i)
    (hlow : ∃ j, j < 2 ^ 30 ∧ bm[j]? = some 0) :
    i < 2 ^ 30 ∧ 4 * i % ULONG_MOD = 4 * i := by
  obtain ⟨j, hj, hz⟩ := hlow
  have hi : i < 2 ^ 30 := Nat.lt_of_le_of_lt (search_zero_le hs hz) hj
  refine ⟨hi, Nat.mod_eq_of_lt ?_⟩
  unfold ULONG_MOD
  omega

/-- What an allocating return of `get_frames` did. -/
theorem get_frames_allocated {p : ContFramePool} {n f : Nat} {p' : ContFramePool}
    (h : p.get_frames n = .allocated f p') :
    ∃ i, search_zero p.bitmap 0 = some i ∧ f = 4 * i % ULONG_MOD ∧
      mark_seq p.bitmap (4 * i) (to_int n - 1).toNat = some p'.bitmap ∧
      p'.nFreeFrames = ulong_dec_n ((to_int n - 1).toNat + 1) p.nFreeFrames ∧
      p'.base_frame_no = p.base_frame_no ∧ p'.nframes = p.nframes ∧
      p'.info_frame_no = p.info_frame_no ∧ p'.front = p.front := by
  unfold ContFramePool.get_frames at h
  cases hs : search_zero p.bitmap 0 with
  | none => rw [hs] at h; simp at h
  | some i =>
    rw [hs] at h
    simp only at h
    split at h
    · simp at h
    · cases hm : mark_branch 0 ⟨p.bitmap, p.nFreeFrames, to_int n, (i : Int)⟩ with
      | none => rw [hm] at h; simp at h
      | some s =>
        rw [hm] at h
        simp only [GetResult.allocated.injEq] at h
        obtain ⟨hf, hp⟩ := h
        have hm' : mark_branch ((0 : Nat) : Int) ⟨p.bitmap, p.nFreeFrames, to_int n, (i : Int)⟩
            = some s := hm
        obtain ⟨h1, h2⟩ := mark_branch_some (by norm_num) hm'
        subst hp
        refine ⟨i, rfl, by rw [← hf, Nat.mul_comm], ?_, h2, rfl, rfl, rfl, rfl⟩
        simpa using h1

/-! ## Marking never clears a byte -/

theorem mark_neg (m : Nat) (s : Regs) (h : s.i < 0) : mark m s = none := by
  unfold mark read_byte
  rw [if_neg (by omega)]
  rfl

theorem get_frames_no_region {p : ContFramePool} {n : Nat} {q : ContFramePool}
    (hr : p.get_frames n = .no_region q) : q = p := by
  unfold ContFramePool.get_frames at hr
  cases hs : search_zero p.bitmap 0 with
  | none => rw [hs] at hr; simp at hr
  | some i =>
    rw [hs] at hr
    simp only at hr
    split at hr
    · simp only [GetResult.no_region.injEq] at hr; exact hr.symm
    · cases hm : mark_branch 0 ⟨p.bitmap, p.nFreeFrames, to_int n, (i : Int)⟩ with
      | none => rw [hm] at hr; simp at hr
      | some s => rw [hm] at hr; simp at hr

theorem tdiv_four (b : Nat) : Int.tdiv (b : Int) 4 = ((b / 4 : Nat) : Int) := by
  rw [Int.tdiv_eq_ediv (by omega) (by norm_num)]
  omega

theorem tmod_four (b : Nat) : Int.tmod (b : Int) 4 = ((b % 4 : Nat) : Int) := by
  rw [Int.tmod_eq_emod (by omega) (by norm_num)]
  omega

/-- For a frame number below `2^31`, `mark_inaccessible` is `mark_seq` at that
frame, whatever the states of the frames are; the memory in front of the
pointer is left alone. -/
theorem mark_inaccessible_eq_seq (p : ContFramePool) (b n : Nat) (hb : b < 2 ^ 31) :
    p.mark_inaccessible b n =
      (mark_seq p.bitmap b (to_int n - 1).toNat).map fun bm' =>
        { p with bitmap := bm',
                 nFreeFrames := ulong_dec_n ((to_int n - 1).toNat + 1) p.nFreeFrames } := by
  have hr : b % 4 < 4 := Nat.mod_lt _ (by norm_num)
  have hidx : ((b / 4 : Nat) : Int) + (p.front.length : Int) =
      ((b / 4 + p.front.length : Nat) : Int) := by push_cast; rfl
  have hfr : 4 * (b / 4 + p.front.length) + b % 4 = 4 * p.front.reverse.length + b := by
    rw [List.length_reverse]
    omega
  have hseq : mark_seq p.region (4 * (b / 4 + p.front.length) + b % 4) (to_int n - 1).toNat =
      (mark_seq p.bitmap b (to_int n - 1).toNat).map fun bm' => p.front.reverse ++ bm' := by
    rw [hfr]
    exact mark_seq_append _ _ _ _
  unfold ContFramePool.mark_inaccessible
  simp only [to_int_of_lt hb, tdiv_four, tmod_four, hidx]
  cases hm : mark_seq p.bitmap b (to_int n - 1).toNat with
  | none =>
    rw [hm] at hseq
    cases hs : mark_branch ((b % 4 : Nat) : Int)
        ⟨p.region, p.nFreeFrames, to_int n, ((b / 4 + p.front.length : Nat) : Int)⟩ with
    | none => rfl
    | some s =>
      have := (mark_branch_some hr hs).1
      rw [hseq] at this
      simp at this
  | some bm' =>
    rw [hm] at hseq
    obtain ⟨s, hs, hs1, hs2⟩ := @mark_branch_of_seq (b % 4) hr p.region p.nFreeFrames
      (b / 4 + p.front.length) (to_int n) _ hseq
    rw [hs]
    simp only [Option.map_some', hs1, hs2]
    rw [with_region_append]

/-! ## Counting free frames; the constructor -/

/-- Counting over `0 .. N-1` when a predicate is switched off on `[F, F+n)`. -/
theorem countP_range_switch_off (P P' : Nat → Bool) (F n : Nat) : ∀ (N : Nat),
    (∀ k, k < N → (k < F ∨ F + n ≤ k) → P' k = P k) →
    (∀ k, k < N → F ≤ k → k < F + n → P k = true ∧ P' k = false) →
    List.countP P' (List.range N) + (min N (F + n) - min N F) = List.countP P (List.range N) := by
  intro N
  induction N with
  | zero => intro _ _; simp
  | succ N ih =>
    intro hout hin
    have ih' := ih (fun k hk => hout k (by omega)) (fun k hk => hin k (by omega))
    rw [List.range_succ, List.countP_append, List.countP_append]
    simp only [List.countP_cons, List.countP_nil, Nat.zero_add]
    by_cases hN : F ≤ N ∧ N < F + n
    · obtain ⟨h1, h2⟩ := hin N (by omega) hN.1 hN.2
      simp only [h1, h2, if_true]
      simp only [Bool.false_eq_true, if_false]
      have e1 : min (N + 1) (F + n) = N + 1 := by omega
      have e2 : min (N + 1) F = F := by omega
      have e3 : min N (F + n) = N := by omega
      have e4 : min N F = F := by omega
      rw [e1, e2]
      rw [e3, e4] at ih'
      omega
    · have h := hout N (by omega) (by omega)
      rw [h]
      have e : min (N + 1) (F + n) - min (N + 1) F = min N (F + n) - min N F := by omega
      rw [e]
      omega

theorem count_free_eq (p : ContFramePool) :
    count_free p =
      List.countP (fun k => decide (frame_state p.bitmap k = some FREE)) (List.range p.nframes) := by
  unfold count_free
  rw [List.countP_eq_length_filter]

/-- Marking `n` frames that were `FREE` frames of the pool lowers the number of
`FREE` frames by `n`. -/
theorem count_free_marked (p p' : ContFramePool) (F n : Nat) (hn : p'.nframes = p.nframes)
    (hin : F + n ≤ p.nframes)
    (hfree : ∀ k, F ≤ k → k < F + n → frame_state p.bitmap k = some FREE)
    (hmarked : ∀ k, F ≤ k → k < F + n → frame_state p'.bitmap k ≠ some FREE)
    (hout : ∀ k, (k < F ∨ F + n ≤ k) → frame_state p'.bitmap k = frame_state p.bitmap k) :
    count_free p' + n = count_free p := by
  rw [count_free_eq, count_free_eq, hn]
  have h := countP_range_switch_off
    (fun k => decide (frame_state p.bitmap k = some FREE))
    (fun k => decide (frame_state p'.bitmap k = some FREE)) F n p.nframes
    (fun k _ hk => by simp only [hout k hk])
    (fun k _ h1 h2 => ⟨by simp [hfree k h1 h2], by simp [hmarked k h1 h2]⟩)
  have e1 : min p.nframes (F + n) = F + n := by omega
  have e2 : min p.nframes F = F := by omega
  rw [e1, e2] at h
  omega

/-- A marking of `n >= 1` frames that were `FREE` frames of the pool keeps the
free counter equal to the number of `FREE` frames. -/
theorem marked_keeps_count (p p' : ContFramePool) (F n : Nat) (hn1 : 1 ≤ n)
    (hinv : count_free p = p.nFreeFrames)
    (hm : mark_seq p.bitmap F (n - 1) = some p'.bitmap)
    (hcount : p'.nFreeFrames = ulong_dec_n (n - 1 + 1) p.nFreeFrames)
    (hnf : p'.nframes = p.nframes) (hin : F + n ≤ p.nframes) (hM : n ≤ ULONG_MOD)
    (hfree : ∀ k, F ≤ k → k < F + n → frame_state p.bitmap k = some FREE) :
    count_free p' = p'.nFreeFrames := by
  obtain ⟨_, _, hhead, hmid, hout⟩ := mark_seq_spec hm
  have hmarked : ∀ k, F ≤ k → k < F + n → frame_state p'.bitmap k ≠ some FREE := by
    intro k h1 h2
    rcases Nat.eq_or_lt_of_le h1 with heq | hlt
    · subst heq
      rw [hhead, hfree F (le_refl F) h2]
      decide
    · rw [hmid k hlt (by omega)]
      decide
  have hc := count_free_marked p p' F n hnf hin hfree hmarked (fun k hk => hout k (by omega))
  have e : n - 1 + 1 = n := by omega
  rw [e, ulong_dec_n_eq n p.nFreeFrames hM] at hcount
  have hle : n ≤ p.nFreeFrames := by omega
  rw [if_pos hle] at hcount
  omega

/-- The initialisation loop zeroes the bytes `i, i+1, ...` while `i * 4 < n`. -/
theorem init_loop_spec (n : Nat) : ∀ (fuel i : Nat) (bm bm' : List Nat),
    init_loop n fuel (i : Int) bm = some bm' →
      bm'.length = bm.length ∧
      (∀ j, i ≤ j → j * 4 < n → bm'[j]? = some 0) ∧
      (∀ j, (j < i ∨ n ≤ j * 4) → bm'[j]? = bm[j]?) := by
  intro fuel
  induction fuel with
  | zero => intro i bm bm' h; simp [init_loop] at h
  | succ fuel ih =>
    intro i bm bm' h
    rw [init_loop] at h
    by_cases hi : (i : Int) * 4 < (n : Int)
    · rw [if_pos hi] at h
      have hi' : i * 4 < n := by omega
      unfold write_byte at h
      by_cases hw : 0 ≤ (i : Int) ∧ (i : Int).toNat < bm.length
      · rw [if_pos hw] at h
        simp only [Option.some_bind, Int.toNat_ofNat] at h
        have hlt : i < bm.length := by simpa using hw.2
        have hnext : init_loop n fuel ((i + 1 : Nat) : Int) (bm.set i 0) = some bm' := by
          rw [Nat.cast_add, Nat.cast_one]; exact h
        obtain ⟨h1, h2, h3⟩ := ih (i + 1) (bm.set i 0) bm' hnext
        refine ⟨by rw [h1, List.length_set], ?_, ?_⟩
        · intro j hj hj4
          rcases Nat.eq_or_lt_of_le hj with heq | hgt
          · subst heq
            rw [h3 i (Or.inl (by omega)), List.getElem?_set_self hlt]
          · exact h2 j (by omega) hj4
        · intro j hj
          have hne : i ≠ j := by omega
          rw [h3 j (by omega), List.getElem?_set_ne hne]
      · rw [if_neg hw] at h
        simp at h
    · rw [if_neg hi] at h
      simp only [Option.some.injEq] at h
      subst h
      refine ⟨rfl, ?_, fun _ _ => rfl⟩
      intro j hj hj4
      omega

/-- The pool the constructor builds: members, frame states and free counter. -/
theorem construct_spec {base n info ninfo : Nat} {mem front : List Nat} {p : ContFramePool}
    (hn1 : 1 ≤ n) (h : ContFramePool.construct base n info ninfo mem front = some p) :
    p.nframes = n ∧ p.base_frame_no = base ∧ p.info_frame_no = info ∧
      p.nFreeFrames = (if info = 0 then n - 1 else n) ∧
      (∀ k, k < n → frame_state p.bitmap k =
        if info = 0 ∧ k = 0 then some BOOKKEEPING else some FREE) := by
  unfold ContFramePool.construct at h
  cases hl : init_loop n (n + 1) 0 mem with
  | none => rw [hl] at h; simp at h
  | some bm =>
    rw [hl] at h
    simp only [Option.some_bind] at h
    have hl' : init_loop n (n + 1) ((0 : Nat) : Int) mem = some bm := hl
    obtain ⟨hlen, hz, _⟩ := init_loop_spec n (n + 1) 0 mem bm hl'
    have hzero : ∀ k, k < n → bm[k / 4]? = some 0 := fun k hk => hz (k / 4) (by omega) (by omega)
    by_cases hinfo : info = 0
    · rw [if_pos hinfo] at h
      have h0 : bm[0]? = some 0 := hz 0 (le_refl 0) (by omega)
      have hlt : 0 < bm.length := (List.getElem?_eq_some.mp h0).1
      unfold read_byte write_byte at h
      simp only [le_refl, if_true, Int.toNat_zero, h0, Option.some_bind, true_and, hlt] at h
      simp only [Option.some.injEq] at h
      subst h
      refine ⟨rfl, rfl, rfl, ?_, ?_⟩
      · simp only [hinfo, if_true]
        unfold ulong_dec
        rw [if_neg (by omega)]
      · intro k hk
        unfold frame_state
        by_cases hq : k / 4 = 0
        · rw [hq, List.getElem?_set_self hlt]
          have hk4 : k < 4 := by omega
          interval_cases k <;> simp [hinfo, BOOKKEEPING, FREE] <;> decide
        · rw [List.getElem?_set_ne (Ne.symm hq), hzero k hk]
          have hk0 : ¬ (info = 0 ∧ k = 0) := by
            rintro ⟨_, rfl⟩; exact hq rfl
          simp [hk0, FREE]
    · rw [if_neg hinfo] at h
      simp only [Option.some.injEq] at h
      subst h
      refine ⟨rfl, rfl, rfl, by simp [hinfo], ?_⟩
      intro k hk
      unfold frame_state
      rw [hzero k hk]
      simp [hinfo, FREE]

theorem countP_all_range (N : Nat) : List.countP (fun _ => true) (List.range N) = N := by
  induction N with
  | zero => simp
  | succ N ih => rw [List.range_succ, List.countP_append, ih]; simp

/-- Right after construction the free counter is the number of `FREE` frames. -/
theorem construct_count {base n info ninfo : Nat} {mem front : List Nat} {p : ContFramePool}
    (hn1 : 1 ≤ n) (h : ContFramePool.construct base n info ninfo mem front = some p) :
    count_free p = p.nFreeFrames := by
  obtain ⟨hnf, _, _, hfree, hstate⟩ := construct_spec hn1 h
  rw [count_free_eq, hnf, hfree]
  by_cases hinfo : info = 0
  · have hc := countP_range_switch_off (fun _ => true)
      (fun k => decide (frame_state p.bitmap k = some FREE)) 0 1 n
      (fun k hk hk1 => by
        have hk0 : ¬ (info = 0 ∧ k = 0) := by omega
        simp [hstate k hk, hk0])
      (fun k hk _ hk1 => by
        have hk0 : info = 0 ∧ k = 0 := ⟨hinfo, by omega⟩
        have hs := hstate k hk
        rw [if_pos hk0] at hs
        refine ⟨rfl, ?_⟩
        show decide (frame_state p.bitmap k = some FREE) = false
        rw [hs]
        decide)
    rw [countP_all_range] at hc
    have e1 : min n (0 + 1) = 1 := by omega
    have e2 : min n 0 = 0 := by omega
    rw [e1, e2] at hc
    rw [if_pos hinfo]
    omega
  · have hc := countP_range_switch_off (fun _ => true)
      (fun k => decide (frame_state p.bitmap k = some FREE)) 0 0 n
      (fun k hk _ => by
        have hk0 : ¬ (info = 0 ∧ k = 0) := fun hh => hinfo hh.1
        simp [hstate k hk, hk0])
      (fun k _ h1 h2 => by omega)
    rw [countP_all_range] at hc
    rw [if_neg hinfo]
    omega

/-- A call admitted by `call_on_free` keeps the free counter equal to the number
of `FREE` frames and does not change `nframes`. -/
theorem call_on_free_keeps_count (p p' : ContFramePool) (c : PoolCall)
    (hsmall : p.nframes < 2 ^ 31) (hinv : count_free p = p.nFreeFrames)
    (h : p.call_on_free c = some p') :
    count_free p' = p'.nFreeFrames ∧ p'.nframes = p.nframes := by
  cases c with
  | get_frames n =>
    simp only [ContFramePool.call_on_free] at h
    cases hr : p.get_frames n with
    | fault => rw [hr] at h; simp at h
    | no_region q =>
      rw [hr] at h
      simp only [Option.some.injEq] at h
      subst h
      rw [get_frames_no_region hr]
      exact ⟨hinv, rfl⟩
    | allocated f q =>
      obtain ⟨i, hs, hf, hm, hcount, _, hnf, _⟩ := get_frames_allocated hr
      rw [hr, hs] at h
      simp only at h
      split at h
      · rename_i hok
        simp only [Option.some.injEq] at h
        subst h
        obtain ⟨hn1, hn, hin, hfree⟩ := hok
        rw [to_int_count hn1 hn] at hm
        rw [to_int_count hn1 hn] at hcount
        refine ⟨marked_keeps_count p q (4 * i) n hn1 hinv hm hcount hnf hin
          (by unfold ULONG_MOD; omega) ?_, hnf⟩
        intro k h1 h2
        have := hfree (k - 4 * i) (by omega)
        have e : 4 * i + (k - 4 * i) = k := by omega
        rwa [e] at this
      · simp at h
  | mark_inaccessible b n =>
    simp only [ContFramePool.call_on_free] at h
    split at h
    · rename_i hok
      obtain ⟨hn1, hin, hfree⟩ := hok
      have hb : b < 2 ^ 31 := by omega
      have hn : n < 2 ^ 31 := by omega
      rw [mark_inaccessible_eq_seq p b n hb, to_int_count hn1 hn] at h
      cases hm : mark_seq p.bitmap b (n - 1) with
      | none => rw [hm] at h; simp at h
      | some bm' =>
        rw [hm] at h
        simp only [Option.map_some', Option.some.injEq] at h
        subst h
        refine ⟨marked_keeps_count p _ b n hn1 hinv hm rfl rfl hin
          (by unfold ULONG_MOD; omega) ?_, rfl⟩
        intro k h1 h2
        have := hfree (k - b) (by omega)
        have e : b + (k - b) = k := by omega
        rwa [e] at this
    · simp at h
  | pool_release_frames f => simp [ContFramePool.call_on_free] at h

theorem calls_on_free_keep_count : ∀ (cs : List PoolCall) (p p' : ContFramePool),
    p.nframes < 2 ^ 31 → count_free p = p.nFreeFrames → p.calls_on_free cs = some p' →
      count_free p' = p'.nFreeFrames := by
  intro cs
  induction cs with
  | nil =>
    intro p p' _ hinv h
    simp only [ContFramePool.calls_on_free, Option.some.injEq] at h
    subst h
    exact hinv
  | cons c cs ih =>
    intro p p' hsmall hinv h
    rw [ContFramePool.calls_on_free] at h
    cases hc : p.call_on_free c with
    | none => rw [hc] at h; simp at h
    | some p1 =>
      rw [hc] at h
      simp only [Option.some_bind] at h
      obtain ⟨h1, h2⟩ := call_on_free_keeps_count p p1 c hsmall hinv hc
      exact ih p1 p' (by omega) h1 h

/-! ## The iteration bounds are large enough -/

theorem read_byte_none_of_ge (bm : List Nat) (i : Int) (h : (bm.length : Int) ≤ i) :
    read_byte bm i = none := by
  unfold read_byte
  have h0 : 0 ≤ i := by omega
  rw [if_pos h0]
  apply List.getElem?_eq_none
  omega

theorem test_none_of_ge (m : Nat) (s : Regs) (h : (s.bitmap.length : Int) ≤ s.i) :
    test m s = none := by
  unfold test
  rw [read_byte_none_of_ge _ _ h]
  rfl

theorem clear_eq_some {m : Nat} {s s' : Regs} (h : clear m s = some s') :
    s'.bitmap.length = s.bitmap.length ∧ s'.i = s.i := by
  unfold clear at h
  cases hr : read_byte s.bitmap s.i with
  | none => rw [hr] at h; simp at h
  | some b =>
    rw [hr] at h
    simp only [Option.some_bind] at h
    unfold write_byte at h
    split at h
    · simp only [Option.some_bind, Option.some.injEq] at h
      subst h
      simp
    · simp at h

/-- Once the bound exceeds the number of bytes from `i` to the end of the
addressable memory, the result of the release loop no longer depends on it: the
loop never stops for lack of iterations. -/
theorem release_loop_bound_irrelevant : ∀ (f1 f2 : Nat) (s : Regs),
    (s.bitmap.length : Int) < s.i + f1 → (s.bitmap.length : Int) < s.i + f2 →
      release_loop f1 s = release_loop f2 s := by
  intro f1
  induction f1 with
  | zero =>
    intro f2 s h1 h2
    have hge : (s.bitmap.length : Int) ≤ s.i := by omega
    cases f2 with
    | zero => rfl
    | succ f2 =>
      rw [release_loop, release_loop, test_none_of_ge _ _ hge]
      rfl
  | succ f1 ih =>
    intro f2 s h1 h2
    cases f2 with
    | zero =>
      have hge : (s.bitmap.length : Int) ≤ s.i := by omega
      rw [release_loop, release_loop, test_none_of_ge _ _ hge]
      rfl
    | succ f2 =>
      rw [release_loop, release_loop]
      cases test (c_eq 0xc0 0xc0) s with
      | none => rfl
      | some t =>
        simp only [Option.some_bind]
        cases t with
        | false => rfl
        | true =>
          simp only [if_true]
          cases hc1 : clear 0x3f s with
          | none => rfl
          | some s1 =>
            simp only [Option.some_bind]
            cases test (c_ne 0x03 0x03) s1 with
            | none => rfl
            | some b1 =>
              simp only [Option.some_bind]
              cases b1 with
              | true => rfl
              | false =>
                simp only [Bool.false_eq_true, if_false]
                cases hc2 : clear 0xcf s1 with
                | none => rfl
                | some s2 =>
                  simp only [Option.some_bind]
                  cases test (c_ne 0x0c 0x0c) s2 with
                  | none => rfl
                  | some b2 =>
                    simp only [Option.some_bind]
                    cases b2 with
                    | true => rfl
                    | false =>
                      simp only [Bool.false_eq_true, if_false]
                      cases hc3 : clear 0xf3 s2 with
                      | none => rfl
                      | some s3 =>
                        simp only [Option.some_bind]
                        cases test (c_ne 0x03 0x03) s3 with
                        | none => rfl
                        | some b3 =>
                          simp only [Option.some_bind]
                          cases b3 with
                          | true => rfl
                          | false =>
                            simp only [Bool.false_eq_true, if_false]
                            cases hc4 : clear 0xfc s3 with
                            | none => rfl
                            | some s4 =>
                              simp only [Option.some_bind]
                              obtain ⟨l1, i1⟩ := clear_eq_some hc1
                              obtain ⟨l2, i2⟩ := clear_eq_some hc2
                              obtain ⟨l3, i3⟩ := clear_eq_some hc3
                              obtain ⟨l4, i4⟩ := clear_eq_some hc4
                              have hl : (incr_i s4).bitmap.length = s.bitmap.length := by
                                simp only [incr_i]; omega
                              have hi : (incr_i s4).i = s.i + 1 := by
                                simp only [incr_i]; omega
                              apply ih
                              · rw [hl, hi]; push_cast at h1 ⊢; omega
                              · rw [hl, hi]; push_cast at h2 ⊢; omega

/-- The bound `bitmap.length + 1` used by `release_branch` is enough. -/
theorem release_loop_enough (s : Regs) (f : Nat) (hi : 0 ≤ s.i) (hf : s.bitmap.length + 1 ≤ f) :
    release_loop f s = release_loop (s.bitmap.length + 1) s :=
  release_loop_bound_irrelevant f (s.bitmap.length + 1) s (by omega) (by push_cast; omega)

/-- The initialisation loop returns when the memory holds the `ceil(n / 4)` bytes
of the bitmap and the bound exceeds the number of bytes still to be zeroed. -/
theorem init_loop_isSome (n : Nat) : ∀ (fuel i : Nat) (bm : List Nat),
    (n + 3) / 4 ≤ bm.length → (n + 3) / 4 - i < fuel →
      ∃ bm', init_loop n fuel (i : Int) bm = some bm' := by
  intro fuel
  induction fuel with
  | zero => intro i bm _ h2; omega
  | succ fuel ih =>
    intro i bm h1 h2
    rw [init_loop]
    by_cases hi : (i : Int) * 4 < (n : Int)
    · rw [if_pos hi]
      have hlt : i < bm.length := by omega
      have hw : write_byte bm (i : Int) 0x00 = some (bm.set i 0) := by
        unfold write_byte
        rw [if_pos ⟨by omega, by simpa using hlt⟩]
        simp
      rw [hw]
      simp only [Option.some_bind]
      have := ih (i + 1) (bm.set i 0) (by rw [List.length_set]; exact h1) (by omega)
      rw [Nat.cast_add, Nat.cast_one] at this
      exact this
    · rw [if_neg hi]
      exact ⟨bm, rfl⟩

/-- The constructor returns a pool whenever the memory at the bitmap address
holds the `ceil(n / 4)` bytes of the bitmap. -/
theorem construct_isSome (base n info ninfo : Nat) (mem front : List Nat) (hn1 : 1 ≤ n)
    (hmem : (n + 3) / 4 ≤ mem.length) :
    ∃ p, ContFramePool.construct base n info ninfo mem front = some p := by
  obtain ⟨bm, hbm⟩ := init_loop_isSome n (n + 1) 0 mem hmem (by omega)
  have hbm' : init_loop n (n + 1) 0 mem = some bm := hbm
  obtain ⟨hlen, _, _⟩ := init_loop_spec n (n + 1) 0 mem bm hbm
  have hlt : 0 < bm.length := by omega
  unfold ContFramePool.construct
  rw [hbm']
  simp only [Option.some_bind]
  by_cases hinfo : info = 0
  · rw [if_pos hinfo]
    unfold read_byte write_byte
    simp only [le_refl, if_true, Int.toNat_zero, true_and, hlt, List.getElem?_eq_getElem,
      Option.some_bind]
    exact ⟨_, rfl⟩
  · rw [if_neg hinfo]
    exact ⟨_, rfl⟩

/-! ## Postconditions of allocation and reservation -/

/-- C8 (as amended): for `1 <= n < 2^31` and `b < 2^31`, when the frames
`b .. b+n-1` are all `FREE` (as frames inside the pool can be),
`mark_inaccessible b n` returns, frame `b` is `HEAD_OF_SEQUENCE`, frames
`b+1 .. b+n-1` are `ALLOCATED`, the free counter is `n` less than before
(wrapping modulo `2^32` when it was smaller than `n`) and every frame outside
`[b, b+n)` keeps its state; this holds for every alignment of `b`. -/
theorem C8_mark_inaccessible_postcondition (p : ContFramePool) (b n : Nat)
    (hn1 : 1 ≤ n) (hn : n < 2 ^ 31) (hb : b < 2 ^ 31)
    (hfree : ∀ k, b ≤ k → k < b + n → frame_state p.bitmap k = some FREE) :
    ∃ p', p.mark_inaccessible b n = some p' ∧
      frame_state p'.bitmap b = some HEAD_OF_SEQUENCE ∧
      (∀ k, b < k → k < b + n → frame_state p'.bitmap k = some ALLOCATED) ∧
      (p'.nFreeFrames =
        if n ≤ p.nFreeFrames then p.nFreeFrames - n else p.nFreeFrames + ULONG_MOD - n) ∧
      (∀ k, (k < b ∨ b + n ≤ k) → frame_state p'.bitmap k = frame_state p.bitmap k) ∧
      p'.bitmap.length = p.bitmap.length ∧ p'.nframes = p.nframes ∧
      p'.base_frame_no = p.base_frame_no ∧ p'.info_frame_no = p.info_frame_no := by
  have hlast : (b + (n - 1)) / 4 < p.bitmap.length :=
    frame_state_some_lt (hfree (b + (n - 1)) (by omega) (by omega))
  obtain ⟨bm', hm⟩ := mark_seq_isSome p.bitmap b (n - 1) hlast
  obtain ⟨hlen, _, hhead, hmid, hout⟩ := mark_seq_spec hm
  refine ⟨{ p with bitmap := bm', nFreeFrames := ulong_dec_n (n - 1 + 1) p.nFreeFrames },
    ?_, ?_, ?_, ?_, ?_, hlen, rfl, rfl, rfl⟩
  · rw [mark_inaccessible_eq_seq p b n hb, to_int_count hn1 hn, hm]
    rfl
  · show frame_state bm' b = some HEAD_OF_SEQUENCE
    rw [hhead, hfree b (le_refl b) (by omega)]
    rfl
  · intro k h1 h2
    exact hmid k h1 (by omega)
  · show ulong_dec_n (n - 1 + 1) p.nFreeFrames = _
    have e : n - 1 + 1 = n := by omega
    rw [e]
    exact ulong_dec_n_eq n p.nFreeFrames (by unfold ULONG_MOD; omega)
  · intro k hk
    exact hout k (by omega)

/-- C9 (as amended): `mark_inaccessible` validates nothing and has no failure
result.  For `1 <= n < 2^31`, `b < 2^31` and a range whose bytes are addressable,
whatever the states of the frames and wherever the pool ends, the call returns
with `10` OR-ed into the state of frame `b`, frames `b+1 .. b+n-1` `ALLOCATED`,
the free counter decremented `n` times (so it always changes) and every frame
outside `[b, b+n)` unchanged. -/
theorem C9_mark_inaccessible_marks_unconditionally (p : ContFramePool) (b n : Nat)
    (hn1 : 1 ≤ n) (hn : n < 2 ^ 31) (hb : b < 2 ^ 31)
    (hmem : (b + n - 1) / 4 < p.bitmap.length) :
    ∃ p', p.mark_inaccessible b n = some p' ∧
      frame_state p'.bitmap b = (frame_state p.bitmap b).map (fun x => x ||| HEAD_OF_SEQUENCE) ∧
      (∀ k, b < k → k < b + n → frame_state p'.bitmap k = some ALLOCATED) ∧
      (p'.nFreeFrames =
        if n ≤ p.nFreeFrames then p.nFreeFrames - n else p.nFreeFrames + ULONG_MOD - n) ∧
      p'.nFreeFrames ≠ p.nFreeFrames ∧
      (∀ k, (k < b ∨ b + n ≤ k) → frame_state p'.bitmap k = frame_state p.bitmap k) := by
  have hlast : (b + (n - 1)) / 4 < p.bitmap.length := by
    have e : b + (n - 1) = b + n - 1 := by omega
    rw [e]; exact hmem
  obtain ⟨bm', hm⟩ := mark_seq_isSome p.bitmap b (n - 1) hlast
  obtain ⟨hlen, _, hhead, hmid, hout⟩ := mark_seq_spec hm
  have hcount : ulong_dec_n (n - 1 + 1) p.nFreeFrames =
      if n ≤ p.nFreeFrames then p.nFreeFrames - n else p.nFreeFrames + ULONG_MOD - n := by
    have e : n - 1 + 1 = n := by omega
    rw [e]
    exact ulong_dec_n_eq n p.nFreeFrames (by unfold ULONG_MOD; omega)
  refine ⟨{ p with bitmap := bm', nFreeFrames := ulong_dec_n (n - 1 + 1) p.nFreeFrames },
    ?_, ?_, ?_, hcount, ?_, ?_⟩
  · rw [mark_inaccessible_eq_seq p b n hb, to_int_count hn1 hn, hm]
    rfl
  · exact hhead
  · intro k h1 h2
    exact hmid k h1 (by omega)
  · show ulong_dec_n (n - 1 + 1) p.nFreeFrames ≠ p.nFreeFrames
    rw [hcount]
    have hM : n < ULONG_MOD := by unfold ULONG_MOD; omega
    split <;> omega
  · intro k hk
    exact hout k (by omega)

theorem frame_state_nonzero_byte {bm : List Nat} {k x : Nat} (h : frame_state bm k = some x)
    (hx : x ≠ 0) : ∃ b, bm[k / 4]? = some b ∧ b ≠ 0 := by
  unfold frame_state at h
  cases hb : bm[k / 4]? with
  | none => rw [hb] at h; simp at h
  | some b =>
    rw [hb] at h
    simp only [Option.map_some', Option.some.injEq] at h
    refine ⟨b, rfl, ?_⟩
    rintro rfl
    apply hx
    rw [← h]
    simp

/-- C4 (as amended): for a pool constructed with `1 <= n_frames < 2^31`, in the
constructed state and in every state reached from it by calls that mark only
`FREE` frames of the pool (`mark_inaccessible` on such frames, `get_frames` that
marks such frames or returns early), `nFreeFrames` equals the number of frames
of the pool whose state is `FREE`. -/
theorem C4_free_count_invariant_on_free_frames (base n info ninfo : Nat)
    (mem front : List Nat)
    (p0 p : ContFramePool) (cs : List PoolCall) (hn1 : 1 ≤ n) (hn : n < 2 ^ 31)
    (h0 : ContFramePool.construct base n info ninfo mem front = some p0)
    (hcs : p0.calls_on_free cs = some p) :
    count_free p = p.nFreeFrames := by
  have hnf : p0.nframes = n := (construct_spec hn1 h0).1
  exact calls_on_free_keep_count cs p0 p (by omega) (construct_count hn1 h0) hcs

/-! ## Requests for zero frames -/

/-- The bytes after `bitmap[i] |= m`. -/
theorem mark_eq_map (m : Nat) (bm : List Nat) (nF : Nat) (N i : Int) :
    mark m ⟨bm, nF, N, i⟩ =
      ((read_byte bm i).bind fun b => write_byte bm i (b ||| m)).map fun bm' =>
        (⟨bm', ulong_dec nF, N - 1, i⟩ : Regs) := by
  unfold mark
  cases read_byte bm i with
  | none => rfl
  | some b =>
    simp only [Option.some_bind]
    cases write_byte bm i (b ||| m) with
    | none => rfl
    | some bm' => rfl

/-- With a count of at most one, each marking branch runs its first statement
group only; the outcome does not depend on the count. -/
theorem mark_branch_small (j i : Int) (bm : List Nat) (nF : Nat) (N : Int) (hN : N ≤ 1) :
    (mark_branch j ⟨bm, nF, N, i⟩).map Regs.out =
      if j = 0 then
        ((read_byte bm i).bind fun b => write_byte bm i (b ||| 0x80)).map fun bm' =>
          (bm', ulong_dec nF)
      else if j = 1 then
        ((read_byte bm i).bind fun b => write_byte bm i (b ||| 0x20)).map fun bm' =>
          (bm', ulong_dec nF)
      else if j = 2 then
        ((read_byte bm i).bind fun b => write_byte bm i (b ||| 0x08)).map fun bm' =>
          (bm', ulong_dec nF)
      else if j = 3 then
        ((read_byte bm i).bind fun b => write_byte bm i (b ||| 0x02)).map fun bm' =>
          (bm', ulong_dec nF)
      else some (bm, nF) := by
  have hle : N - 1 ≤ 0 := by omega
  unfold mark_branch
  by_cases h0 : j = 0
  · rw [if_pos h0, if_pos h0, mark_eq_map]
    cases (read_byte bm i).bind fun b => write_byte bm i (b ||| 0x80) with
    | none => rfl
    | some bm' =>
      simp only [Option.map_some', Option.some_bind]
      rw [mark_if_nonpos _ _ hle]
      simp only [Option.some_bind]
      rw [mark_if_nonpos _ _ hle]
      simp only [Option.some_bind]
      rw [mark_if_incr_nonpos _ _ hle]
      simp only [Option.some_bind]
      rw [mark_loop_nonpos _ _ hle]
      rfl
  · rw [if_neg h0, if_neg h0]
    by_cases h1 : j = 1
    · rw [if_pos h1, if_pos h1, mark_eq_map]
      cases (read_byte bm i).bind fun b => write_byte bm i (b ||| 0x20) with
      | none => rfl
      | some bm' =>
        simp only [Option.map_some', Option.some_bind]
        rw [mark_if_nonpos _ _ hle]
        simp only [Option.some_bind]
        rw [mark_if_incr_nonpos _ _ hle]
        simp only [Option.some_bind]
        rw [mark_loop_nonpos _ _ hle]
        rfl
    · rw [if_neg h1, if_neg h1]
      by_cases h2 : j = 2
      · rw [if_pos h2, if_pos h2, mark_eq_map]
        cases (read_byte bm i).bind fun b => write_byte bm i (b ||| 0x08) with
        | none => rfl
        | some bm' =>
          simp only [Option.map_some', Option.some_bind]
          rw [mark_if_incr_nonpos _ _ hle]
          simp only [Option.some_bind]
          rw [mark_loop_nonpos _ _ hle]
          rfl
      · rw [if_neg h2, if_neg h2]
        by_cases h3 : j = 3
        · rw [if_pos h3, if_pos h3, mark_eq_map]
          cases (read_byte bm i).bind fun b => write_byte bm i (b ||| 0x02) with
          | none => rfl
          | some bm' =>
            simp only [Option.map_some', Option.some_bind]
            rw [mark_loop_nonpos _ _ (by simpa [incr_i] using hle)]
            rfl
        · rw [if_neg h3, if_neg h3]
          rfl

/-- The outcome of `get_frames` in terms of the bitmap and counter the marking
code leaves. -/
theorem get_frames_via_out (p : ContFramePool) (n : Nat) :
    p.get_frames n =
      match search_zero p.bitmap 0 with
      | none => .fault
      | some i =>
        if i % ULONG_MOD ≥ p.nframes * 4 % ULONG_MOD then .no_region p
        else
          match (mark_branch 0 ⟨p.bitmap, p.nFreeFrames, to_int n, (i : Int)⟩).map Regs.out with
          | none => .fault
          | some o =>
            .allocated (i * 4 % ULONG_MOD) { p with bitmap := o.1, nFreeFrames := o.2 } := by
  unfold ContFramePool.get_frames
  cases search_zero p.bitmap 0 with
  | none => rfl
  | some i =>
    simp only []
    split
    · rfl
    · cases mark_branch 0 ⟨p.bitmap, p.nFreeFrames, to_int n, (i : Int)⟩ with
      | none => rfl
      | some s => rfl

/-- The outcome of `mark_inaccessible` in terms of the bitmap and counter the
marking code leaves. -/
theorem mark_inaccessible_via_out (p : ContFramePool) (b n : Nat) :
    p.mark_inaccessible b n =
      ((mark_branch ((to_int b).tmod 4)
          ⟨p.region, p.nFreeFrames, to_int n,
            (to_int b).tdiv 4 + p.front.length⟩).map Regs.out).map
        fun o => p.with_region o.1 o.2 := by
  unfold ContFramePool.mark_inaccessible
  simp only [Option.map_map]
  rfl

theorem to_int_zero : to_int 0 = 0 := by decide

theorem to_int_one : to_int 1 = 1 := by decide

/-- C16 (amended): a request for zero frames is handled exactly like a request
for one frame.  For every pool state and every `b`, `get_frames(0)` has the
result and the effect of `get_frames(1)`, and `mark_inaccessible(b, 0)` those of
`mark_inaccessible(b, 1)`: the first frame is marked as head before the count
is looked at. -/
theorem C16_zero_length_request_is_one_frame (p : ContFramePool) (b : Nat) :
    p.get_frames 0 = p.get_frames 1 ∧ p.mark_inaccessible b 0 = p.mark_inaccessible b 1 := by
  constructor
  · rw [get_frames_via_out p 0, get_frames_via_out p 1]
    cases search_zero p.bitmap 0 with
    | none => rfl
    | some i =>
      simp only []
      rw [to_int_zero, to_int_one, mark_branch_small 0 _ _ _ 0 (by decide),
        mark_branch_small 0 _ _ _ 1 (by decide)]
  · rw [mark_inaccessible_via_out p b 0, mark_inaccessible_via_out p b 1, to_int_zero,
      to_int_one, mark_branch_small _ _ _ _ 0 (by decide),
      mark_branch_small _ _ _ _ 1 (by decide)]

/-! ## Shape of the allocations under calls on free frames -/

/-- What a call admitted by `call_on_free` does to the frame states: nothing, or
it turns a run of `FREE` frames of the pool into a head followed by `ALLOCATED`
frames and leaves every other frame alone. -/
theorem call_on_free_effect (p p' : ContFramePool) (c : PoolCall)
    (hsmall : p.nframes < 2 ^ 31) (h : p.call_on_free c = some p') :
    p'.nframes = p.nframes ∧
    (p'.bitmap = p.bitmap ∨
      ∃ F n, 1 ≤ n ∧ F + n ≤ p.nframes ∧
        (∀ k, F ≤ k → k < F + n → frame_state p.bitmap k = some FREE) ∧
        frame_state p'.bitmap F = some HEAD_OF_SEQUENCE ∧
        (∀ k, F < k → k < F + n → frame_state p'.bitmap k = some ALLOCATED) ∧
        (∀ k, (k < F ∨ F + n ≤ k) → frame_state p'.bitmap k = frame_state p.bitmap k)) := by
  have key : ∀ (q : ContFramePool) (F n : Nat), 1 ≤ n → p.frames_free F n →
      mark_seq p.bitmap F (n - 1) = some q.bitmap →
      ∃ F n, 1 ≤ n ∧ F + n ≤ p.nframes ∧
        (∀ k, F ≤ k → k < F + n → frame_state p.bitmap k = some FREE) ∧
        frame_state q.bitmap F = some HEAD_OF_SEQUENCE ∧
        (∀ k, F < k → k < F + n → frame_state q.bitmap k = some ALLOCATED) ∧
        (∀ k, (k < F ∨ F + n ≤ k) → frame_state q.bitmap k = frame_state p.bitmap k) := by
    intro q F n hn1 hfree hm
    obtain ⟨hin, hfr⟩ := hfree
    obtain ⟨_, _, hhead, hmid, hout⟩ := mark_seq_spec hm
    refine ⟨F, n, hn1, hin, ?_, ?_, ?_, ?_⟩
    · intro k h1 h2
      have := hfr (k - F) (by omega)
      have e : F + (k - F) = k := by omega
      rwa [e] at this
    · have h0 := hfr 0 (by omega)
      rw [Nat.add_zero] at h0
      rw [hhead, h0]
      rfl
    · intro k h1 h2
      exact hmid k h1 (by omega)
    · intro k hk
      exact hout k (by omega)
  cases c with
  | get_frames n =>
    simp only [ContFramePool.call_on_free] at h
    cases hr : p.get_frames n with
    | fault => rw [hr] at h; simp at h
    | no_region q =>
      rw [hr] at h
      simp only [Option.some.injEq] at h
      subst h
      rw [get_frames_no_region hr]
      exact ⟨rfl, Or.inl rfl⟩
    | allocated f q =>
      obtain ⟨i, hs, hf, hm, _, _, hnf, _⟩ := get_frames_allocated hr
      rw [hr, hs] at h
      simp only at h
      split at h
      · rename_i hok
        simp only [Option.some.injEq] at h
        subst h
        obtain ⟨hn1, hn, hfree⟩ := hok
        rw [to_int_count hn1 hn] at hm
        exact ⟨hnf, Or.inr (key q (4 * i) n hn1 hfree hm)⟩
      · simp at h
  | mark_inaccessible b n =>
    simp only [ContFramePool.call_on_free] at h
    split at h
    · rename_i hok
      obtain ⟨hn1, hfree⟩ := hok
      have hin := hfree.1
      have hb : b < 2 ^ 31 := by omega
      have hn : n < 2 ^ 31 := by omega
      rw [mark_inaccessible_eq_seq p b n hb, to_int_count hn1 hn] at h
      cases hm : mark_seq p.bitmap b (n - 1) with
      | none => rw [hm] at h; simp at h
      | some bm' =>
        rw [hm] at h
        simp only [Option.map_some', Option.some.injEq] at h
        subst h
        exact ⟨rfl, Or.inr (key _ b n hn1 hfree hm)⟩
    · simp at h
  | pool_release_frames f => simp [ContFramePool.call_on_free] at h

/-- A call admitted by `call_on_free` keeps every run of `ALLOCATED` frames
behind a head. -/
theorem call_on_free_keeps_runs (p p' : ContFramePool) (c : PoolCall)
    (hsmall : p.nframes < 2 ^ 31) (hinv : runs_have_heads p.bitmap p.nframes)
    (h : p.call_on_free c = some p') :
    runs_have_heads p'.bitmap p'.nframes ∧ p'.nframes = p.nframes := by
  obtain ⟨hnf, heff⟩ := call_on_free_effect p p' c hsmall h
  refine ⟨?_, hnf⟩
  rw [hnf]
  rcases heff with hsame | ⟨F, n, hn1, hin, hfree, hhead, hmid, hout⟩
  · rw [hsame]
    exact hinv
  · intro k hk hal
    by_cases hkin : F ≤ k ∧ k < F + n
    · rcases Nat.eq_or_lt_of_le hkin.1 with heq | hlt
      · subst heq
        rw [hhead] at hal
        exact absurd hal (by decide)
      · refine ⟨by omega, ?_⟩
        rcases Nat.eq_or_lt_of_le (Nat.le_sub_one_of_lt hlt) with heq | hlt2
        · left
          rw [← heq]
          exact hhead
        · right
          exact hmid (k - 1) hlt2 (by omega)
    · have hko : k < F ∨ F + n ≤ k := by omega
      rw [hout k hko] at hal
      obtain ⟨hk1, hprev⟩ := hinv k hk hal
      refine ⟨hk1, ?_⟩
      by_cases hpin : F ≤ k - 1 ∧ k - 1 < F + n
      · have hf := hfree (k - 1) hpin.1 hpin.2
        rw [hf] at hprev
        rcases hprev with h1 | h1 <;> exact absurd h1 (by decide)
      · rw [hout (k - 1) (by omega)]
        exact hprev

theorem calls_on_free_keep_runs : ∀ (cs : List PoolCall) (p p' : ContFramePool),
    p.nframes < 2 ^ 31 → runs_have_heads p.bitmap p.nframes → p.calls_on_free cs = some p' →
      runs_have_heads p'.bitmap p'.nframes ∧ p'.nframes = p.nframes := by
  intro cs
  induction cs with
  | nil =>
    intro p p' _ hinv h
    simp only [ContFramePool.calls_on_free, Option.some.injEq] at h
    subst h
    exact ⟨hinv, rfl⟩
  | cons c cs ih =>
    intro p p' hsmall hinv h
    rw [ContFramePool.calls_on_free] at h
    cases hc : p.call_on_free c with
    | none => rw [hc] at h; simp at h
    | some p1 =>
      rw [hc] at h
      simp only [Option.some_bind] at h
      obtain ⟨h1, h2⟩ := call_on_free_keeps_runs p p1 c hsmall hinv hc
      obtain ⟨h3, h4⟩ := ih p1 p' (by omega) h1 h
      exact ⟨h3, by omega⟩

/-- A freshly constructed pool has no `ALLOCATED` frame. -/
theorem construct_runs {base n info ninfo : Nat} {mem front : List Nat} {p : ContFramePool}
    (hn1 : 1 ≤ n) (h : ContFramePool.construct base n info ninfo mem front = some p) :
    runs_have_heads p.bitmap p.nframes := by
  obtain ⟨hnf, _, _, _, hst⟩ := construct_spec hn1 h
  intro k hk hal
  rw [hnf] at hk
  rw [hst k hk] at hal
  split at hal <;> exact absurd hal (by decide)

/-- C17 (as amended): for a pool constructed with `1 <= n_frames < 2^31`, in the
constructed state and in every state reached from it by calls that mark only
`FREE` frames of the pool, every `ALLOCATED` frame of the pool comes right after
a `HEAD_OF_SEQUENCE` or `ALLOCATED` frame (so every run of `ALLOCATED` frames
starts behind a head and none starts at frame 0), and one more such call leaves
every `HEAD_OF_SEQUENCE` frame of the pool `HEAD_OF_SEQUENCE`. -/
theorem C17_runs_keep_heads_on_free_frames (base n info ninfo : Nat) (mem front : List Nat)
    (p0 p : ContFramePool) (cs : List PoolCall) (hn1 : 1 ≤ n) (hn : n < 2 ^ 31)
    (h0 : ContFramePool.construct base n info ninfo mem front = some p0)
    (hcs : p0.calls_on_free cs = some p) :
    runs_have_heads p.bitmap p.nframes ∧
    ∀ (c : PoolCall) (p' : ContFramePool), p.call_on_free c = some p' →
      ∀ k, k < p.nframes → frame_state p.bitmap k = some HEAD_OF_SEQUENCE →
        frame_state p'.bitmap k = some HEAD_OF_SEQUENCE := by
  have hnf : p0.nframes = n := (construct_spec hn1 h0).1
  obtain ⟨hruns, hnf2⟩ := calls_on_free_keep_runs cs p0 p (by omega) (construct_runs hn1 h0) hcs
  refine ⟨hruns, ?_⟩
  intro c p' hc k hk hhd
  obtain ⟨_, heff⟩ := call_on_free_effect p p' c (by omega) hc
  rcases heff with hsame | ⟨F, m, hm1, hin, hfree, hhead, hmid, hout⟩
  · rw [hsame]
    exact hhd
  · by_cases hkin : F ≤ k ∧ k < F + m
    · have hf := hfree k hkin.1 hkin.2
      rw [hf] at hhd
      exact absurd hhd (by decide)
    · rw [hout k (by omega)]
      exact hhd

/-! ## The releasing code, statement by statement -/

/-- The statement group `bitmap[i] &= m; nFreeFrames++;` on an addressable
byte. -/
theorem clear_some (m : Nat) (bm : List Nat) (nF : Nat) (N : Int) (q b : Nat)
    (hb : bm[q]? = some b) :
    clear m ⟨bm, nF, N, (q : Int)⟩ = some ⟨bm.set q (b &&& m), ulong_inc nF, N, (q : Int)⟩ := by
  have hlt : q < bm.length := (List.getElem?_eq_some.mp hb).1
  unfold clear read_byte write_byte
  simp [hb, hlt]

/-- The condition `bitmap[i] & m` on an addressable byte. -/
theorem test_some (m : Nat) (bm : List Nat) (nF : Nat) (N : Int) (q b : Nat)
    (hb : bm[q]? = some b) :
    test m ⟨bm, nF, N, (q : Int)⟩ = some (decide (b &&& m ≠ 0)) := by
  unfold test read_byte
  simp [hb]

/-- A read that returns is a read of an addressable byte at a non-negative
index. -/
theorem read_byte_inv {bm : List Nat} {i : Int} {b : Nat} (h : read_byte bm i = some b) :
    ∃ q : Nat, i = (q : Int) ∧ bm[q]? = some b := by
  unfold read_byte at h
  split at h
  · rename_i h0
    exact ⟨i.toNat, (Int.toNat_of_nonneg h0).symm, h⟩
  · simp at h

/-- A test that returns has read an addressable byte. -/
theorem test_inv {m : Nat} {s : Regs} {t : Bool} (h : test m s = some t) :
    ∃ (q b : Nat), s.i = (q : Int) ∧ s.bitmap[q]? = some b ∧ t = decide (b &&& m ≠ 0) := by
  unfold test at h
  cases hr : read_byte s.bitmap s.i with
  | none => rw [hr] at h; simp at h
  | some b =>
    rw [hr] at h
    simp only [Option.map_some', Option.some.injEq] at h
    obtain ⟨q, hq, hb⟩ := read_byte_inv hr
    exact ⟨q, b, hq, hb, h.symm⟩

/-- A clearing statement that returns has replaced an addressable byte `b` by
`b & m` and incremented the free counter. -/
theorem clear_inv {m : Nat} {s s' : Regs} (h : clear m s = some s') :
    ∃ (q b : Nat), s.i = (q : Int) ∧ s.bitmap[q]? = some b ∧
      s' = ⟨s.bitmap.set q (b &&& m), ulong_inc s.nFreeFrames, s.N_frames, s.i⟩ := by
  cases hr : read_byte s.bitmap s.i with
  | none =>
    unfold clear at h
    rw [hr] at h
    simp at h
  | some b =>
    obtain ⟨q, hq, hb⟩ := read_byte_inv hr
    refine ⟨q, b, hq, hb, ?_⟩
    have h2 := clear_some m s.bitmap s.nFreeFrames s.N_frames q b hb
    rw [← hq] at h2
    have e : (⟨s.bitmap, s.nFreeFrames, s.N_frames, s.i⟩ : Regs) = s := rfl
    rw [e, h] at h2
    exact Option.some.inj h2

/-! ## The first frame of a byte under the releasing code

Byte `L` of the region is byte 0 of the bitmap when `L` bytes lie in front of
the pointer. -/

theorem frame_state_first (bm : List Nat) (L : Nat) :
    frame_state bm (4 * L) = (bm[L]?).map fun b => (b >>> 6) &&& 3 := by
  unfold frame_state
  rw [Nat.mul_div_cancel_left L (by norm_num : 0 < 4), Nat.mul_mod_right]

/-- A mask with bits 6 and 7 set leaves the state of the first frame of a byte
alone. -/
theorem top_bits (m b : Nat) (h6 : m.testBit 6 = true) (h7 : m.testBit 7 = true) :
    ((b &&& m) >>> 6) &&& 3 = (b >>> 6) &&& 3 := by
  apply Nat.eq_of_testBit_eq
  intro j
  rw [and3_testBit, and3_testBit, Nat.testBit_shiftRight, Nat.testBit_shiftRight,
    Nat.testBit_and]
  by_cases hj : j < 2
  · interval_cases j
    · simp [h6]
    · simp [h7]
  · simp [hj]

theorem top_bits_cf (b : Nat) : ((b &&& 0xcf) >>> 6) &&& 3 = (b >>> 6) &&& 3 :=
  top_bits 0xcf b (by decide) (by decide)

theorem top_bits_f3 (b : Nat) : ((b &&& 0xf3) >>> 6) &&& 3 = (b >>> 6) &&& 3 :=
  top_bits 0xf3 b (by decide) (by decide)

theorem top_bits_fc (b : Nat) : ((b &&& 0xfc) >>> 6) &&& 3 = (b >>> 6) &&& 3 :=
  top_bits 0xfc b (by decide) (by decide)

/-- A clearing statement at a byte index above `L`, or with a mask that keeps
the two highest bits, leaves the state of the first frame of byte `L` alone. -/
theorem clear_frame_first (L : Nat) {m : Nat} {s s' : Regs} (h : clear m s = some s')
    (hm : (L : Int) + 1 ≤ s.i ∨ ∀ b : Nat, ((b &&& m) >>> 6) &&& 3 = (b >>> 6) &&& 3) :
    frame_state s'.bitmap (4 * L) = frame_state s.bitmap (4 * L) ∧ s'.i = s.i := by
  obtain ⟨q, b, hq, hb, rfl⟩ := clear_inv h
  refine ⟨?_, rfl⟩
  simp only [frame_state_first]
  by_cases h0 : q = L
  · subst h0
    have hlt : q < s.bitmap.length := (List.getElem?_eq_some.mp hb).1
    rw [List.getElem?_set_self hlt, hb]
    simp only [Option.map_some', Option.some.injEq]
    rcases hm with h1 | hmask
    · rw [hq] at h1
      omega
    · exact hmask b
  · rw [List.getElem?_set_ne h0]

theorem clear_if_frame_first (L : Nat) {c m : Nat} {s s' : Regs}
    (h : clear_if c m s = some s')
    (hm : (L : Int) + 1 ≤ s.i ∨ ∀ b : Nat, ((b &&& m) >>> 6) &&& 3 = (b >>> 6) &&& 3) :
    frame_state s'.bitmap (4 * L) = frame_state s.bitmap (4 * L) ∧ s'.i = s.i := by
  unfold clear_if at h
  cases ht : test c s with
  | none => rw [ht] at h; simp at h
  | some t =>
    rw [ht] at h
    simp only [Option.some_bind] at h
    cases t with
    | true => exact clear_frame_first L h hm
    | false =>
      simp only [Bool.false_eq_true, if_false, Option.some.injEq] at h
      subst h
      exact ⟨rfl, rfl⟩

/-- After the guarded statement with `i++`, started at a byte index of at least
`L`, either the index is above `L` or the lowest bit of the current byte is
clear. -/
theorem clear_if_incr_frame_first (L : Nat) {m : Nat} {s s' : Regs}
    (h : clear_if_incr (c_eq 0x03 0x03) m s = some s') (hL : (L : Int) ≤ s.i)
    (hm : (L : Int) + 1 ≤ s.i ∨ ∀ b : Nat, ((b &&& m) >>> 6) &&& 3 = (b >>> 6) &&& 3) :
    frame_state s'.bitmap (4 * L) = frame_state s.bitmap (4 * L) ∧
      ((L : Int) + 1 ≤ s'.i ∨ test (c_eq 0xc0 0xc0) s' = some false) := by
  unfold clear_if_incr at h
  cases ht : test (c_eq 0x03 0x03) s with
  | none => rw [ht] at h; simp at h
  | some t =>
    rw [ht] at h
    simp only [Option.some_bind] at h
    cases t with
    | true =>
      simp only [if_true] at h
      cases hc : clear m s with
      | none => rw [hc] at h; simp at h
      | some s1 =>
        rw [hc] at h
        simp only [Option.map_some', Option.some.injEq] at h
        subst h
        obtain ⟨h1, h2⟩ := clear_frame_first L hc hm
        refine ⟨h1, Or.inl ?_⟩
        show (L : Int) + 1 ≤ s1.i + 1
        rw [h2]
        omega
    | false =>
      simp only [Bool.false_eq_true, if_false, Option.some.injEq] at h
      subst h
      exact ⟨rfl, Or.inr ht⟩

/-- The releasing loop, entered at a byte index above `L` or at a byte whose
lowest bit is clear, leaves the state of the first frame of byte `L` alone. -/
theorem release_loop_frame_first (L : Nat) : ∀ (fuel : Nat) (s s' : Regs),
    release_loop fuel s = some s' →
    ((L : Int) + 1 ≤ s.i ∨ test (c_eq 0xc0 0xc0) s = some false) →
      frame_state s'.bitmap (4 * L) = frame_state s.bitmap (4 * L) := by
  intro fuel
  induction fuel with
  | zero => intro s s' h; simp [release_loop] at h
  | succ fuel ih =>
    intro s s' h hpre
    rw [release_loop] at h
    cases ht : test (c_eq 0xc0 0xc0) s with
    | none => rw [ht] at h; simp at h
    | some t =>
      rw [ht] at h
      simp only [Option.some_bind] at h
      cases t with
      | false =>
        simp only [Bool.false_eq_true, if_false, Option.some.injEq] at h
        subst h
        rfl
      | true =>
        have hi : (L : Int) + 1 ≤ s.i := by
          rcases hpre with h1 | h1
          · exact h1
          · rw [ht] at h1
            simp at h1
        simp only [if_true] at h
        cases h1 : clear 0x3f s with
        | none => rw [h1] at h; simp at h
        | some s1 =>
          rw [h1] at h
          simp only [Option.some_bind] at h
          obtain ⟨f1, i1⟩ := clear_frame_first L h1 (Or.inl hi)
          cases hb1 : test (c_ne 0x03 0x03) s1 with
          | none => rw [hb1] at h; simp at h
          | some b1 =>
            rw [hb1] at h
            simp only [Option.some_bind] at h
            cases b1 with
            | true =>
              simp only [if_true, Option.some.injEq] at h
              subst h
              exact f1
            | false =>
              simp only [Bool.false_eq_true, if_false] at h
              cases h2 : clear 0xcf s1 with
              | none => rw [h2] at h; simp at h
              | some s2 =>
                rw [h2] at h
                simp only [Option.some_bind] at h
                obtain ⟨f2, i2⟩ := clear_frame_first L h2 (Or.inl (by omega))
                cases hb2 : test (c_ne 0x0c 0x0c) s2 with
                | none => rw [hb2] at h; simp at h
                | some b2 =>
                  rw [hb2] at h
                  simp only [Option.some_bind] at h
                  cases b2 with
                  | true =>
                    simp only [if_true, Option.some.injEq] at h
                    subst h
                    rw [f2, f1]
                  | false =>
                    simp only [Bool.false_eq_true, if_false] at h
                    cases h3 : clear 0xf3 s2 with
                    | none => rw [h3] at h; simp at h
                    | some s3 =>
                      rw [h3] at h
                      simp only [Option.some_bind] at h
                      obtain ⟨f3, i3⟩ := clear_frame_first L h3 (Or.inl (by omega))
                      cases hb3 : test (c_ne 0x03 0x03) s3 with
                      | none => rw [hb3] at h; simp at h
                      | some b3 =>
                        rw [hb3] at h
                        simp only [Option.some_bind] at h
                        cases b3 with
                        | true =>
                          simp only [if_true, Option.some.injEq] at h
                          subst h
                          rw [f3, f2, f1]
                        | false =>
                          simp only [Bool.false_eq_true, if_false] at h
                          cases h4 : clear 0xfc s3 with
                          | none => rw [h4] at h; simp at h
                          | some s4 =>
                            rw [h4] at h
                            simp only [Option.some_bind] at h
                            obtain ⟨f4, i4⟩ := clear_frame_first L h4 (Or.inl (by omega))
                            have hnext := ih (incr_i s4) s' h
                              (Or.inl (by show (L : Int) + 1 ≤ s4.i + 1; omega))
                            rw [hnext]
                            show frame_state s4.bitmap (4 * L) = _
                            rw [f4, f3, f2, f1]

/-- An access at a negative offset of the region handed over lies outside the
addressable memory. -/
theorem clear_neg (m : Nat) (s : Regs) (h : s.i < 0) : clear m s = none := by
  unfold clear read_byte
  rw [if_neg (by omega)]
  rfl

theorem release_branch_zero (s : Regs) :
    release_branch 0 s =
      (clear 0x3f s).bind fun s =>
      (clear_if (c_eq 0x30 0x30) 0xcf s).bind fun s =>
      (clear_if (c_eq 0x0c 0x0c) 0xf3 s).bind fun s =>
      (clear_if_incr (c_eq 0x03 0x03) 0xfc s).bind fun s =>
      release_loop (s.bitmap.length + 1) s := by
  unfold release_branch
  rw [if_pos rfl]

theorem release_branch_one (s : Regs) :
    release_branch 1 s =
      (clear 0xcf s).bind fun s =>
      (clear_if (c_eq 0x0c 0x0c) 0xf3 s).bind fun s =>
      (clear_if_incr (c_eq 0x03 0x03) 0xfc s).bind fun s =>
      release_loop (s.bitmap.length + 1) s := by
  unfold release_branch
  rw [if_neg (by decide), if_pos rfl]

theorem release_branch_two (s : Regs) :
    release_branch 2 s =
      (clear 0xf3 s).bind fun s =>
      (clear_if_incr (c_eq 0x03 0x03) 0xfc s).bind fun s =>
      release_loop (s.bitmap.length + 1) s := by
  unfold release_branch
  rw [if_neg (by decide), if_neg (by decide), if_pos rfl]

theorem release_branch_three (s : Regs) :
    release_branch 3 s =
      (clear 0xfc s).bind fun s =>
      release_loop ((incr_i s).bitmap.length + 1) (incr_i s) := by
  unfold release_branch
  rw [if_neg (by decide), if_neg (by decide), if_neg (by decide), if_pos rfl]

/-- The releasing code started behind the first frame of byte `L` leaves the
state of that frame alone. -/
theorem release_branch_frame_first (L r q : Nat) (hr : r < 4) (hpos : 4 * L + 1 ≤ 4 * q + r)
    (bm : List Nat) (nF : Nat) (N : Int) (s' : Regs)
    (h : release_branch (r : Int) ⟨bm, nF, N, (q : Int)⟩ = some s') :
    frame_state s'.bitmap (4 * L) = frame_state bm (4 * L) := by
  have hLq : (L : Int) ≤ (q : Int) := by omega
  interval_cases r
  · have hq : (L : Int) + 1 ≤ (q : Int) := by omega
    simp only [Nat.cast_zero] at h
    rw [release_branch_zero] at h
    cases h1 : clear 0x3f ⟨bm, nF, N, (q : Int)⟩ with
    | none => rw [h1] at h; simp at h
    | some s1 =>
      rw [h1] at h
      simp only [Option.some_bind] at h
      obtain ⟨f1, i1⟩ := clear_frame_first L h1 (Or.inl hq)
      cases h2 : clear_if (c_eq 0x30 0x30) 0xcf s1 with
      | none => rw [h2] at h; simp at h
      | some s2 =>
        rw [h2] at h
        simp only [Option.some_bind] at h
        obtain ⟨f2, i2⟩ := clear_if_frame_first L h2 (Or.inr top_bits_cf)
        cases h3 : clear_if (c_eq 0x0c 0x0c) 0xf3 s2 with
        | none => rw [h3] at h; simp at h
        | some s3 =>
          rw [h3] at h
          simp only [Option.some_bind] at h
          obtain ⟨f3, i3⟩ := clear_if_frame_first L h3 (Or.inr top_bits_f3)
          cases h4 : clear_if_incr (c_eq 0x03 0x03) 0xfc s3 with
          | none => rw [h4] at h; simp at h
          | some s4 =>
            rw [h4] at h
            simp only [Option.some_bind] at h
            have hL3 : (L : Int) ≤ s3.i := by rw [i3, i2, i1]; exact hLq
            obtain ⟨f4, i4⟩ := clear_if_incr_frame_first L h4 hL3 (Or.inr top_bits_fc)
            rw [release_loop_frame_first L _ s4 s' h i4, f4, f3, f2, f1]
  · simp only [Nat.cast_one] at h
    rw [release_branch_one] at h
    cases h1 : clear 0xcf ⟨bm, nF, N, (q : Int)⟩ with
    | none => rw [h1] at h; simp at h
    | some s1 =>
      rw [h1] at h
      simp only [Option.some_bind] at h
      obtain ⟨f1, i1⟩ := clear_frame_first L h1 (Or.inr top_bits_cf)
      cases h3 : clear_if (c_eq 0x0c 0x0c) 0xf3 s1 with
      | none => rw [h3] at h; simp at h
      | some s3 =>
        rw [h3] at h
        simp only [Option.some_bind] at h
        obtain ⟨f3, i3⟩ := clear_if_frame_first L h3 (Or.inr top_bits_f3)
        cases h4 : clear_if_incr (c_eq 0x03 0x03) 0xfc s3 with
        | none => rw [h4] at h; simp at h
        | some s4 =>
          rw [h4] at h
          simp only [Option.some_bind] at h
          have hL3 : (L : Int) ≤ s3.i := by rw [i3, i1]; exact hLq
          obtain ⟨f4, i4⟩ := clear_if_incr_frame_first L h4 hL3 (Or.inr top_bits_fc)
          rw [release_loop_frame_first L _ s4 s' h i4, f4, f3, f1]
  · simp only [Nat.cast_ofNat] at h
    rw [release_branch_two] at h
    cases h1 : clear 0xf3 ⟨bm, nF, N, (q : Int)⟩ with
    | none => rw [h1] at h; simp at h
    | some s1 =>
      rw [h1] at h
      simp only [Option.some_bind] at h
      obtain ⟨f1, i1⟩ := clear_frame_first L h1 (Or.inr top_bits_f3)
      cases h4 : clear_if_incr (c_eq 0x03 0x03) 0xfc s1 with
      | none => rw [h4] at h; simp at h
      | some s4 =>
        rw [h4] at h
        simp only [Option.some_bind] at h
        have hL1 : (L : Int) ≤ s1.i := by rw [i1]; exact hLq
        obtain ⟨f4, i4⟩ := clear_if_incr_frame_first L h4 hL1 (Or.inr top_bits_fc)
        rw [release_loop_frame_first L _ s4 s' h i4, f4, f1]
  · simp only [Nat.cast_ofNat] at h
    rw [release_branch_three] at h
    cases h1 : clear 0xfc ⟨bm, nF, N, (q : Int)⟩ with
    | none => rw [h1] at h; simp at h
    | some s1 =>
      rw [h1] at h
      simp only [Option.some_bind] at h
      obtain ⟨f1, i1⟩ := clear_frame_first L h1 (Or.inr top_bits_fc)
      have hi : (L : Int) + 1 ≤ (incr_i s1).i := by
        show (L : Int) + 1 ≤ s1.i + 1
        rw [i1]
        show (L : Int) + 1 ≤ (q : Int) + 1
        omega
      rw [release_loop_frame_first L _ (incr_i s1) s' h (Or.inl hi)]
      exact f1

/-- Frame 0 of the bitmap is the first frame of byte `front.length` of the
region. -/
theorem frame_zero_region (p : ContFramePool) :
    frame_state p.bitmap 0 = frame_state p.region (4 * p.front.length) := by
  rw [frame_state_first]
  have h := region_getElem? p 0
  rw [Nat.add_zero] at h
  rw [h]
  rfl

theorem frame_zero_with_region (p : ContFramePool) (R : List Nat) (nF : Nat) :
    frame_state (p.with_region R nF).bitmap 0 = frame_state R (4 * p.front.length) := by
  rw [frame_state_first, with_region_bitmap]
  have h : (R.drop p.front.length)[0]? = R[p.front.length]? := by
    rw [List.getElem?_drop, Nat.add_zero]
  show ((R.drop p.front.length)[0 / 4]?).map _ = _
  rw [show (0 : Nat) / 4 = 0 from rfl, h]

/-- The call `pool_release_frames(f)` with a frame number between 1 and
`2^31 - 1` leaves the state of frame 0 alone. -/
theorem pool_release_frame_zero {p p' : ContFramePool} {f : Nat} (h0 : 0 < f)
    (hf : f < 2 ^ 31) (h : p.pool_release_frames f = some p') :
    frame_state p'.bitmap 0 = frame_state p.bitmap 0 := by
  unfold ContFramePool.pool_release_frames at h
  simp only [] at h
  have hidx : ((f / 4 : Nat) : Int) + (p.front.length : Int) =
      ((f / 4 + p.front.length : Nat) : Int) := by push_cast; rfl
  rw [to_int_of_lt hf, tdiv_four, tmod_four, hidx] at h
  cases hr : release_branch ((f % 4 : Nat) : Int)
      ⟨p.region, p.nFreeFrames, 0, ((f / 4 + p.front.length : Nat) : Int)⟩ with
  | none => rw [hr] at h; simp at h
  | some s' =>
    rw [hr] at h
    simp only [Option.map_some', Option.some.injEq] at h
    subst h
    rw [frame_zero_with_region, frame_zero_region]
    exact release_branch_frame_first p.front.length (f % 4) (f / 4 + p.front.length)
      (Nat.mod_lt _ (by norm_num)) (by omega) _ _ _ _ hr

/-- The call `mark_inaccessible(b, n)` with a frame number between 1 and
`2^31 - 1` leaves the state of frame 0 alone. -/
theorem mark_inaccessible_frame_zero {p p' : ContFramePool} {b n : Nat} (h0 : 0 < b)
    (hb : b < 2 ^ 31) (h : p.mark_inaccessible b n = some p') :
    frame_state p'.bitmap 0 = frame_state p.bitmap 0 := by
  rw [mark_inaccessible_eq_seq p b n hb] at h
  cases hs : mark_seq p.bitmap b (to_int n - 1).toNat with
  | none => rw [hs] at h; simp at h
  | some bm' =>
    rw [hs] at h
    simp only [Option.map_some', Option.some.injEq] at h
    subst h
    obtain ⟨_, _, _, _, hout⟩ := mark_seq_spec hs
    exact hout 0 (Or.inl h0)

/-- While frame 0 has a non-zero state, a `get_frames` that marks leaves the
state of frame 0 alone, and it returns a frame number of at least 4 when the
bitmap has an all-zero byte below index `2^30`. -/
theorem get_frames_frame_zero {p p' : ContFramePool} {n f x : Nat}
    (hx : frame_state p.bitmap 0 = some x) (hx0 : x ≠ 0)
    (h : p.get_frames n = .allocated f p') :
    frame_state p'.bitmap 0 = frame_state p.bitmap 0 ∧
      ((∃ j, j < 2 ^ 30 ∧ p.bitmap[j]? = some 0) → 4 ≤ f) := by
  obtain ⟨i, hs, hf, hm, _⟩ := get_frames_allocated h
  obtain ⟨_, hz, _⟩ := search_zero_spec p.bitmap 0 i hs
  simp only [Nat.sub_zero] at hz
  obtain ⟨y, hy, hy0⟩ := frame_state_nonzero_byte hx hx0
  have hi : 1 ≤ i := by
    rcases Nat.eq_zero_or_pos i with h0 | hpos
    · subst h0
      rw [show (0 : Nat) / 4 = 0 from rfl, hz] at hy
      exact absurd (Option.some.inj hy).symm hy0
    · exact hpos
  obtain ⟨_, _, _, _, hout⟩ := mark_seq_spec hm
  refine ⟨hout 0 (Or.inl (by omega)), ?_⟩
  intro hlow
  rw [(search_zero_low hs hlow).2] at hf
  omega

/-- Calls that do not name frame 0 and whose frame numbers fit an `int` leave
the non-zero state of frame 0 alone. -/
theorem calls_keep_frame_zero : ∀ (cs : List PoolCall) (p p' : ContFramePool) (x : Nat),
    frame_state p.bitmap 0 = some x → x ≠ 0 → (∀ c ∈ cs, c.spares_frame_zero) →
    p.calls cs = some p' → frame_state p'.bitmap 0 = some x := by
  intro cs
  induction cs with
  | nil =>
    intro p p' x hx _ _ h
    simp only [ContFramePool.calls, Option.some.injEq] at h
    subst h
    exact hx
  | cons c cs ih =>
    intro p p' x hx hx0 hsp h
    rw [ContFramePool.calls] at h
    cases hc : p.call c with
    | none => rw [hc] at h; simp at h
    | some p1 =>
      rw [hc] at h
      simp only [Option.some_bind] at h
      have hc0 := hsp c (List.mem_cons_self _ _)
      have h1 : frame_state p1.bitmap 0 = some x := by
        cases c with
        | get_frames n =>
          simp only [ContFramePool.call] at hc
          cases hr : p.get_frames n with
          | fault => rw [hr] at hc; simp [GetResult.pool] at hc
          | no_region q =>
            rw [hr] at hc
            simp only [GetResult.pool, Option.some.injEq] at hc
            subst hc
            rw [get_frames_no_region hr]
            exact hx
          | allocated f q =>
            rw [hr] at hc
            simp only [GetResult.pool, Option.some.injEq] at hc
            subst hc
            rw [(get_frames_frame_zero hx hx0 hr).1]
            exact hx
        | mark_inaccessible b n =>
          simp only [PoolCall.spares_frame_zero] at hc0
          rw [mark_inaccessible_frame_zero hc0.1 hc0.2 hc]
          exact hx
        | pool_release_frames f =>
          simp only [PoolCall.spares_frame_zero] at hc0
          rw [pool_release_frame_zero hc0.1 hc0.2 hc]
          exact hx
      exact ih p1 p' x h1 hx0 (fun c' hc' => hsp c' (List.mem_cons_of_mem _ hc')) h

/-- C18 (as amended): for a pool constructed with `info_frame_no = 0`, after any
sequence of `get_frames` calls and of `mark_inaccessible` and
`pool_release_frames` calls whose frame-number argument lies between 1 and
`2^31 - 1`, none of which leaves the addressable memory, frame 0 is
`BOOKKEEPING`; and a `get_frames` call that marks, made while the bitmap has an
all-zero byte below index `2^30`, returns a frame number of at least 4, never
frame 0, and leaves frame 0 `BOOKKEEPING`. -/
theorem C18_bookkeeping_frame_stays (base n ninfo : Nat) (mem front : List Nat)
    (p0 p : ContFramePool) (cs : List PoolCall) (hn1 : 1 ≤ n)
    (h0 : ContFramePool.construct base n 0 ninfo mem front = some p0)
    (hsp : ∀ c ∈ cs, c.spares_frame_zero) (hcs : p0.calls cs = some p) :
    frame_state p.bitmap 0 = some BOOKKEEPING ∧
    ∀ (m f : Nat) (q : ContFramePool), (∃ j, j < 2 ^ 30 ∧ p.bitmap[j]? = some 0) →
      p.get_frames m = .allocated f q →
      4 ≤ f ∧ frame_state q.bitmap 0 = some BOOKKEEPING := by
  have hst := (construct_spec hn1 h0).2.2.2.2 0 (by omega)
  rw [if_pos ⟨rfl, rfl⟩] at hst
  have hp := calls_keep_frame_zero cs p0 p BOOKKEEPING hst (by decide) hsp hcs
  refine ⟨hp, ?_⟩
  intro m f q hlow hg
  obtain ⟨hq, h4⟩ := get_frames_frame_zero hp (by decide) hg
  exact ⟨h4 hlow, by rw [hq]; exact hp⟩

/-! ## Evaluations on concrete pools -/

set_option maxRecDepth 100000

theorem frame_state_replicate_zero (m k : Nat) (h : k / 4 < m) :
    frame_state (List.replicate m 0) k = some FREE := by
  unfold frame_state
  rw [List.getElem?_replicate, if_pos h]
  simp [FREE]

theorem to_int_beyond_range : (to_int (2 ^ 31 + 1) - 1).toNat = 0 := by decide

/-- C1 (code evaluated at the failing input): in the pool built with
`base_frame_no = 0`, `n_frames = 1024`, `info_frame_no = 0`, frames 1 to 10 are
`FREE`, yet `get_frames(10)` returns 4, marks frames 4 to 13 and leaves frame 1
`FREE`: the search looks for the first all-zero byte, not the first free run. -/
theorem C1_get_frames_skips_lowest_free_run :
    ContFramePool.construct 0 1024 0 0 (List.replicate 256 0) [] = some pool1024 ∧
    frame_state pool1024.bitmap 0 = some BOOKKEEPING ∧
    (∀ k, k < 10 → frame_state pool1024.bitmap (1 + k) = some FREE) ∧
    pool1024.get_frames 10 = .allocated 4 pool1024_get10 ∧
    (pool1024.get_frames 10).value = some 4 ∧
    frame_state pool1024_get10.bitmap 1 = some FREE ∧
    frame_state pool1024_get10.bitmap 4 = some HEAD_OF_SEQUENCE ∧
    (∀ k, k < 9 → frame_state pool1024_get10.bitmap (5 + k) = some ALLOCATED) ∧
    pool1024_get10.nFreeFrames = 1013 := by
  decide

/-- C3 (code evaluated at the failing input): after `get_frames(10)` on the
1024-frame pool, `pool_release_frames(4)` clears the bytes of frames 4 to 11 only:
frames 12 and 13 stay `ALLOCATED` and the free counter is 1021, not 1023. -/
theorem C3_release_does_not_restore :
    pool1024.get_frames 10 = .allocated 4 pool1024_get10 ∧
    pool1024_get10.pool_release_frames 4 =
      some { pool1024 with nFreeFrames := 1021,
                           bitmap := [0x40, 0, 0, 0xF0] ++ List.replicate 252 0 } ∧
    frame_state ([0x40, 0, 0, 0xF0] ++ List.replicate 252 0) 12 = some ALLOCATED ∧
    frame_state ([0x40, 0, 0, 0xF0] ++ List.replicate 252 0) 13 = some ALLOCATED ∧
    pool1024.nFreeFrames = 1023 := by
  decide

/-- C4 fails as stated: reserving the `BOOKKEEPING` frame 0 of the fresh 16-frame
pool decrements the free counter to 14 while 15 frames are still `FREE`. -/
theorem C4_reserving_a_used_frame_breaks_count :
    ContFramePool.construct 0 16 0 0 [0, 0, 0, 0] [] = some pool16 ∧
    count_free pool16 = 15 ∧ pool16.nFreeFrames = 15 ∧
    pool16.calls [.mark_inaccessible 0 1] =
      some { pool16 with nFreeFrames := 14, bitmap := [0xC0, 0, 0, 0] } ∧
    count_free { pool16 with nFreeFrames := 14, bitmap := [0xC0, 0, 0, 0] } = 15 := by
  decide

/-- C4 applied to the 16-frame pool after reserving the free frames 8 to 11 and
allocating the free frames 4 and 5: counter and number of `FREE` frames are 9. -/
theorem C4_free_count_invariant_on_free_frames_witness :
    ContFramePool.construct 0 16 0 0 [0, 0, 0, 0] [] = some pool16 ∧
    pool16.calls_on_free [.mark_inaccessible 8 4, .get_frames 2] =
      some { pool16 with nFreeFrames := 9, bitmap := [0x40, 0xB0, 0xBF, 0] } ∧
    count_free { pool16 with nFreeFrames := 9, bitmap := [0x40, 0xB0, 0xBF, 0] } = 9 :=
  ⟨by decide, by decide,
    C4_free_count_invariant_on_free_frames 0 16 0 0 [0, 0, 0, 0] [] pool16
      { pool16 with nFreeFrames := 9, bitmap := [0x40, 0xB0, 0xBF, 0] }
      [.mark_inaccessible 8 4, .get_frames 2] (by decide) (by decide) (by decide) (by decide)⟩

/-- A valid reservation followed by `get_frames`: with frames 8 to 11 reserved,
`get_frames(5)` marks frames 4 to 8 over the reserved head, and the free counter
is 6 while 7 frames are `FREE`. -/
theorem get_frames_over_reserved_frames_breaks_count :
    count_free pool16 = pool16.nFreeFrames ∧
    pool16.calls [.mark_inaccessible 8 4, .get_frames 5] =
      some { pool16 with nFreeFrames := 6, bitmap := [0x40, 0xBF, 0xFF, 0] } ∧
    count_free { pool16 with nFreeFrames := 6, bitmap := [0x40, 0xBF, 0xFF, 0] } = 7 := by
  decide

/-- C5 (code evaluated at the failing input): with frames 8 to 11 reserved in the
16-frame pool there is no run of 8 `FREE` frames and the free counter is 11, yet
`get_frames(8)` and `get_frames(12)` both return frame 4 and change the bitmap
and the counter. -/
theorem C5_get_frames_marks_without_free_run :
    pool16.mark_inaccessible 8 4 = some pool16_reserved ∧
    ¬ has_free_run pool16_reserved 8 ∧
    pool16_reserved.get_frames 8 =
      .allocated 4 { pool16 with nFreeFrames := 3, bitmap := [0x40, 0xBF, 0xFF, 0] } ∧
    pool16_reserved.nFreeFrames < 12 ∧
    pool16_reserved.get_frames 12 =
      .allocated 4 { pool16 with nFreeFrames := 4294967295,
                                 bitmap := [0x40, 0xBF, 0xFF, 0xFF] } := by
  decide

/-- C6 (code evaluated at the failing input): releasing the head of a two-frame
allocation frees the head only, and releasing the head of a four-frame allocation
that is followed by a second allocation frees both allocations. -/
theorem C6_release_frees_wrong_frames :
    pool16.get_frames 2 =
      .allocated 4 { pool16 with nFreeFrames := 13, bitmap := [0x40, 0xB0, 0, 0] } ∧
    frame_state [0x40, 0xB0, 0, 0] 5 = some ALLOCATED ∧
    frame_state [0x40, 0xB0, 0, 0] 6 = some FREE ∧
    ContFramePool.pool_release_frames
        { pool16 with nFreeFrames := 13, bitmap := [0x40, 0xB0, 0, 0] } 4 =
      some { pool16 with nFreeFrames := 14, bitmap := [0x40, 0x30, 0, 0] } ∧
    frame_state [0x40, 0x30, 0, 0] 5 = some ALLOCATED ∧
    pool16.calls [.get_frames 4, .get_frames 4] =
      some { pool16 with nFreeFrames := 7, bitmap := [0x40, 0xBF, 0xBF, 0] } ∧
    frame_state [0x40, 0xBF, 0xBF, 0] 8 = some HEAD_OF_SEQUENCE ∧
    ContFramePool.pool_release_frames
        { pool16 with nFreeFrames := 7, bitmap := [0x40, 0xBF, 0xBF, 0] } 4 =
      some pool16 := by
  decide

/-- C7 (code evaluated at the failing input): `pool_release_frames` returns
normally on a `FREE` frame (the counter goes from 15 to 16), on an `ALLOCATED`
frame (frames 5 to 7 are freed) and on the `BOOKKEEPING` frame (frame 0 becomes
`FREE`). -/
theorem C7_release_accepts_non_heads :
    frame_state pool16.bitmap 1 = some FREE ∧
    pool16.pool_release_frames 1 = some { pool16 with nFreeFrames := 16 } ∧
    frame_state pool16_get5.bitmap 5 = some ALLOCATED ∧
    pool16_get5.pool_release_frames 5 =
      some { pool16 with nFreeFrames := 13, bitmap := [0x40, 0x80, 0xC0, 0] } ∧
    frame_state pool16.bitmap 0 = some BOOKKEEPING ∧
    pool16.pool_release_frames 0 =
      some { pool16 with nFreeFrames := 16, bitmap := [0, 0, 0, 0] } := by
  decide

/-- C8 fails as stated: in a pool of `2^31 + 2` frames that are all `FREE`,
`mark_inaccessible(0, 2^31 + 1)` names frames inside the pool, yet it marks the
head only: frame 1 stays `FREE` and the free counter drops by 1. -/
theorem C8_request_beyond_int_range_marks_head_only :
    0 + (2 ^ 31 + 1) ≤ pool_huge.nframes ∧
    (∀ k, k < 2 ^ 31 + 1 → frame_state pool_huge.bitmap k = some FREE) ∧
    pool_huge.mark_inaccessible 0 (2 ^ 31 + 1) =
      some { pool_huge with nFreeFrames := 2 ^ 31 + 1,
                            bitmap := (List.replicate (2 ^ 29 + 1) 0).set 0 0x80 } ∧
    frame_state ((List.replicate (2 ^ 29 + 1) 0).set 0 0x80) 1 = some FREE := by
  refine ⟨by unfold pool_huge; norm_num, ?_, ?_, ?_⟩
  · intro k hk
    exact frame_state_replicate_zero _ k (by omega)
  · rw [mark_inaccessible_eq_seq pool_huge 0 _ (by norm_num), to_int_beyond_range]
    have h0 : (List.replicate (2 ^ 29 + 1) 0)[0]? = some 0 := by
      rw [List.getElem?_replicate, if_pos (by norm_num)]
    have hm : mark_seq pool_huge.bitmap 0 0 =
        some ((List.replicate (2 ^ 29 + 1) 0).set 0 0x80) := by
      unfold mark_seq or_frame mark_run pool_huge
      simp only [Nat.zero_div, h0, Option.map_some', Option.some_bind]
      rfl
    rw [hm]
    simp only [Option.map_some', ulong_dec_n, ulong_dec]
    rfl
  · unfold frame_state
    have hlt : 0 < (List.replicate (2 ^ 29 + 1) 0).length := by
      rw [List.length_replicate]; norm_num
    have e : 1 / 4 = 0 := by norm_num
    rw [e, List.getElem?_set_self hlt]
    decide

/-- The free counter wraps: the 4-frame pool reaches, by twelve calls, a state
with all frames `FREE` and a free counter of 0; reserving the free frame 0 there
leaves the counter at `2^32 - 1`. -/
theorem free_counter_wraps_below_zero :
    ContFramePool.construct 0 4 1 1 [0] [] = some pool4 ∧
    pool4.calls drain_calls = some pool4_drained ∧
    (∀ k, k < 4 → frame_state pool4_drained.bitmap k = some FREE) ∧
    pool4_drained.nFreeFrames = 0 ∧
    pool4_drained.mark_inaccessible 0 1 =
      some { pool4 with nFreeFrames := 4294967295, bitmap := [0x80] } := by
  decide

/-- C8 applied to `mark_inaccessible(5, 6)` on the fresh 16-frame pool (a start
frame with `b % 4 = 1`). -/
theorem C8_mark_inaccessible_postcondition_witness :
    ∃ p', pool16.mark_inaccessible 5 6 = some p' ∧
      frame_state p'.bitmap 5 = some HEAD_OF_SEQUENCE ∧
      (∀ k, 5 < k → k < 5 + 6 → frame_state p'.bitmap k = some ALLOCATED) ∧
      (p'.nFreeFrames =
        if 6 ≤ pool16.nFreeFrames then pool16.nFreeFrames - 6
        else pool16.nFreeFrames + ULONG_MOD - 6) ∧
      (∀ k, (k < 5 ∨ 5 + 6 ≤ k) → frame_state p'.bitmap k = frame_state pool16.bitmap k) ∧
      p'.bitmap.length = pool16.bitmap.length ∧ p'.nframes = pool16.nframes ∧
      p'.base_frame_no = pool16.base_frame_no ∧ p'.info_frame_no = pool16.info_frame_no :=
  C8_mark_inaccessible_postcondition pool16 5 6 (by decide) (by decide) (by decide)
    (by intro k h1 h2; interval_cases k <;> decide)

/-- C9 fails as stated: reserving the `BOOKKEEPING` frame 0 of the fresh 16-frame
pool returns with frame 0 `ALLOCATED` and the counter decremented; reserving
frames 6 to 9 when frames 8 to 11 are already reserved turns the old head into
`ALLOCATED`; reserving frame 4 of a 4-frame pool writes behind its bitmap. -/
theorem C9_reservation_of_unavailable_frames_mutates :
    frame_state pool16.bitmap 0 = some BOOKKEEPING ∧
    pool16.mark_inaccessible 0 1 =
      some { pool16 with nFreeFrames := 14, bitmap := [0xC0, 0, 0, 0] } ∧
    frame_state pool16_reserved.bitmap 8 = some HEAD_OF_SEQUENCE ∧
    pool16_reserved.mark_inaccessible 6 4 =
      some { pool16 with nFreeFrames := 7, bitmap := [0x40, 0x0B, 0xFF, 0] } ∧
    ContFramePool.mark_inaccessible { pool4 with bitmap := [0, 0] } 4 1 =
      some { pool4 with nFreeFrames := 3, bitmap := [0, 0x80] } := by
  decide

/-- C9 applied to `mark_inaccessible(0, 1)` on the fresh 16-frame pool, whose
frame 0 is `BOOKKEEPING`. -/
theorem C9_mark_inaccessible_marks_unconditionally_witness :
    ∃ p', pool16.mark_inaccessible 0 1 = some p' ∧
      frame_state p'.bitmap 0 =
        (frame_state pool16.bitmap 0).map (fun x => x ||| HEAD_OF_SEQUENCE) ∧
      (∀ k, 0 < k → k < 0 + 1 → frame_state p'.bitmap k = some ALLOCATED) ∧
      (p'.nFreeFrames =
        if 1 ≤ pool16.nFreeFrames then pool16.nFreeFrames - 1
        else pool16.nFreeFrames + ULONG_MOD - 1) ∧
      p'.nFreeFrames ≠ pool16.nFreeFrames ∧
      (∀ k, (k < 0 ∨ 0 + 1 ≤ k) → frame_state p'.bitmap k = frame_state pool16.bitmap k) :=
  C9_mark_inaccessible_marks_unconditionally pool16 0 1 (by decide) (by decide) (by decide)
    (by decide)

set_option maxRecDepth 100000

/-- C12 (code evaluated at the failing input): a self-describing pool of 16385
frames needs two frames for its bitmap, yet the constructor marks frame 0 only:
frame 1 is `FREE` and the free counter is 16384, not 16383. -/
theorem C12_constructor_marks_one_frame :
    min_info_frames 16385 = 2 ∧
    ∃ p, ContFramePool.construct 0 16385 0 0 (List.replicate 4097 0) [] = some p ∧
      frame_state p.bitmap 0 = some BOOKKEEPING ∧
      frame_state p.bitmap 1 = some FREE ∧
      p.nFreeFrames = 16384 := by
  refine ⟨by decide, ?_⟩
  obtain ⟨p, hp⟩ := construct_isSome 0 16385 0 0 (List.replicate 4097 0) [] (by norm_num)
    (by rw [List.length_replicate])
  have h := construct_spec (by norm_num) hp
  refine ⟨p, hp, ?_, ?_, ?_⟩
  · have h0 := h.2.2.2.2 0 (by norm_num)
    rw [h0, if_pos ⟨rfl, rfl⟩]
  · have h1 := h.2.2.2.2 1 (by norm_num)
    rw [h1, if_neg (by norm_num)]
  · rw [h.2.2.2.1, if_pos rfl]

/-- The statements of the constructor on the static pool list leave the list as
initialised: the index stays `0` and no slot is written. -/
theorem register_empty : Registry.empty.register = Registry.empty := by
  decide

/-- Whatever pools are constructed, in any number, the static pool list stays as
initialised. -/
theorem construct_all_empty : ∀ (as : List CtorArgs) (r : Registry),
    Registry.empty.construct_all as = some r → r = Registry.empty := by
  intro as
  induction as with
  | nil =>
    intro r h
    simp only [Registry.construct_all, Option.some.injEq] at h
    exact h.symm
  | cons a rest ih =>
    intro r h
    simp only [Registry.construct_all, ContFramePool.construct_in, register_empty] at h
    cases hc : ContFramePool.construct a.base_frame_no a.n_frames a.info_frame_no
        a.n_info_frames a.mem a.front with
    | none => rw [hc] at h; simp at h
    | some p =>
      rw [hc] at h
      simp only [Option.map_some', Option.some_bind] at h
      exact ih r h

/-- C13 (code evaluated at the failing input): constructing one pool from the
initial pool list returns the pool and leaves the list with a hundred null
slots and index `0`; the same holds after 101 constructions, none of which
fails. -/
theorem C13_constructor_registers_nothing :
    ContFramePool.construct_in Registry.empty 0 16 0 0 [0, 0, 0, 0] [] =
      some (Registry.empty, pool16) ∧
    Registry.empty.framepool_index = 0 ∧
    (∀ i, i < 100 → Registry.empty.framepool_list[i]? = some none) ∧
    Registry.empty.construct_all
      (List.replicate 101 { base_frame_no := 0, n_frames := 16, info_frame_no := 0,
                            n_info_frames := 0, mem := [0, 0, 0, 0] }) =
      some Registry.empty := by
  decide

/-- C14 (code evaluated at the failing input): with the pools `[0, 100)` and
`[100, 200)` in slots 0 and 1, `release_frames(100)` calls `pool_release_frames`
of both pools and then dereferences the null slot 2; with a hundred pools of 4
frames, `release_frames(4)` calls `pool_release_frames` of the pools `[0, 4)` and
`[4, 8)`, and the free counter of pool `[0, 4)` becomes 5. -/
theorem C14_release_frames_forwards_to_lower_neighbour :
    (registry_two.release_frames 100).forwarded = [0, 1] ∧
    (registry_two.release_frames 100).fault = true ∧
    (registry_full.release_frames 4).forwarded = [0, 1] ∧
    (registry_full.release_frames 4).fault = false ∧
    registry_full.framepool_list[0]? =
      some (some { base_frame_no := 0, nframes := 4, nFreeFrames := 4,
                   info_frame_no := 1000, bitmap := [0, 0] }) ∧
    (registry_full.release_frames 4).framepool_list[0]? =
      some (some { base_frame_no := 0, nframes := 4, nFreeFrames := 5,
                   info_frame_no := 1000, bitmap := [0, 0] }) ∧
    (registry_full.release_frames 1000).forwarded = [] ∧
    (registry_full.release_frames 1000).fault = false ∧
    (registry_full.release_frames 1000).framepool_list = registry_full.framepool_list := by
  decide

/-- C15 (code evaluated at the failing input): `needed_info_frames(1024)` hands
back no value, where one frame is needed; for 8192 frames the constructor
computes 2 where one frame is enough, for 16384 frames it computes 3. -/
theorem C15_needed_info_frames_returns_nothing :
    ContFramePool.needed_info_frames 1024 = none ∧ min_info_frames 1024 = 1 ∧
    ctor_n_info_frames 8192 = 2 ∧ min_info_frames 8192 = 1 ∧
    ctor_n_info_frames 16384 = 3 ∧ min_info_frames 16384 = 1 := by
  decide

/-! ## Reservations, zero-length requests: concrete pools -/

set_option maxRecDepth 100000

/-- C11 (code evaluated at the failing input): on the fresh 16-frame pool
`mark_inaccessible(8, 4)` reserves the free frames 8 to 11.  The following
`get_frames(4)` returns frame 4, and `pool_release_frames(4)`, the release of
that neighbouring allocation, clears the bytes of frames 4 to 11: the reserved
frames are `FREE` again and the second of two `get_frames(1)` calls returns
frame 8, although frame 8 was never released.  Without any release,
`get_frames(5)` right after the reservation returns frame 4 and marks frames 4
to 8, so the reserved frame 8 is part of the range handed out. -/
theorem C11_release_of_neighbour_frees_reservation :
    ContFramePool.construct 0 16 0 0 [0, 0, 0, 0] [] = some pool16 ∧
    pool16.frames_free 8 4 ∧
    pool16.mark_inaccessible 8 4 = some pool16_reserved ∧
    frame_state pool16_reserved.bitmap 8 = some HEAD_OF_SEQUENCE ∧
    pool16_reserved.get_frames 4 =
      .allocated 4 { pool16 with nFreeFrames := 7, bitmap := [0x40, 0xBF, 0xBF, 0] } ∧
    ({ pool16 with nFreeFrames := 7, bitmap := [0x40, 0xBF, 0xBF, 0] } :
        ContFramePool).pool_release_frames 4 = some pool16 ∧
    (∀ k, k < 4 → frame_state pool16.bitmap (8 + k) = some FREE) ∧
    pool16.get_frames 1 =
      .allocated 4 { pool16 with nFreeFrames := 14, bitmap := [0x40, 0x80, 0, 0] } ∧
    ({ pool16 with nFreeFrames := 14, bitmap := [0x40, 0x80, 0, 0] } :
        ContFramePool).get_frames 1 =
      .allocated 8 { pool16 with nFreeFrames := 13, bitmap := [0x40, 0x80, 0x80, 0] } ∧
    pool16_reserved.calls [.get_frames 4, .pool_release_frames 4, .get_frames 1] =
      some { pool16 with nFreeFrames := 14, bitmap := [0x40, 0x80, 0, 0] } ∧
    pool16_reserved.get_frames 5 =
      .allocated 4 { pool16 with nFreeFrames := 6, bitmap := [0x40, 0xBF, 0xFF, 0] } ∧
    frame_state [0x40, 0xBF, 0xFF, 0] 8 = some ALLOCATED := by
  decide

/-- C16 fails as stated: on the fresh 16-frame pool `get_frames(0)` returns
frame 4 after marking it as head and decrementing the free counter, and
`mark_inaccessible(5, 0)` marks frame 5 as head and decrements the counter. -/
theorem C16_zero_length_request_marks_a_frame :
    pool16.get_frames 0 =
      .allocated 4 { pool16 with nFreeFrames := 14, bitmap := [0x40, 0x80, 0, 0] } ∧
    pool16.mark_inaccessible 5 0 =
      some { pool16 with nFreeFrames := 14, bitmap := [0x40, 0x20, 0, 0] } ∧
    frame_state [0x40, 0x20, 0, 0] 5 = some HEAD_OF_SEQUENCE ∧
    pool16.nFreeFrames = 15 ∧ pool16.bitmap = [0x40, 0, 0, 0] := by
  decide

/-! ## Accesses of calls on frames of the pool -/

/-- A `get_frames` whose search ends at byte `i` inside the guard, with `4 * i`
below `2^32`, and whose marking stays in addressable memory returns `4 * i`. -/
theorem get_frames_of_seq {p : ContFramePool} {k i : Nat} {bm' : List Nat}
    (hs : search_zero p.bitmap 0 = some i)
    (hg : ¬ i % ULONG_MOD ≥ p.nframes * 4 % ULONG_MOD) (hi : 4 * i < ULONG_MOD)
    (hm : mark_seq p.bitmap (4 * i) (to_int k - 1).toNat = some bm') :
    p.get_frames k = .allocated (4 * i)
      { p with bitmap := bm',
               nFreeFrames := ulong_dec_n ((to_int k - 1).toNat + 1) p.nFreeFrames } := by
  have hm0 : mark_seq p.bitmap (4 * i + 0) (to_int k - 1).toNat = some bm' := hm
  obtain ⟨s, hsm, hb, hn⟩ :=
    @mark_branch_of_seq 0 (by norm_num) p.bitmap p.nFreeFrames i (to_int k) bm' hm0
  unfold ContFramePool.get_frames
  simp only [hs]
  rw [if_neg hg]
  have hsm' : mark_branch 0 ⟨p.bitmap, p.nFreeFrames, to_int k, (i : Int)⟩ = some s := hsm
  rw [hsm']
  simp only [hb, hn, Nat.mul_comm i 4, Nat.mod_eq_of_lt hi]

/-- C19 (as amended): take a pool of fewer than `2^31` frames whose addressable
memory ends with its bitmap of `ceil(n_frames / 4)` bytes, so that every access
at a byte index from `ceil(n_frames / 4)` on is a fault.  Then
`mark_inaccessible(b, n)` with `n >= 1` and `b + n <= n_frames` returns without a
fault, and `get_frames(k)` with `k >= 1` returns without a fault (early, or after
marking from frame `4 * i`) whenever the first all-zero byte is at an index `i`
with `4 * i + k <= n_frames`: these calls read and write bytes at indices below
`ceil(n_frames / 4)` only. -/
theorem C19_calls_on_pool_frames_stay_inside (p : ContFramePool)
    (hlen : p.bitmap.length = (p.nframes + 3) / 4) (hsmall : p.nframes < 2 ^ 31) :
    (∀ b n, 1 ≤ n → b + n ≤ p.nframes →
      ∃ p', p.mark_inaccessible b n = some p' ∧ p'.bitmap.length = p.bitmap.length) ∧
    (∀ k i, 1 ≤ k → search_zero p.bitmap 0 = some i → 4 * i + k ≤ p.nframes →
      p.get_frames k = .no_region p ∨
      ∃ p', p.get_frames k = .allocated (4 * i) p' ∧
        p'.bitmap.length = p.bitmap.length) := by
  constructor
  · intro b n hn1 hin
    rw [mark_inaccessible_eq_seq p b n (by omega), to_int_count hn1 (by omega)]
    obtain ⟨bm', hm⟩ := mark_seq_isSome p.bitmap b (n - 1) (by omega)
    rw [hm]
    exact ⟨_, rfl, (mark_seq_spec hm).1⟩
  · intro k i hk1 hs hin
    by_cases hg : i % ULONG_MOD ≥ p.nframes * 4 % ULONG_MOD
    · left
      unfold ContFramePool.get_frames
      simp only [hs]
      rw [if_pos hg]
    · right
      obtain ⟨bm', hm⟩ := mark_seq_isSome p.bitmap (4 * i) (k - 1) (by omega)
      have hc := to_int_count hk1 (show k < 2 ^ 31 by omega)
      rw [← hc] at hm
      have hi : 4 * i < ULONG_MOD := by unfold ULONG_MOD; omega
      exact ⟨_, get_frames_of_seq hs hg hi hm, (mark_seq_spec hm).1⟩

/-! ## Marking and releasing whole bytes -/

set_option maxRecDepth 100000

/-- OR into the state of a frame whose byte is known. -/
theorem or_frame_byte {bm : List Nat} {k v q r b : Nat} (hq : k / 4 = q) (hr : k % 4 = r)
    (hb : bm[q]? = some b) :
    or_frame bm k v = some (bm.set q (b ||| v <<< (6 - 2 * r))) := by
  unfold or_frame
  rw [hq, hr, hb]
  rfl

theorem getElem?_set_same {bm : List Nat} {q b : Nat} (v : Nat) (hb : bm[q]? = some b) :
    (bm.set q v)[q]? = some v :=
  List.getElem?_set_self (List.getElem?_eq_some.mp hb).1

/-- Marking the four frames of an all-zero byte as `ALLOCATED` stores `0xFF`. -/
theorem mark_run_zero_byte (n : Nat) (bm : List Nat) (q : Nat) (hb : bm[q]? = some 0) :
    mark_run (n + 4) bm (4 * q) = mark_run n (bm.set q 0xFF) (4 * (q + 1)) := by
  rw [mark_run_four n bm q]
  have h1 : or_frame bm (4 * q) 3 = some (bm.set q 0xC0) :=
    @or_frame_byte bm (4 * q) 3 q 0 0 (by omega) (by omega) hb
  have h2 : or_frame (bm.set q 0xC0) (4 * q + 1) 3 = some ((bm.set q 0xC0).set q 0xF0) :=
    @or_frame_byte (bm.set q 0xC0) (4 * q + 1) 3 q 1 0xC0 (by omega) (by omega)
      (getElem?_set_same _ hb)
  rw [List.set_set] at h2
  have h3 : or_frame (bm.set q 0xF0) (4 * q + 2) 3 = some ((bm.set q 0xF0).set q 0xFC) :=
    @or_frame_byte (bm.set q 0xF0) (4 * q + 2) 3 q 2 0xF0 (by omega) (by omega)
      (getElem?_set_same _ hb)
  rw [List.set_set] at h3
  have h4 : or_frame (bm.set q 0xFC) (4 * q + 3) 3 = some ((bm.set q 0xFC).set q 0xFF) :=
    @or_frame_byte (bm.set q 0xFC) (4 * q + 3) 3 q 3 0xFC (by omega) (by omega)
      (getElem?_set_same _ hb)
  rw [List.set_set] at h4
  rw [h1]
  simp only [Option.some_bind]
  rw [h2]
  simp only [Option.some_bind]
  rw [h3]
  simp only [Option.some_bind]
  rw [h4]
  simp only [Option.some_bind]

/-- Marking `4 * m` frames from the start of byte `q`, over all-zero bytes,
stores `0xFF` in the bytes `q .. q+m-1` and changes no other byte. -/
theorem mark_run_zero_bytes : ∀ (m : Nat) (bm : List Nat) (q : Nat),
    (∀ j, q ≤ j → j < q + m → bm[j]? = some 0) →
    ∃ bm', mark_run (4 * m) bm (4 * q) = some bm' ∧
      ∀ j, bm'[j]? = if q ≤ j ∧ j < q + m then some 0xFF else bm[j]? := by
  intro m
  induction m with
  | zero =>
    intro bm q _
    refine ⟨bm, rfl, ?_⟩
    intro j
    rw [if_neg (by omega)]
  | succ m ih =>
    intro bm q hz
    have hb : bm[q]? = some 0 := hz q (le_refl q) (by omega)
    have e : 4 * (m + 1) = 4 * m + 4 := by ring
    rw [e, mark_run_zero_byte (4 * m) bm q hb]
    obtain ⟨bm', hm, hpt⟩ := ih (bm.set q 0xFF) (q + 1) (by
      intro j h1 h2
      rw [List.getElem?_set_ne (by omega)]
      exact hz j (by omega) (by omega))
    refine ⟨bm', hm, ?_⟩
    intro j
    rw [hpt j]
    by_cases hj : q + 1 ≤ j ∧ j < q + 1 + m
    · rw [if_pos hj, if_pos (by omega)]
    · rw [if_neg hj]
      by_cases hjq : j = q
      · subst hjq
        rw [getElem?_set_same _ hb, if_pos (by omega)]
      · rw [List.getElem?_set_ne (by omega), if_neg (by omega)]

/-- Marking one frame at the start of the all-zero byte `q` stores `0x80`. -/
theorem mark_seq_one_frame (bm : List Nat) (q : Nat) (hb : bm[q]? = some 0) :
    mark_seq bm (4 * q) 0 = some (bm.set q 0x80) := by
  unfold mark_seq
  rw [@or_frame_byte bm (4 * q) 2 q 0 0 (by omega) (by omega) hb]
  rfl

/-- Marking `4 * (m + 1)` frames from the start of byte `q`, over all-zero
bytes, stores `0xBF` in byte `q`, `0xFF` in the bytes `q+1 .. q+m` and changes no
other byte. -/
theorem mark_seq_zero_bytes (m : Nat) (bm : List Nat) (q : Nat)
    (hz : ∀ j, q ≤ j → j < q + (m + 1) → bm[j]? = some 0) :
    ∃ bm', mark_seq bm (4 * q) (4 * (m + 1) - 1) = some bm' ∧
      ∀ j, bm'[j]? = if j = q then some 0xBF
        else if q < j ∧ j < q + (m + 1) then some 0xFF else bm[j]? := by
  have hb : bm[q]? = some 0 := hz q (le_refl q) (by omega)
  have e : 4 * (m + 1) - 1 = 4 * m + 1 + 1 + 1 := by omega
  have h1 : or_frame bm (4 * q) 2 = some (bm.set q 0x80) :=
    @or_frame_byte bm (4 * q) 2 q 0 0 (by omega) (by omega) hb
  have h2 : or_frame (bm.set q 0x80) (4 * q + 1) 3 = some ((bm.set q 0x80).set q 0xB0) :=
    @or_frame_byte (bm.set q 0x80) (4 * q + 1) 3 q 1 0x80 (by omega) (by omega)
      (getElem?_set_same _ hb)
  rw [List.set_set] at h2
  have h3 : or_frame (bm.set q 0xB0) (4 * q + 1 + 1) 3 = some ((bm.set q 0xB0).set q 0xBC) :=
    @or_frame_byte (bm.set q 0xB0) (4 * q + 1 + 1) 3 q 2 0xB0 (by omega) (by omega)
      (getElem?_set_same _ hb)
  rw [List.set_set] at h3
  have h4 : or_frame (bm.set q 0xBC) (4 * q + 1 + 1 + 1) 3 =
      some ((bm.set q 0xBC).set q 0xBF) :=
    @or_frame_byte (bm.set q 0xBC) (4 * q + 1 + 1 + 1) 3 q 3 0xBC (by omega) (by omega)
      (getElem?_set_same _ hb)
  rw [List.set_set] at h4
  obtain ⟨bm', hm, hpt⟩ := mark_run_zero_bytes m (bm.set q 0xBF) (q + 1) (by
    intro j hj1 hj2
    rw [List.getElem?_set_ne (by omega)]
    exact hz j (by omega) (by omega))
  have e4 : 4 * q + 1 + 1 + 1 + 1 = 4 * (q + 1) := by ring
  refine ⟨bm', ?_, ?_⟩
  · unfold mark_seq
    rw [h1, e]
    simp only [Option.some_bind, mark_run]
    rw [h2]
    simp only [Option.some_bind]
    rw [h3]
    simp only [Option.some_bind]
    rw [h4]
    simp only [Option.some_bind]
    rw [e4]
    exact hm
  · intro j
    rw [hpt j]
    by_cases hjq : j = q
    · subst hjq
      rw [if_neg (by omega), getElem?_set_same _ hb, if_pos rfl]
    · rw [if_neg hjq]
      by_cases hj : q + 1 ≤ j ∧ j < q + 1 + m
      · rw [if_pos hj, if_pos (by omega)]
      · rw [if_neg hj, if_neg (by omega), List.getElem?_set_ne (by omega)]

theorem test_zero_mask (bm : List Nat) (nF : Nat) (N : Int) (q b : Nat)
    (hb : bm[q]? = some b) : test 0 ⟨bm, nF, N, (q : Int)⟩ = some false := by
  rw [test_some 0 bm nF N q b hb]
  simp

/-- One pass through the body of the releasing loop at a byte whose lowest bit
is set: the four clearing statements run, none of the `break`s is taken. -/
theorem release_loop_odd_byte (fuel : Nat) (bm : List Nat) (nF : Nat) (N : Int) (q b : Nat)
    (hb : bm[q]? = some b) (hodd : b &&& 1 ≠ 0) :
    release_loop (fuel + 1) ⟨bm, nF, N, (q : Int)⟩ =
      release_loop fuel ⟨bm.set q (b &&& 0x3f &&& 0xcf &&& 0xf3 &&& 0xfc),
        ulong_inc (ulong_inc (ulong_inc (ulong_inc nF))), N, (q : Int) + 1⟩ := by
  have hc1 : c_eq 0xc0 0xc0 = 1 := rfl
  have hc2 : c_ne 0x03 0x03 = 0 := rfl
  have hc3 : c_ne 0x0c 0x0c = 0 := rfl
  rw [release_loop, hc1, hc2, hc3, test_some 1 bm nF N q b hb]
  simp only [Option.some_bind, hodd, ne_eq, not_false_eq_true, decide_True, if_true]
  rw [clear_some 0x3f bm nF N q b hb]
  simp only [Option.some_bind]
  rw [test_zero_mask _ _ _ q _ (getElem?_set_same _ hb)]
  simp only [Option.some_bind, Bool.false_eq_true, if_false]
  rw [clear_some 0xcf _ _ N q _ (getElem?_set_same _ hb), List.set_set]
  simp only [Option.some_bind]
  rw [test_zero_mask _ _ _ q _ (getElem?_set_same _ hb)]
  simp only [Option.some_bind, Bool.false_eq_true, if_false]
  rw [clear_some 0xf3 _ _ N q _ (getElem?_set_same _ hb), List.set_set]
  simp only [Option.some_bind]
  rw [test_zero_mask _ _ _ q _ (getElem?_set_same _ hb)]
  simp only [Option.some_bind, Bool.false_eq_true, if_false]
  rw [clear_some 0xfc _ _ N q _ (getElem?_set_same _ hb), List.set_set]
  simp only [Option.some_bind]
  rfl

/-- The releasing loop stops at a byte whose lowest bit is clear. -/
theorem release_loop_even_byte (fuel : Nat) (bm : List Nat) (nF : Nat) (N : Int) (q b : Nat)
    (hb : bm[q]? = some b) (heven : b &&& 1 = 0) :
    release_loop (fuel + 1) ⟨bm, nF, N, (q : Int)⟩ = some ⟨bm, nF, N, (q : Int)⟩ := by
  have hc1 : c_eq 0xc0 0xc0 = 1 := rfl
  rw [release_loop, hc1, test_some 1 bm nF N q b hb]
  simp [heven]

theorem ulong_inc_four (x : Nat) :
    ulong_inc (ulong_inc (ulong_inc (ulong_inc x))) = (x + 4) % ULONG_MOD := by
  unfold ulong_inc ULONG_MOD
  omega

theorem ulong_inc_lt (x : Nat) : ulong_inc x < ULONG_MOD :=
  Nat.mod_lt _ (by unfold ULONG_MOD; norm_num)

/-- The releasing loop over `m` bytes `0xFF` followed by a byte whose lowest bit
is clear: the `m` bytes become zero, the free counter rises by `4 * m`, no other
byte changes and the loop ends at the following byte. -/
theorem release_loop_ff_bytes : ∀ (m fuel : Nat) (bm : List Nat) (nF : Nat) (N : Int)
    (q b : Nat), m < fuel → nF < ULONG_MOD →
    (∀ j, q ≤ j → j < q + m → bm[j]? = some 0xFF) → bm[q + m]? = some b → b &&& 1 = 0 →
    ∃ bm', release_loop fuel ⟨bm, nF, N, (q : Int)⟩ =
        some ⟨bm', (nF + 4 * m) % ULONG_MOD, N, ((q + m : Nat) : Int)⟩ ∧
      ∀ j, bm'[j]? = if q ≤ j ∧ j < q + m then some 0 else bm[j]? := by
  intro m
  induction m with
  | zero =>
    intro fuel bm nF N q b hf hnF _ hb heven
    obtain ⟨f, rfl⟩ : ∃ f, fuel = f + 1 := ⟨fuel - 1, by omega⟩
    refine ⟨bm, ?_, ?_⟩
    · rw [release_loop_even_byte f bm nF N q b hb heven, Nat.mul_zero, Nat.add_zero,
        Nat.mod_eq_of_lt hnF, Nat.add_zero]
    · intro j
      rw [if_neg (by omega)]
  | succ m ih =>
    intro fuel bm nF N q b hf hnF hff hb heven
    obtain ⟨f, rfl⟩ : ∃ f, fuel = f + 1 := ⟨fuel - 1, by omega⟩
    have hq : bm[q]? = some 0xFF := hff q (le_refl q) (by omega)
    have hval : (0xFF : Nat) &&& 0x3f &&& 0xcf &&& 0xf3 &&& 0xfc = 0 := by decide
    have hcast : (q : Int) + 1 = ((q + 1 : Nat) : Int) := by push_cast; rfl
    rw [release_loop_odd_byte f bm nF N q 0xFF hq (by decide), hval, ulong_inc_four nF,
      hcast]
    have hb' : (bm.set q 0)[q + 1 + m]? = some b := by
      rw [List.getElem?_set_ne (by omega)]
      have e : q + 1 + m = q + (m + 1) := by omega
      rw [e]
      exact hb
    obtain ⟨bm', hrun, hpt⟩ := ih f (bm.set q 0) ((nF + 4) % ULONG_MOD) N (q + 1) b
      (by omega) (Nat.mod_lt _ (by unfold ULONG_MOD; norm_num))
      (by
        intro j h1 h2
        rw [List.getElem?_set_ne (by omega)]
        exact hff j (by omega) (by omega))
      hb' heven
    refine ⟨bm', ?_, ?_⟩
    · rw [hrun]
      have e1 : ((nF + 4) % ULONG_MOD + 4 * m) % ULONG_MOD = (nF + 4 * (m + 1)) % ULONG_MOD := by
        unfold ULONG_MOD
        omega
      have e2 : q + 1 + m = q + (m + 1) := by omega
      rw [e1, e2]
    · intro j
      rw [hpt j]
      by_cases hj : q + 1 ≤ j ∧ j < q + 1 + m
      · rw [if_pos hj, if_pos (by omega)]
      · rw [if_neg hj]
        by_cases hjq : j = q
        · subst hjq
          rw [getElem?_set_same _ hq, if_pos (by omega)]
        · rw [List.getElem?_set_ne (by omega), if_neg (by omega)]

theorem clear_if_true (m : Nat) (bm : List Nat) (nF : Nat) (N : Int) (q b : Nat)
    (hb : bm[q]? = some b) (hodd : b &&& 1 ≠ 0) :
    clear_if 1 m ⟨bm, nF, N, (q : Int)⟩ =
      some ⟨bm.set q (b &&& m), ulong_inc nF, N, (q : Int)⟩ := by
  unfold clear_if
  rw [test_some 1 bm nF N q b hb]
  simp only [Option.some_bind, hodd, ne_eq, not_false_eq_true, decide_True, if_true]
  exact clear_some m bm nF N q b hb

theorem clear_if_false (m : Nat) (bm : List Nat) (nF : Nat) (N : Int) (q b : Nat)
    (hb : bm[q]? = some b) (heven : b &&& 1 = 0) :
    clear_if 1 m ⟨bm, nF, N, (q : Int)⟩ = some ⟨bm, nF, N, (q : Int)⟩ := by
  unfold clear_if
  rw [test_some 1 bm nF N q b hb]
  simp [heven]

theorem clear_if_incr_true (m : Nat) (bm : List Nat) (nF : Nat) (N : Int) (q b : Nat)
    (hb : bm[q]? = some b) (hodd : b &&& 1 ≠ 0) :
    clear_if_incr 1 m ⟨bm, nF, N, (q : Int)⟩ =
      some ⟨bm.set q (b &&& m), ulong_inc nF, N, (q : Int) + 1⟩ := by
  unfold clear_if_incr
  rw [test_some 1 bm nF N q b hb]
  simp only [Option.some_bind, hodd, ne_eq, not_false_eq_true, decide_True, if_true]
  rw [clear_some m bm nF N q b hb]
  rfl

theorem clear_if_incr_false (m : Nat) (bm : List Nat) (nF : Nat) (N : Int) (q b : Nat)
    (hb : bm[q]? = some b) (heven : b &&& 1 = 0) :
    clear_if_incr 1 m ⟨bm, nF, N, (q : Int)⟩ = some ⟨bm, nF, N, (q : Int)⟩ := by
  unfold clear_if_incr
  rw [test_some 1 bm nF N q b hb]
  simp [heven]

/-- Releasing at the start of a byte `0xBF` (head and three `ALLOCATED` frames):
the byte becomes zero, the counter rises by 4 and the loop starts at the next
byte. -/
theorem release_branch_head_bf (bm : List Nat) (nF : Nat) (N : Int) (q : Nat)
    (hb : bm[q]? = some 0xBF) :
    release_branch 0 ⟨bm, nF, N, (q : Int)⟩ =
      release_loop ((bm.set q 0).length + 1)
        ⟨bm.set q 0, (nF + 4) % ULONG_MOD, N, ((q + 1 : Nat) : Int)⟩ := by
  have hc1 : c_eq 0x30 0x30 = 1 := rfl
  have hc2 : c_eq 0x0c 0x0c = 1 := rfl
  have hc3 : c_eq 0x03 0x03 = 1 := rfl
  rw [release_branch_zero, hc1, hc2, hc3, clear_some 0x3f bm nF N q 0xBF hb]
  simp only [Option.some_bind]
  rw [clear_if_true 0xcf _ _ N q _ (getElem?_set_same _ hb) (by decide), List.set_set]
  simp only [Option.some_bind]
  rw [clear_if_true 0xf3 _ _ N q _ (getElem?_set_same _ hb) (by decide), List.set_set]
  simp only [Option.some_bind]
  rw [clear_if_incr_true 0xfc _ _ N q _ (getElem?_set_same _ hb) (by decide), List.set_set]
  simp only [Option.some_bind]
  rw [ulong_inc_four nF]
  have hcast : (q : Int) + 1 = ((q + 1 : Nat) : Int) := by push_cast; rfl
  rw [hcast]
  rfl

/-- Releasing at the start of a byte `0x80` (a head followed by free frames):
the byte becomes zero and the counter rises by 1. -/
theorem release_branch_head_80 (bm : List Nat) (nF : Nat) (N : Int) (q : Nat)
    (hb : bm[q]? = some 0x80) :
    release_branch 0 ⟨bm, nF, N, (q : Int)⟩ =
      some ⟨bm.set q 0, ulong_inc nF, N, (q : Int)⟩ := by
  have hc1 : c_eq 0x30 0x30 = 1 := rfl
  have hc2 : c_eq 0x0c 0x0c = 1 := rfl
  have hc3 : c_eq 0x03 0x03 = 1 := rfl
  rw [release_branch_zero, hc1, hc2, hc3, clear_some 0x3f bm nF N q 0x80 hb]
  simp only [Option.some_bind]
  have h0 : (bm.set q (0x80 &&& 0x3f))[q]? = some 0 := getElem?_set_same _ hb
  rw [clear_if_false 0xcf _ _ N q _ h0 (by decide)]
  simp only [Option.some_bind]
  rw [clear_if_false 0xf3 _ _ N q _ h0 (by decide)]
  simp only [Option.some_bind]
  rw [clear_if_incr_false 0xfc _ _ N q _ h0 (by decide)]
  simp only [Option.some_bind]
  exact release_loop_even_byte _ _ _ N q 0 h0 (by decide)

/-! ## Allocation followed by release -/

/-- The search ends at the first all-zero byte. -/
theorem search_zero_first {bm : List Nat} {i : Nat} (hz : bm[i]? = some 0)
    (hfirst : ∀ j, j < i → bm[j]? ≠ some 0) : search_zero bm 0 = some i := by
  obtain ⟨i', hs⟩ := search_zero_isSome bm 0 i hz
  obtain ⟨_, hz', hbefore⟩ := search_zero_spec bm 0 i' hs
  simp only [Nat.sub_zero] at hz' hbefore
  rcases Nat.lt_trichotomy i' i with h | h | h
  · exact absurd hz' (hfirst i' h)
  · rw [hs, h]
  · obtain ⟨b, hb, hb0⟩ := hbefore i h
    rw [hz] at hb
    exact absurd (Option.some.inj hb).symm hb0

theorem byte_zero_of_states : ∀ b, b < 256 →
    (b >>> 6) &&& 3 = 0 → (b >>> 4) &&& 3 = 0 → (b >>> 2) &&& 3 = 0 → (b >>> 0) &&& 3 = 0 →
    b = 0 := by
  decide

/-- A byte below 256 whose four frames are `FREE` is zero. -/
theorem byte_of_free_frames {bm : List Nat} {j : Nat} (hbytes : ∀ b ∈ bm, b < 256)
    (h : ∀ r, r < 4 → frame_state bm (4 * j + r) = some FREE) : bm[j]? = some 0 := by
  have h0 := h 0 (by norm_num)
  have h1 := h 1 (by norm_num)
  have h2 := h 2 (by norm_num)
  have h3 := h 3 (by norm_num)
  unfold frame_state at h0 h1 h2 h3
  have e0 : (4 * j + 0) / 4 = j := by omega
  have e1 : (4 * j + 1) / 4 = j := by omega
  have e2 : (4 * j + 2) / 4 = j := by omega
  have e3 : (4 * j + 3) / 4 = j := by omega
  have m0 : (4 * j + 0) % 4 = 0 := by omega
  have m1 : (4 * j + 1) % 4 = 1 := by omega
  have m2 : (4 * j + 2) % 4 = 2 := by omega
  have m3 : (4 * j + 3) % 4 = 3 := by omega
  rw [e0, m0] at h0
  rw [e1, m1] at h1
  rw [e2, m2] at h2
  rw [e3, m3] at h3
  cases hb : bm[j]? with
  | none => rw [hb] at h0; simp at h0
  | some b =>
    rw [hb] at h0 h1 h2 h3
    simp only [Option.map_some', Option.some.injEq, FREE] at h0 h1 h2 h3
    have hlt : b < 256 := hbytes b (List.getElem?_mem hb)
    rw [byte_zero_of_states b hlt h0 h1 h2 h3]

theorem ulong_inc_dec {x : Nat} (hx : x < ULONG_MOD) : ulong_inc (ulong_dec x) = x := by
  unfold ulong_inc ulong_dec
  unfold ULONG_MOD at *
  split <;> omega

/-- Storing zero in a byte that is zero changes nothing. -/
theorem set_zero_of_zero {bm : List Nat} {i : Nat} (hz : bm[i]? = some 0) : bm.set i 0 = bm := by
  apply List.ext_getElem?
  intro j
  by_cases hj : j = i
  · subst hj
    rw [getElem?_set_same _ hz, hz]
  · rw [List.getElem?_set_ne (by omega)]

/-- Releasing right after a single head was marked in an all-zero byte `q`
restores the memory and raises the counter by 1. -/
theorem release_after_mark_one (R : List Nat) (nF : Nat) (N : Int) (q : Nat)
    (hz : R[q]? = some 0) :
    (release_branch 0 ⟨R.set q 0x80, nF, N, (q : Int)⟩).map Regs.out =
      some (R, ulong_inc nF) := by
  rw [release_branch_head_80 _ _ _ q (getElem?_set_same _ hz)]
  simp only [Option.map_some', List.set_set, set_zero_of_zero hz, Regs.out]

/-- Releasing right after `4 * (m + 1)` frames were marked from the start of
byte `q`, over all-zero bytes followed by a byte whose lowest bit is clear,
restores the memory and raises the counter by `4 * (m + 1)`. -/
theorem release_after_mark_bytes (m : Nat) (R R1 : List Nat) (nF : Nat) (N : Int)
    (q b : Nat) (hzb : ∀ j, q ≤ j → j < q + (m + 1) → R[j]? = some 0)
    (hb : R[q + (m + 1)]? = some b) (hbeven : b % 2 = 0)
    (hm : mark_seq R (4 * q) (4 * (m + 1) - 1) = some R1) :
    (release_branch 0 ⟨R1, nF, N, (q : Int)⟩).map Regs.out =
      some (R, ((nF + 4) % ULONG_MOD + 4 * m) % ULONG_MOD) := by
  obtain ⟨bm1, hm1, hpt1⟩ := mark_seq_zero_bytes m R q hzb
  rw [hm, Option.some.injEq] at hm1
  subst hm1
  have hz : R[q]? = some 0 := hzb q (le_refl q) (by omega)
  have hhead : R1[q]? = some 0xBF := by rw [hpt1 q, if_pos rfl]
  rw [release_branch_head_bf _ _ _ q hhead]
  have hff : ∀ j, q + 1 ≤ j → j < q + 1 + m → (R1.set q 0)[j]? = some 0xFF := by
    intro j h1 h2
    rw [List.getElem?_set_ne (by omega), hpt1 j, if_neg (by omega), if_pos (by omega)]
  have hlast : (R1.set q 0)[q + 1 + m]? = some b := by
    rw [List.getElem?_set_ne (by omega), hpt1, if_neg (by omega), if_neg (by omega)]
    have e : q + 1 + m = q + (m + 1) := by omega
    rw [e]
    exact hb
  have hfuel : m < (R1.set q 0).length + 1 := by
    have := (List.getElem?_eq_some.mp hlast).1
    omega
  obtain ⟨bm2, hrun, hpt2⟩ := release_loop_ff_bytes m _ (R1.set q 0)
    ((nF + 4) % ULONG_MOD) N (q + 1) b hfuel (Nat.mod_lt _ (by unfold ULONG_MOD; norm_num))
    hff hlast (by rw [Nat.and_one_is_mod]; exact hbeven)
  rw [hrun]
  simp only [Option.map_some', Regs.out, Option.some.injEq, Prod.mk.injEq, and_true]
  apply List.ext_getElem?
  intro j
  rw [hpt2 j]
  by_cases hj : q + 1 ≤ j ∧ j < q + 1 + m
  · rw [if_pos hj, hzb j (by omega) (by omega)]
  · rw [if_neg hj]
    by_cases hji : j = q
    · subst hji
      rw [getElem?_set_same _ hhead, hz]
    · rw [List.getElem?_set_ne (by omega), hpt1 j, if_neg hji, if_neg (by omega)]

/-- The pool a release leaves, in terms of the memory and counter of the
releasing code, for a frame number `4 * i` below `2^31`. -/
theorem pool_release_aligned (p1 : ContFramePool) (i : Nat) (hi : 4 * i < 2 ^ 31) :
    p1.pool_release_frames (4 * i) =
      ((release_branch 0 ⟨p1.region, p1.nFreeFrames, 0,
          ((p1.front.reverse.length + i : Nat) : Int)⟩).map Regs.out).map fun o =>
        p1.with_region o.1 o.2 := by
  unfold ContFramePool.pool_release_frames
  simp only []
  rw [to_int_of_lt hi, tdiv_four, tmod_four, Nat.mul_mod_right,
    Nat.mul_div_cancel_left i (by norm_num : 0 < 4), Nat.cast_zero, List.length_reverse]
  have e : (i : Int) + (p1.front.length : Int) = ((p1.front.length + i : Nat) : Int) := by
    push_cast; omega
  rw [e, Option.map_map]
  rfl

/-- C20 (as amended): let the first all-zero byte of the bitmap be at index `i`,
with `4 * i < 2^31` and with the test `i >= nframes * 4` of `get_frames` false;
let the bytes be below 256 and the free counter below `2^32`; let `k < 2^31` be 1
or a positive multiple of 4, let the frames `4i .. 4i+k-1` be `FREE` and, when
`k` is a multiple of 4, let the byte at index `i + k/4` have its lowest bit
clear.  Then `get_frames(k)` returns `4 * i`, and `pool_release_frames(4 * i)` run
on the resulting pool gives back the pool as it was before the allocation. -/
theorem C20_aligned_round_trip (p : ContFramePool) (i k : Nat)
    (hbytes : ∀ b ∈ p.bitmap, b < 256) (hcount : p.nFreeFrames < ULONG_MOD)
    (hz : p.bitmap[i]? = some 0) (hfirst : ∀ j, j < i → p.bitmap[j]? ≠ some 0)
    (hg : i % ULONG_MOD < p.nframes * 4 % ULONG_MOD) (hi : 4 * i < 2 ^ 31)
    (hk : k = 1 ∨ (0 < k ∧ k % 4 = 0)) (hk31 : k < 2 ^ 31)
    (hfree : ∀ t, t < k → frame_state p.bitmap (4 * i + t) = some FREE)
    (hnext : k % 4 = 0 → ∃ b, p.bitmap[i + k / 4]? = some b ∧ b % 2 = 0) :
    ∃ p1, p.get_frames k = .allocated (4 * i) p1 ∧
      p1.pool_release_frames (4 * i) = some p := by
  have hs := search_zero_first hz hfirst
  have hg' : ¬ i % ULONG_MOD ≥ p.nframes * 4 % ULONG_MOD := by omega
  have hi' : 4 * i < ULONG_MOD := by unfold ULONG_MOD; omega
  have hk1 : 1 ≤ k := by omega
  have hc := to_int_count hk1 hk31
  have hback : ∀ (bm1 : List Nat) (nF1 : Nat),
      ContFramePool.with_region { p with bitmap := bm1, nFreeFrames := nF1 } p.region
        p.nFreeFrames = p := by
    intro bm1 nF1
    exact with_region_append { p with bitmap := bm1, nFreeFrames := nF1 } p.bitmap p.nFreeFrames
  have hzr : ∀ j, p.region[p.front.reverse.length + j]? = p.bitmap[j]? := by
    intro j
    rw [List.length_reverse]
    exact region_getElem? p j
  rcases hk with rfl | ⟨hkpos, hk4⟩
  · have hm : mark_seq p.bitmap (4 * i) (to_int 1 - 1).toNat = some (p.bitmap.set i 0x80) := by
      rw [hc]
      exact mark_seq_one_frame p.bitmap i hz
    refine ⟨_, get_frames_of_seq hs hg' hi' hm, ?_⟩
    rw [pool_release_aligned _ i hi]
    have hreg : ∀ nF1, ContFramePool.region
        { p with bitmap := p.bitmap.set i 0x80, nFreeFrames := nF1 } =
        p.region.set (p.front.reverse.length + i) 0x80 := by
      intro nF1
      unfold ContFramePool.region
      simp only []
      rw [List.set_append_right _ _ (by omega), Nat.add_sub_cancel_left]
    rw [hreg, release_after_mark_one p.region _ _ _ (by rw [hzr]; exact hz)]
    simp only [Option.map_some', hc, Nat.sub_self, Nat.zero_add, ulong_dec_n,
      ulong_inc_dec hcount]
    rw [hback]
  · obtain ⟨m, rfl⟩ : ∃ m, k = 4 * (m + 1) := ⟨k / 4 - 1, by omega⟩
    have hzb : ∀ j, i ≤ j → j < i + (m + 1) → p.bitmap[j]? = some 0 := by
      intro j h1 h2
      apply byte_of_free_frames hbytes
      intro r hr
      have := hfree (4 * (j - i) + r) (by omega)
      have e : 4 * i + (4 * (j - i) + r) = 4 * j + r := by omega
      rwa [e] at this
    obtain ⟨b, hb, hbeven⟩ := hnext (by omega)
    have e4 : 4 * (m + 1) / 4 = m + 1 := by omega
    rw [e4] at hb
    obtain ⟨bm1, hm1, _⟩ := mark_seq_zero_bytes m p.bitmap i hzb
    have hm : mark_seq p.bitmap (4 * i) (to_int (4 * (m + 1)) - 1).toNat = some bm1 := by
      rw [hc]
      exact hm1
    refine ⟨_, get_frames_of_seq hs hg' hi' hm, ?_⟩
    rw [pool_release_aligned _ i hi]
    have hmr : mark_seq p.region (4 * (p.front.reverse.length + i)) (4 * (m + 1) - 1) =
        some (p.front.reverse ++ bm1) := by
      have := mark_seq_append p.front.reverse p.bitmap (4 * i) (4 * (m + 1) - 1)
      rw [hm1] at this
      rw [Nat.mul_add]
      exact this
    have hrel := release_after_mark_bytes m p.region (p.front.reverse ++ bm1)
      (ulong_dec_n ((to_int (4 * (m + 1)) - 1).toNat + 1) p.nFreeFrames) 0
      (p.front.reverse.length + i) b
      (by
        intro j h1 h2
        obtain ⟨t, rfl⟩ : ∃ t, j = p.front.reverse.length + t :=
          ⟨j - p.front.reverse.length, by omega⟩
        rw [hzr]
        exact hzb t (by omega) (by omega))
      (by rw [Nat.add_assoc, hzr]; exact hb) hbeven hmr
    have hreg : ∀ nF1, ContFramePool.region { p with bitmap := bm1, nFreeFrames := nF1 } =
        p.front.reverse ++ bm1 := fun _ => rfl
    rw [hreg, hrel]
    have hnF : ((ulong_dec_n ((to_int (4 * (m + 1)) - 1).toNat + 1) p.nFreeFrames + 4) %
        ULONG_MOD + 4 * m) % ULONG_MOD = p.nFreeFrames := by
      rw [hc]
      have e : 4 * (m + 1) - 1 + 1 = 4 * (m + 1) := by omega
      rw [e, ulong_dec_n_eq _ _ (by unfold ULONG_MOD; omega)]
      unfold ULONG_MOD at *
      split <;> omega
    simp only [Option.map_some', hnF]
    rw [hback]

/-! ## Allocation shape, frame 0, memory bounds and round trip: concrete pools -/

set_option maxRecDepth 100000

/-- C17 fails as stated.  On the fresh 16-frame pool, `mark_inaccessible(0, 1)`
leaves frame 0 `ALLOCATED` at the start of the pool; `mark_inaccessible(4, 2)`
followed by `mark_inaccessible(3, 2)` turns the head at frame 4 into
`ALLOCATED`; `get_frames(2)` followed by `pool_release_frames(4)` leaves frame 5
`ALLOCATED` behind the `FREE` frame 4. -/
theorem C17_allocations_merge_and_lose_heads :
    ContFramePool.construct 0 16 0 0 [0, 0, 0, 0] [] = some pool16 ∧
    pool16.mark_inaccessible 0 1 =
      some { pool16 with nFreeFrames := 14, bitmap := [0xC0, 0, 0, 0] } ∧
    frame_state [0xC0, 0, 0, 0] 0 = some ALLOCATED ∧
    ¬ runs_have_heads [0xC0, 0, 0, 0] 16 ∧
    pool16.calls [.mark_inaccessible 4 2] =
      some { pool16 with nFreeFrames := 13, bitmap := [0x40, 0xB0, 0, 0] } ∧
    frame_state [0x40, 0xB0, 0, 0] 4 = some HEAD_OF_SEQUENCE ∧
    pool16.calls [.mark_inaccessible 4 2, .mark_inaccessible 3 2] =
      some { pool16 with nFreeFrames := 11, bitmap := [0x42, 0xF0, 0, 0] } ∧
    frame_state [0x42, 0xF0, 0, 0] 4 = some ALLOCATED ∧
    pool16.calls [.get_frames 2, .pool_release_frames 4] =
      some { pool16 with nFreeFrames := 14, bitmap := [0x40, 0x30, 0, 0] } ∧
    frame_state [0x40, 0x30, 0, 0] 4 = some FREE ∧
    frame_state [0x40, 0x30, 0, 0] 5 = some ALLOCATED ∧
    ¬ runs_have_heads [0x40, 0x30, 0, 0] 16 := by
  decide

/-- C17 applied to the 16-frame pool after `get_frames(5)`. -/
theorem C17_runs_keep_heads_on_free_frames_witness :
    runs_have_heads pool16_get5.bitmap pool16_get5.nframes ∧
    ∀ (c : PoolCall) (p' : ContFramePool), pool16_get5.call_on_free c = some p' →
      ∀ k, k < pool16_get5.nframes →
        frame_state pool16_get5.bitmap k = some HEAD_OF_SEQUENCE →
        frame_state p'.bitmap k = some HEAD_OF_SEQUENCE :=
  C17_runs_keep_heads_on_free_frames 0 16 0 0 [0, 0, 0, 0] [] pool16 pool16_get5
    [.get_frames 5] (by decide) (by decide) (by decide) (by decide)

/-- C18 fails as stated: on the fresh 16-frame pool `mark_inaccessible(0, 1)`
turns frame 0 from `BOOKKEEPING` into `ALLOCATED`; `pool_release_frames(0)` turns
it into `FREE`, and the next `get_frames(1)` returns frame 0.  With one
addressable byte in front of the bitmap, `mark_inaccessible(4294967292, 5)`
starts at `bitmap[-1]`, marks four frames there and a fifth in byte 0: frame 0
becomes `ALLOCATED`. -/
theorem C18_bookkeeping_frame_is_overwritten :
    ContFramePool.construct 0 16 0 0 [0, 0, 0, 0] [] = some pool16 ∧
    frame_state pool16.bitmap 0 = some BOOKKEEPING ∧
    pool16.mark_inaccessible 0 1 =
      some { pool16 with nFreeFrames := 14, bitmap := [0xC0, 0, 0, 0] } ∧
    frame_state [0xC0, 0, 0, 0] 0 = some ALLOCATED ∧
    pool16.pool_release_frames 0 =
      some { pool16 with nFreeFrames := 16, bitmap := [0, 0, 0, 0] } ∧
    frame_state [0, 0, 0, 0] 0 = some FREE ∧
    ({ pool16 with nFreeFrames := 16, bitmap := [0, 0, 0, 0] } : ContFramePool).get_frames 1 =
      .allocated 0 { pool16 with nFreeFrames := 15, bitmap := [0x80, 0, 0, 0] } ∧
    ContFramePool.construct 0 16 0 0 [0, 0, 0, 0] [0] = some { pool16 with front := [0] } ∧
    ({ pool16 with front := [0] } : ContFramePool).mark_inaccessible 4294967292 5 =
      some { pool16 with nFreeFrames := 10, bitmap := [0xC0, 0, 0, 0], front := [0xBF] } := by
  decide

/-- C18 applied to the 16-frame pool and the calls `get_frames(5)`,
`mark_inaccessible(1, 2)`, `pool_release_frames(4)`; byte 1 of the resulting
bitmap is all-zero. -/
theorem C18_bookkeeping_frame_stays_witness :
    pool16.calls [.get_frames 5, .mark_inaccessible 1 2, .pool_release_frames 4] =
      some { pool16 with nFreeFrames := 12, bitmap := [0x6C, 0, 0xC0, 0] } ∧
    frame_state [0x6C, 0, 0xC0, 0] 0 = some BOOKKEEPING ∧
    ∀ (m f : Nat) (q : ContFramePool),
      ({ pool16 with nFreeFrames := 12, bitmap := [0x6C, 0, 0xC0, 0] } :
        ContFramePool).get_frames m = .allocated f q →
      4 ≤ f ∧ frame_state q.bitmap 0 = some BOOKKEEPING :=
  have h := C18_bookkeeping_frame_stays 0 16 0 [0, 0, 0, 0] [] pool16
    { pool16 with nFreeFrames := 12, bitmap := [0x6C, 0, 0xC0, 0] }
    [.get_frames 5, .mark_inaccessible 1 2, .pool_release_frames 4]
    (by decide) (by decide) (by decide) (by decide)
  ⟨by decide, h.1, fun m f q hq => h.2 m f q ⟨1, by decide, by decide⟩ hq⟩

/-- The search walks over a run of equal non-zero bytes. -/
theorem search_zero_replicate (v : Nat) (hv : v ≠ 0) (rest : List Nat) : ∀ (n o : Nat),
    search_zero (List.replicate n v ++ 0 :: rest) o = some (o + n) := by
  intro n
  induction n with
  | zero =>
    intro o
    simp [search_zero]
  | succ n ih =>
    intro o
    rw [List.replicate_succ, List.cons_append, search_zero, if_pos hv, ih (o + 1)]
    congr 1
    omega

theorem getElem?_replicate_append (v n : Nat) (rest : List Nat) :
    (List.replicate n v ++ 0 :: rest)[n]? = some 0 := by
  rw [List.getElem?_append_right (by rw [List.length_replicate]), List.length_replicate,
    Nat.sub_self]
  simp

theorem getElem?_replicate_append_lt (v n j : Nat) (rest : List Nat) (hj : j < n) :
    (List.replicate n v ++ 0 :: rest)[j]? = some v := by
  rw [List.getElem?_append_left (by rw [List.length_replicate]; exact hj),
    List.getElem?_replicate, if_pos hj]

/-- With a frame number that converts to the `int` value `-2^31` the releasing
code reads `bitmap[-2^29]`: a fault when no memory in front of the bitmap is
addressable. -/
theorem pool_release_frames_int_min (p : ContFramePool) (f : Nat) (hfront : p.front = [])
    (hto : to_int f = -2147483648) : p.pool_release_frames f = none := by
  unfold ContFramePool.pool_release_frames
  simp only [hto]
  have h1 : Int.tmod (-2147483648) 4 = 0 := by decide
  have h2 : Int.tdiv (-2147483648) 4 = -536870912 := by decide
  have h3 : (-536870912 : Int) + ((p.front.length : Nat) : Int) < 0 := by
    rw [hfront]
    decide
  rw [h1, h2, release_branch_zero, clear_neg _ _ h3]
  rfl

/-- With a frame number that converts to the `int` value `-2^31` the marking
code writes `bitmap[-2^29]`: a fault when no memory in front of the bitmap is
addressable. -/
theorem mark_inaccessible_int_min (p : ContFramePool) (b n : Nat) (hfront : p.front = [])
    (hto : to_int b = -2147483648) : p.mark_inaccessible b n = none := by
  unfold ContFramePool.mark_inaccessible
  simp only [hto]
  have h1 : Int.tmod (-2147483648) 4 = 0 := by decide
  have h2 : Int.tdiv (-2147483648) 4 = -536870912 := by decide
  have h3 : (-536870912 : Int) + ((p.front.length : Nat) : Int) < 0 := by
    rw [hfront]
    decide
  rw [h1, h2]
  unfold mark_branch
  rw [if_pos rfl, mark_neg _ _ h3]
  rfl

/-- When the first all-zero byte is byte `n`, `4 * n` is below `2^32` and converts
to the `int` value `-2^31`, `get_frames(1)` returns `4 * n` and
`pool_release_frames(4 * n)` faults when no memory in front of the bitmap is
addressable. -/
theorem round_trip_beyond_int_range (p : ContFramePool) (n : Nat) (rest : List Nat)
    (hbm : p.bitmap = List.replicate n 0x80 ++ 0 :: rest) (hfront : p.front = [])
    (hg : ¬ n % ULONG_MOD ≥ p.nframes * 4 % ULONG_MOD) (hn : 4 * n < ULONG_MOD)
    (hto : to_int (4 * n) = -2147483648) :
    p.bitmap[n]? = some 0 ∧ (∀ j, j < n → p.bitmap[j]? ≠ some 0) ∧
    frame_state p.bitmap (4 * n) = some FREE ∧
    ∃ p1, p.get_frames 1 = .allocated (4 * n) p1 ∧ p1.pool_release_frames (4 * n) = none := by
  have hz : p.bitmap[n]? = some 0 := by rw [hbm]; exact getElem?_replicate_append _ _ _
  have hs : search_zero p.bitmap 0 = some n := by
    rw [hbm, search_zero_replicate 0x80 (by decide) rest n 0, Nat.zero_add]
  have hm : mark_seq p.bitmap (4 * n) (to_int 1 - 1).toNat = some (p.bitmap.set n 0x80) :=
    mark_seq_one_frame p.bitmap n hz
  refine ⟨hz, ?_, ?_, _, get_frames_of_seq hs hg hn hm,
    pool_release_frames_int_min _ _ hfront hto⟩
  · intro j hj
    rw [hbm, getElem?_replicate_append_lt _ _ _ _ hj]
    decide
  · unfold frame_state
    rw [Nat.mul_div_cancel_left n (by norm_num : 0 < 4), hz, Nat.mul_mod_right]
    rfl

/-- C19 fails as stated, on a pool of 8 frames (bitmap bytes 0 and 1).
`mark_inaccessible(8, 1)` writes byte 2, and faults when the memory ends with
the bitmap.  With byte 1 non-zero, `get_frames(1)` reads on to byte 2, marks
frame 8 and returns it, and faults when the memory ends with the bitmap.
`get_frames(8)` marks frames 4 to 11.  `pool_release_frames(4)` clears byte 2
when its lowest bit is set.  In the pool of `2^31 + 2` frames,
`mark_inaccessible(2^31, 1)` names a frame of the pool and accesses
`bitmap[-2^29]`, a fault with no addressable memory in front of the bitmap. -/
theorem C19_accesses_leave_the_bitmap :
    pool8.mark_inaccessible 8 1 =
      some { pool8 with nFreeFrames := 6, bitmap := [0x40, 0, 0x80, 0] } ∧
    ({ pool8 with bitmap := [0x40, 0] } : ContFramePool).mark_inaccessible 8 1 = none ∧
    ({ pool8 with nFreeFrames := 6, bitmap := [0x40, 0x80, 0, 0] } :
        ContFramePool).get_frames 1 =
      .allocated 8 { pool8 with nFreeFrames := 5, bitmap := [0x40, 0x80, 0x80, 0] } ∧
    ({ pool8 with nFreeFrames := 6, bitmap := [0x40, 0x80] } :
        ContFramePool).get_frames 1 = .fault ∧
    pool8.get_frames 8 =
      .allocated 4 { pool8 with nFreeFrames := 4294967295, bitmap := [0x40, 0xBF, 0xFF, 0] } ∧
    (∀ k, k < 4 → frame_state [0x40, 0xBF, 0xFF, 0] (8 + k) = some ALLOCATED) ∧
    ({ pool8 with nFreeFrames := 3, bitmap := [0x40, 0xBF, 0x01, 0] } :
        ContFramePool).pool_release_frames 4 =
      some { pool8 with nFreeFrames := 11, bitmap := [0x40, 0, 0, 0] } ∧
    2 ^ 31 + 1 ≤ pool_huge.nframes ∧ pool_huge.mark_inaccessible (2 ^ 31) 1 = none :=
  ⟨by decide, by decide, by decide, by decide, by decide, by decide, by decide, by decide,
    mark_inaccessible_int_min pool_huge _ _ rfl (by decide)⟩

/-- C19 applied to the fresh 16-frame pool, whose bitmap has exactly 4 bytes. -/
theorem C19_calls_on_pool_frames_stay_inside_witness :
    (∀ b n, 1 ≤ n → b + n ≤ pool16.nframes →
      ∃ p', pool16.mark_inaccessible b n = some p' ∧
        p'.bitmap.length = pool16.bitmap.length) ∧
    (∀ k i, 1 ≤ k → search_zero pool16.bitmap 0 = some i → 4 * i + k ≤ pool16.nframes →
      pool16.get_frames k = .no_region pool16 ∨
      ∃ p', pool16.get_frames k = .allocated (4 * i) p' ∧
        p'.bitmap.length = pool16.bitmap.length) :=
  C19_calls_on_pool_frames_stay_inside pool16 (by decide) (by decide)

/-- A `get_frames(1)` on a bitmap starting `0x40, 0x00` returns early when the
test `i >= nframes * 4` holds for `i = 1`. -/
theorem get_frames_early_return (p : ContFramePool) (rest : List Nat)
    (hbm : p.bitmap = 0x40 :: 0 :: rest) (hg : 1 % ULONG_MOD ≥ p.nframes * 4 % ULONG_MOD) :
    p.get_frames 1 = .no_region p := by
  rw [get_frames_via_out, hbm]
  simp only [search_zero]
  rw [if_pos (by decide), if_neg (by decide)]
  simp only []
  rw [if_pos hg]

/-- In a bitmap starting `0x40, 0x00` byte 1 is the first all-zero byte and
frame 4 is `FREE`. -/
theorem second_byte_free (p : ContFramePool) (rest : List Nat)
    (hbm : p.bitmap = 0x40 :: 0 :: rest) :
    p.bitmap[1]? = some 0 ∧ p.bitmap[0]? = some 0x40 ∧
      frame_state p.bitmap 4 = some FREE := by
  rw [hbm]
  refine ⟨by simp, by simp, ?_⟩
  unfold frame_state
  simp [FREE]

/-- C20 fails as stated.  In a one-frame pool whose first all-zero byte is byte 4
of the memory at its bitmap, frame 16 reads as `FREE`, yet `get_frames(1)` takes
the early `return 0` and marks nothing.  In a pool of `2^30` frames the first
all-zero byte is byte 1 and frame 4 is a `FREE` frame of the pool, yet
`get_frames(1)` takes the early return as well: `nframes * 4` wraps to 0.  In a
pool of `2^31 + 2^29` frames whose first all-zero byte is byte `2^29`,
`get_frames(1)` returns frame `2^31`, and `pool_release_frames(2^31)` converts the
frame number to a negative `int` and accesses `bitmap[-2^29]`, a fault with no
addressable memory in front of the bitmap. -/
theorem C20_early_return_instead_of_allocation :
    pool1_far.bitmap[4]? = some 0 ∧ (∀ j, j < 4 → pool1_far.bitmap[j]? ≠ some 0) ∧
    frame_state pool1_far.bitmap 16 = some FREE ∧
    pool1_far.get_frames 1 = .no_region pool1_far ∧
    (pool1_far.get_frames 1).value = some 0 ∧
    pool_wrap.bitmap[1]? = some 0 ∧ pool_wrap.bitmap[0]? = some 0x40 ∧
    4 + 1 ≤ pool_wrap.nframes ∧
    frame_state pool_wrap.bitmap 4 = some FREE ∧
    pool_wrap.get_frames 1 = .no_region pool_wrap ∧
    4 * 2 ^ 29 + 1 ≤ pool_int_edge.nframes ∧
    pool_int_edge.bitmap[2 ^ 29]? = some 0 ∧
    (∀ j, j < 2 ^ 29 → pool_int_edge.bitmap[j]? ≠ some 0) ∧
    frame_state pool_int_edge.bitmap (4 * 2 ^ 29) = some FREE ∧
    ∃ p1, pool_int_edge.get_frames 1 = .allocated (4 * 2 ^ 29) p1 ∧
      p1.pool_release_frames (4 * 2 ^ 29) = none := by
  have h := second_byte_free pool_wrap _ rfl
  exact ⟨by decide, by decide, by decide, by decide, by decide, h.1, h.2.1, by decide, h.2.2,
    get_frames_early_return pool_wrap _ rfl (by decide), by decide,
    round_trip_beyond_int_range pool_int_edge (2 ^ 29) _ rfl rfl (by decide) (by decide)
      (by decide)⟩

/-- C20 applied to `get_frames(8)` on the fresh 16-frame pool: the call returns
frame 4 and `pool_release_frames(4)` gives the fresh pool back. -/
theorem C20_aligned_round_trip_witness :
    ∃ p1, pool16.get_frames 8 = .allocated (4 * 1) p1 ∧
      p1.pool_release_frames (4 * 1) = some pool16 :=
  C20_aligned_round_trip pool16 1 8 (by decide) (by decide) (by decide) (by decide)
    (by decide) (by decide) (by decide) (by decide) (by decide)
    (fun _ => ⟨0, by decide, by decide⟩)
